import Mathlib

/-!
# Output-port decision engine of a garnet mesh router

A shallow embedding of `src/mem/ruby/network/garnet/RoutingUnit.cc`:
the routing and weight tables, the static route selector
(`lookupRoutingTable`), the adaptive dimension-order router
(`outportComputeDXY`), and the destination-arrival feedback pass
(`outportCompute`).

C++ `int` values are embedded as `Int` (router ids, weights, counters) and
container indices that the code counts up from zero as `Nat`.  Integer
division and remainder are the truncating ones of C++ (`Int.tdiv`,
`Int.tmod`).  A run that stops without a value (a `fatal`, a failed
`assert`, an index outside its container) is an `Except.error`.
-/

namespace Garnet

/-! ## Data model -/

/-- Ways in which a call can stop without producing a value. -/
inductive Fault where
  /-- The call reached `fatal("Fatal Error:: No Route exists from this Router.")`. -/
  | noRoute
  /-- The call failed an `assert(...)`. -/
  | assertion
  /-- The call indexed a vector outside its bounds. -/
  | outOfRange
  /-- The call reached the `outportComputeCustom` placeholder. -/
  | placeholder
  deriving DecidableEq

/-- Modelled from the spec: the class `NetDest` (NetDest.hh, not among the
sources) is an immutable set of end-node identifiers; it is kept as the
list of its members. -/
structure NetDest where
  /-- The end-node identifiers that belong to the set. -/
  elems : List Nat
  deriving DecidableEq

/-- Modelled from the spec: `NetDest::intersectionIsNotEmpty` (NetDest.cc,
not among the sources) tells whether the two sets share a member. -/
def NetDest.intersectionIsNotEmpty (a b : NetDest) : Bool :=
  a.elems.any (fun x => b.elems.contains x)

/-- The direction tags that `PortDirection` (a string in the sources) takes
in this file; any tag that is none of the four cardinal ones or `Local`
behaves like `Unknown` in every comparison the code makes. -/
inductive PortDirection where
  | North
  | South
  | East
  | West
  | Local
  | Unknown
  deriving DecidableEq

/-- Modelled from the spec: the four congestion-ledger counters that
`Router` (Router.hh, not among the sources) keeps, one per cardinal
direction.  The code reads them into a `double`; integer counters convert
exactly, so they are compared as integers. -/
structure Trust where
  north : Int
  south : Int
  east : Int
  west : Int
  deriving DecidableEq

/-- Modelled from the spec: `Router::decrement_north_trust` lowers the North
counter by one. -/
def Trust.decrement_north_trust (t : Trust) : Trust := { t with north := t.north - 1 }

/-- Modelled from the spec: `Router::decrement_south_trust` lowers the South
counter by one. -/
def Trust.decrement_south_trust (t : Trust) : Trust := { t with south := t.south - 1 }

/-- Modelled from the spec: `Router::decrement_east_trust` lowers the East
counter by one. -/
def Trust.decrement_east_trust (t : Trust) : Trust := { t with east := t.east - 1 }

/-- Modelled from the spec: `Router::decrement_west_trust` lowers the West
counter by one. -/
def Trust.decrement_west_trust (t : Trust) : Trust := { t with west := t.west - 1 }

/-- Modelled from the spec: `Router::increment_north_trust` raises the North
counter by one. -/
def Trust.increment_north_trust (t : Trust) : Trust := { t with north := t.north + 1 }

/-- Modelled from the spec: `Router::increment_south_trust` raises the South
counter by one. -/
def Trust.increment_south_trust (t : Trust) : Trust := { t with south := t.south + 1 }

/-- Modelled from the spec: `Router::increment_east_trust` raises the East
counter by one. -/
def Trust.increment_east_trust (t : Trust) : Trust := { t with east := t.east + 1 }

/-- Modelled from the spec: `Router::increment_west_trust` raises the West
counter by one. -/
def Trust.increment_west_trust (t : Trust) : Trust := { t with west := t.west + 1 }

/-- The counter of a ledger entry that belongs to a cardinal direction
(zero for `Local` and `Unknown`, which have no counter). -/
def Trust.counter (t : Trust) : PortDirection → Int
  | .North => t.north
  | .South => t.south
  | .East => t.east
  | .West => t.west
  | _ => 0

/-- Whether a direction is one of North, South, East, West. -/
def PortDirection.isCardinal : PortDirection → Bool
  | .North => true
  | .South => true
  | .East => true
  | .West => true
  | _ => false

/-- Modelled from the spec: what the routing unit reads from `GarnetNetwork`
(GarnetNetwork.hh, not among the sources) and from the routers it reaches
through it: the mesh shape, the per-vnet ordering flag, the number of
routers `getRouter` can index, and the congestion ledger of each router
(routers are heap objects reached by pointer; the ledger is kept as a map
from router id to counters). -/
structure GarnetNetwork where
  /-- The value of `getNumRows()`. -/
  numRows : Int
  /-- The value of `getNumCols()`. -/
  numCols : Int
  /-- The length of the router vector that `getRouter` indexes. -/
  numRouters : Nat
  /-- The value of `isVNetOrdered(vnet)`. -/
  isVNetOrdered : Nat → Bool
  /-- The ledger counters of the router with a given id. -/
  trust : Int → Trust

/-- The fields of `RouteInfo` (CommonTypes.hh, not among the sources) that
the routing unit reads. -/
structure RouteInfo where
  src_router : Int
  dest_router : Int
  vnet : Nat
  net_dest : NetDest

/-- Modelled from the spec: the part of `flit` (flit.hh, not among the
sources) that the routing unit reads and writes: the directions taken so
far (`get_direction`) and the router ids visited so far (`get_path`). -/
structure Flit where
  direction : List PortDirection
  path : List Int

/-- Modelled from the spec: `flit::add_to_direction` appends one direction
to the history of directions taken. -/
def Flit.add_to_direction (t_flit : Flit) (dirn : PortDirection) : Flit :=
  { t_flit with direction := t_flit.direction ++ [dirn] }

/-- The member variables of `RoutingUnit`; `m_router_id` stands for
`m_router->get_id()`.  A `std::map` is kept as a partial function. -/
structure RoutingUnit where
  m_router_id : Int
  m_routing_table : List (List NetDest)
  m_weight_table : List Int
  m_inports_dirn2idx : PortDirection → Option Int
  m_inports_idx2dirn : Int → Option PortDirection
  m_outports_dirn2idx : PortDirection → Option Int
  m_outports_idx2dirn : Int → Option PortDirection

/-! ## Static route selector -/

/-- The first loop of `lookupRoutingTable`: `link` runs over the remaining
entries of `m_routing_table[vnet]`, and `min_weight` is lowered to the
weight of every intersecting link that does not exceed it. -/
def minWeightScan (msg_destination : NetDest) (m_weight_table : List Int) :
    List NetDest → Nat → Int → Except Fault Int
  | [], _, min_weight => .ok min_weight
  | entry :: rest, link, min_weight =>
    if msg_destination.intersectionIsNotEmpty entry then
      match m_weight_table[link]? with
      | none => .error .outOfRange
      | some w =>
        minWeightScan msg_destination m_weight_table rest (link + 1)
          (if w ≤ min_weight then w else min_weight)
    else
      minWeightScan msg_destination m_weight_table rest (link + 1) min_weight

/-- The second loop of `lookupRoutingTable`: every intersecting link whose
weight equals `min_weight` is counted in `num_candidates` and pushed to the
back of `output_link_candidates`. -/
def collectScan (msg_destination : NetDest) (m_weight_table : List Int) (min_weight : Int) :
    List NetDest → Nat → Nat × List Nat → Except Fault (Nat × List Nat)
  | [], _, acc => .ok acc
  | entry :: rest, link, (num_candidates, output_link_candidates) =>
    if msg_destination.intersectionIsNotEmpty entry then
      match m_weight_table[link]? with
      | none => .error .outOfRange
      | some w =>
        if w = min_weight then
          collectScan msg_destination m_weight_table min_weight rest (link + 1)
            (num_candidates + 1, output_link_candidates ++ [link])
        else
          collectScan msg_destination m_weight_table min_weight rest (link + 1)
            (num_candidates, output_link_candidates)
    else
      collectScan msg_destination m_weight_table min_weight rest (link + 1)
        (num_candidates, output_link_candidates)

/-- The two scans of `lookupRoutingTable` up to the emptiness test: the
pair `(num_candidates, output_link_candidates)`.  `INFINITE_` is the macro
of CommonTypes.hh (not among the sources) that `min_weight` starts from. -/
def outputLinkCandidates (INFINITE_ : Int) (ru : RoutingUnit) (vnet : Nat)
    (msg_destination : NetDest) : Except Fault (Nat × List Nat) :=
  match ru.m_routing_table[vnet]? with
  | none => .error .outOfRange
  | some links =>
    match minWeightScan msg_destination ru.m_weight_table links 0 INFINITE_ with
    | .error f => .error f
    | .ok min_weight =>
      collectScan msg_destination ru.m_weight_table min_weight links 0 (0, [])

/-- The function `RoutingUnit::lookupRoutingTable`; `rand` is the value that
the call of `rand()` yields. -/
def lookupRoutingTable (INFINITE_ : Int) (net : GarnetNetwork) (rand : Nat)
    (ru : RoutingUnit) (vnet : Nat) (msg_destination : NetDest) : Except Fault Nat :=
  match outputLinkCandidates INFINITE_ ru vnet msg_destination with
  | .error f => .error f
  | .ok (num_candidates, output_link_candidates) =>
    if output_link_candidates.length = 0 then .error .noRoute
    else
      let candidate := if !net.isVNetOrdered vnet then rand % num_candidates else 0
      match output_link_candidates[candidate]? with
      | none => .error .outOfRange
      | some output_link => .ok output_link

/-! ## Table and registry construction -/

/-- The constructor `RoutingUnit::RoutingUnit`: both tables cleared, the
direction maps empty. -/
def RoutingUnit.init (router_id : Int) : RoutingUnit :=
  { m_router_id := router_id
    m_routing_table := []
    m_weight_table := []
    m_inports_dirn2idx := fun _ => none
    m_inports_idx2dirn := fun _ => none
    m_outports_dirn2idx := fun _ => none
    m_outports_idx2dirn := fun _ => none }

/-- The function `RoutingUnit::addRoute`: the table grows to the number of
vnets of the entry, then each vnet of the entry receives its destination
set at the back of its link list. -/
def addRoute (ru : RoutingUnit) (routing_table_entry : List NetDest) : RoutingUnit :=
  let resized :=
    if routing_table_entry.length > ru.m_routing_table.length then
      ru.m_routing_table ++
        List.replicate (routing_table_entry.length - ru.m_routing_table.length) []
    else ru.m_routing_table
  { ru with
    m_routing_table :=
      (List.range resized.length).map (fun v =>
        match routing_table_entry[v]? with
        | some e => resized.getD v [] ++ [e]
        | none => resized.getD v []) }

/-- The function `RoutingUnit::addWeight`. -/
def addWeight (ru : RoutingUnit) (link_weight : Int) : RoutingUnit :=
  { ru with m_weight_table := ru.m_weight_table ++ [link_weight] }

/-- The function `RoutingUnit::supportsVnet`. -/
def supportsVnet (vnet : Int) (sVnets : List Int) : Bool :=
  if sVnets.length = 0 then true
  else if sVnets.contains vnet then true
  else false

/-- The function `RoutingUnit::addInDirection`. -/
def addInDirection (ru : RoutingUnit) (inport_dirn : PortDirection) (inport_idx : Int) :
    RoutingUnit :=
  { ru with
    m_inports_dirn2idx := fun d => if d = inport_dirn then some inport_idx
      else ru.m_inports_dirn2idx d
    m_inports_idx2dirn := fun i => if i = inport_idx then some inport_dirn
      else ru.m_inports_idx2dirn i }

/-- The function `RoutingUnit::addOutDirection`. -/
def addOutDirection (ru : RoutingUnit) (outport_dirn : PortDirection) (outport_idx : Int) :
    RoutingUnit :=
  { ru with
    m_outports_dirn2idx := fun d => if d = outport_dirn then some outport_idx
      else ru.m_outports_dirn2idx d
    m_outports_idx2dirn := fun i => if i = outport_idx then some outport_dirn
      else ru.m_outports_idx2dirn i }

/-- The expression `m_outports_dirn2idx[outport_dirn]`: the index stored for
the key, and the map afterwards; `std::map::operator[]` stores and yields
`0` for a key that is absent. -/
def readOutportIdx (m : PortDirection → Option Int) (outport_dirn : PortDirection) :
    Int × (PortDirection → Option Int) :=
  match m outport_dirn with
  | some idx => (idx, m)
  | none => (0, fun d => if d = outport_dirn then some 0 else m d)

/-! ## Adaptive dimension-order router -/

/-- The function `RoutingUnit::getRoutingUnitNumber`. -/
def getRoutingUnitNumber (router_no : Int) (outport_dirn : PortDirection) (num_cols : Int) :
    Int :=
  if outport_dirn = .North then router_no + num_cols
  else if outport_dirn = .East then router_no + 1
  else if outport_dirn = .South then router_no - num_cols
  else if outport_dirn = .West then router_no - 1
  else -1

/-- The branch structure of `outportComputeDXY` after its assertions: from
the hop counts and this router's counters, the value of `outport_dirn`
(initially `Unknown`) and this router's counters after the decrement. -/
def dxyChoose (x_hops y_hops : Int) (t : Trust) : PortDirection × Trust :=
  if x_hops = 0 ∨ y_hops = 0 then
    if x_hops = 0 then
      if y_hops > 0 then (.North, t.decrement_north_trust)
      else if y_hops < 0 then (.South, t.decrement_south_trust)
      else (.Unknown, t)
    else if y_hops = 0 then
      if x_hops > 0 then (.East, t.decrement_east_trust)
      else if x_hops < 0 then (.West, t.decrement_west_trust)
      else (.Unknown, t)
    else (.Unknown, t)
  else
    if x_hops > 0 then
      if y_hops > 0 then
        if t.north > t.east then (.North, t.decrement_north_trust)
        else (.East, t.decrement_east_trust)
      else if y_hops < 0 then
        if t.south > t.east then (.South, t.decrement_south_trust)
        else (.East, t.decrement_east_trust)
      else (.Unknown, t)
    else if x_hops < 0 then
      if y_hops > 0 then
        if t.north > t.west then (.North, t.decrement_north_trust)
        else (.West, t.decrement_west_trust)
      else if y_hops < 0 then
        if t.west > t.south then (.West, t.decrement_west_trust)
        else (.South, t.decrement_south_trust)
      else (.Unknown, t)
    else (.Unknown, t)

/-- The state a routing call leaves behind, with the port it returns. -/
structure Routed where
  /-- The returned output-port (or output-link) index. -/
  outport : Int
  /-- The network, with the ledger as the call left it. -/
  net : GarnetNetwork
  /-- The routing unit as the call left it. -/
  ru : RoutingUnit
  /-- The flit as the call left it. -/
  flit : Flit

/-- The ledger with the entry of router `id` replaced. -/
def GarnetNetwork.setTrust (net : GarnetNetwork) (id : Int) (t : Trust) : GarnetNetwork :=
  { net with trust := fun k => if k = id then t else net.trust k }

/-- The function `RoutingUnit::outportComputeDXY`.  The arguments `inport`,
`inport_dirn` and `flit_id` are never read and are left out. -/
def outportComputeDXY (net : GarnetNetwork) (ru : RoutingUnit) (route : RouteInfo)
    (t_flit : Flit) : Except Fault Routed :=
  let num_rows := net.numRows
  let num_cols := net.numCols
  if ¬ (num_rows > 0 ∧ num_cols > 0) then .error .assertion
  else
    let my_id := ru.m_router_id
    let my_x := my_id.tmod num_cols
    let my_y := my_id.tdiv num_cols
    let dest_id := route.dest_router
    let dest_x := dest_id.tmod num_cols
    let dest_y := dest_id.tdiv num_cols
    let x_hops := dest_x - my_x
    let y_hops := dest_y - my_y
    if x_hops = 0 ∧ y_hops = 0 then .error .assertion
    else
      let chosen := dxyChoose x_hops y_hops (net.trust my_id)
      let outport_dirn := chosen.1
      let read := readOutportIdx ru.m_outports_dirn2idx outport_dirn
      .ok { outport := read.1
            net := net.setTrust my_id chosen.2
            ru := { ru with m_outports_dirn2idx := read.2 }
            flit := t_flit.add_to_direction outport_dirn }

/-! ## Destination-arrival feedback pass -/

/-- Modelled from the spec: `GarnetNetwork::getRouter` (GarnetNetwork.hh, not
among the sources) is router lookup by id, defined on the ids below the
number of routers. -/
def getRouter (net : GarnetNetwork) (id : Int) : Except Fault Int :=
  if 0 ≤ id ∧ id < net.numRouters then .ok id else .error .outOfRange

/-- One of the two tracing loops of `outportCompute`: `remaining` more
iterations from index `i`, each looking up router `i` to print its
counters. -/
def traceTrusts (net : GarnetNetwork) : Nat → Nat → Except Fault Unit
  | _, 0 => .ok ()
  | i, remaining + 1 =>
    match getRouter net i with
    | .error f => .error f
    | .ok _ => traceTrusts net (i + 1) remaining

/-- The body of the crediting loop of `outportCompute` for the router
`tempRouter` and the tag `directions[i]`: four independent tests. -/
def creditStep (net : GarnetNetwork) (tempRouter : Int) (dirn : PortDirection) :
    GarnetNetwork :=
  let net1 := if dirn = .North then
      net.setTrust tempRouter (net.trust tempRouter).increment_north_trust else net
  let net2 := if dirn = .South then
      net1.setTrust tempRouter (net1.trust tempRouter).increment_south_trust else net1
  let net3 := if dirn = .West then
      net2.setTrust tempRouter (net2.trust tempRouter).increment_west_trust else net2
  if dirn = .East then
    net3.setTrust tempRouter (net3.trust tempRouter).increment_east_trust else net3

/-- The crediting loop of `outportCompute`: `remaining` more iterations from
index `i`. -/
def creditLoop (directions : List PortDirection) (routers : List Int) :
    Nat → Nat → GarnetNetwork → Except Fault GarnetNetwork
  | _, 0, net => .ok net
  | i, remaining + 1, net =>
    match routers[i]? with
    | none => .error .outOfRange
    | some r =>
      match getRouter net r with
      | .error f => .error f
      | .ok tempRouter =>
        match directions[i]? with
        | none => .error .outOfRange
        | some dirn =>
          creditLoop directions routers (i + 1) remaining (creditStep net tempRouter dirn)

/-- The feedback pass of `outportCompute`, from the copy of the flit's
history to the second tracing loop: the network it leaves behind. -/
def feedbackPass (net : GarnetNetwork) (t_flit : Flit) : Except Fault GarnetNetwork :=
  let directions := t_flit.direction
  let routers := t_flit.path
  match traceTrusts net 0 16 with
  | .error f => .error f
  | .ok _ =>
    if directions.length + 1 ≠ routers.length then .error .assertion
    else
      match creditLoop directions routers 0 (routers.length - 1) net with
      | .error f => .error f
      | .ok net' =>
        match traceTrusts net' 0 16 with
        | .error f => .error f
        | .ok _ => .ok net'

/-- The function `RoutingUnit::outportCompute`; `p` and the network of
`m_router` are the same network.  The arguments `inport`, `inport_dirn`,
`flit_id` and `is_modified` are never read and are left out. -/
def outportCompute (INFINITE_ : Int) (net : GarnetNetwork) (rand : Nat) (ru : RoutingUnit)
    (route : RouteInfo) (t_flit : Flit) : Except Fault Routed :=
  if route.dest_router = ru.m_router_id then
    match feedbackPass net t_flit with
    | .error f => .error f
    | .ok net' =>
      match lookupRoutingTable INFINITE_ net' rand ru route.vnet route.net_dest with
      | .error f => .error f
      | .ok outport => .ok { outport := outport, net := net', ru := ru, flit := t_flit }
  else
    outportComputeDXY net ru route t_flit


/-! ## Vocabulary of the statements -/

/-- Link `k` of the list `links` is a candidate of weight `w`: its
destination set intersects `msg_destination`, and the weight table holds
`w` for it. -/
def IsCandidate (msg_destination : NetDest) (m_weight_table : List Int)
    (links : List NetDest) (k : Nat) (w : Int) : Prop :=
  ∃ e, links[k]? = some e ∧ msg_destination.intersectionIsNotEmpty e = true ∧
    m_weight_table[k]? = some w

/-- Link `k` is a candidate whose weight is the minimum over all
candidates. -/
def IsMinCandidate (msg_destination : NetDest) (m_weight_table : List Int)
    (links : List NetDest) (k : Nat) : Prop :=
  ∃ w, IsCandidate msg_destination m_weight_table links k w ∧
    ∀ j wj, IsCandidate msg_destination m_weight_table links j wj → w ≤ wj

/-- The column of a router on the mesh, `id % num_cols`. -/
def meshX (id num_cols : Int) : Int := id.tmod num_cols

/-- The row of a router on the mesh, `id / num_cols`. -/
def meshY (id num_cols : Int) : Int := id.tdiv num_cols

/-- The number of positions `i` of the direction history at which the flit
recorded router `r` and direction `d`. -/
def creditCount (routers : List Int) (directions : List PortDirection) (r : Int)
    (d : PortDirection) : Nat :=
  ((List.range directions.length).filter
    (fun i => decide (routers[i]? = some r ∧ directions[i]? = some d))).length

/-- The number of positions `j` with `i ≤ j < i + n` at which the flit
recorded router `r` and direction `d`. -/
def creditCountFrom (routers : List Int) (directions : List PortDirection) (r : Int)
    (d : PortDirection) (i n : Nat) : Nat :=
  ((List.range' i n).filter
    (fun j => decide (routers[j]? = some r ∧ directions[j]? = some d))).length

/-! ## Sample configurations -/

/-- A 4x4 mesh of sixteen routers in which vnet 0 is ordered and every other
vnet is not, every ledger counter being 3. -/
def mesh4x4 : GarnetNetwork :=
  { numRows := 4
    numCols := 4
    numRouters := 16
    isVNetOrdered := fun vnet => vnet == 0
    trust := fun _ => { north := 3, south := 3, east := 3, west := 3 } }

/-- Router 0 with three links over two vnets: link 0 reaches nodes 0 and 1
at weight 2, link 1 reaches node 1 at weight 1, link 2 reaches nodes 1 and
2 at weight 1. -/
def threeLinkUnit : RoutingUnit :=
  addWeight (addWeight (addWeight
    (addRoute (addRoute (addRoute (RoutingUnit.init 0)
      [⟨[0, 1]⟩, ⟨[0, 1]⟩]) [⟨[1]⟩, ⟨[1]⟩]) [⟨[1, 2]⟩, ⟨[1, 2]⟩]) 2) 1) 1

/-- Router 0 with a single link to node 0, of weight 10001. -/
def heavyLinkUnit : RoutingUnit :=
  addWeight (addRoute (RoutingUnit.init 0) [⟨[0]⟩, ⟨[0]⟩]) 10001

/-- Router 0 with two links to node 7, of weights 20000 and 30000. -/
def twoHeavyLinksUnit : RoutingUnit :=
  addWeight (addWeight
    (addRoute (addRoute (RoutingUnit.init 0) [⟨[7]⟩, ⟨[7]⟩]) [⟨[7]⟩, ⟨[7]⟩]) 20000) 30000

/-- Router 0 of a mesh with its Local, East and North output ports
registered at indices 0, 1 and 2. -/
def cornerUnit : RoutingUnit :=
  addOutDirection (addOutDirection (addOutDirection (RoutingUnit.init 0) .Local 0) .East 1)
    .North 2

/-- A route from router 0 to the router `dest_router`, on vnet 0, for end
node 0. -/
def routeTo (dest_router : Int) : RouteInfo :=
  { src_router := 0, dest_router := dest_router, vnet := 0, net_dest := ⟨[0]⟩ }

/-- A flit that has not left its origin, router 0. -/
def freshFlit : Flit := { direction := [], path := [0] }

/-- The 4x4 mesh in which router 0 holds 5 for North and 3 for the three
other directions. -/
def northBiasedMesh : GarnetNetwork :=
  mesh4x4.setTrust 0 { north := 5, south := 3, east := 3, west := 3 }

/-- A flit that went from router 0 East to router 1 and from there North to
router 5, where it now is. -/
def arrivedFlit : Flit := { direction := [.East, .North], path := [0, 1, 5] }

/-- Router 5 of a mesh, with one link to end node 0, of weight 1. -/
def destinationUnit : RoutingUnit :=
  addWeight (addRoute (RoutingUnit.init 5) [⟨[0]⟩, ⟨[0]⟩]) 1

/-- A sequence of `addRoute` calls, one per entry, in order. -/
def addRoutes (ru : RoutingUnit) (entries : List (List NetDest)) : RoutingUnit :=
  entries.foldl addRoute ru

/-- The routing table of `ru` is the rectangle that the entries `prior`, each
of `n` vnets, span: no vnet before the first entry and `n` vnets after it,
and link `l` of vnet `v` is the destination set of entry `l` for vnet
`v`. -/
def SpansEntries (n : Nat) (prior : List (List NetDest)) (ru : RoutingUnit) : Prop :=
  ru.m_routing_table.length = (if prior = [] then 0 else n) ∧
  ∀ (v : Nat) (links : List NetDest), ru.m_routing_table[v]? = some links →
    links.length = prior.length ∧
    ∀ (l : Nat) (e : List NetDest), prior[l]? = some e → links[l]? = e[v]?

/-- A sequence of `addOutDirection` calls, one per (direction, index) pair,
in order. -/
def addOutDirections (ru : RoutingUnit) (calls : List (PortDirection × Int)) : RoutingUnit :=
  calls.foldl (fun r c => addOutDirection r c.1 c.2) ru

/-- A sequence of `addInDirection` calls, one per (direction, index) pair,
in order. -/
def addInDirections (ru : RoutingUnit) (calls : List (PortDirection × Int)) : RoutingUnit :=
  calls.foldl (fun r c => addInDirection r c.1 c.2) ru

/-- A 2x2 mesh of four routers, every ledger counter being 3. -/
def mesh2x2 : GarnetNetwork :=
  { numRows := 2
    numCols := 2
    numRouters := 4
    isVNetOrdered := fun vnet => vnet == 0
    trust := fun _ => { north := 3, south := 3, east := 3, west := 3 } }

/-- A flit that went from router 0 East to router 1, where it now is. -/
def oneHopFlit : Flit := { direction := [.East], path := [0, 1] }

/-- Router 1 of a mesh, with one link to end node 0, of weight 1. -/
def neighbourUnit : RoutingUnit :=
  addWeight (addRoute (RoutingUnit.init 1) [⟨[0]⟩, ⟨[0]⟩]) 1

/-- The number of hops between two routers of a mesh: the distance of their
columns plus the distance of their rows. -/
def manhattan (a b num_cols : Int) : Nat :=
  (meshX b num_cols - meshX a num_cols).natAbs + (meshY b num_cols - meshY a num_cols).natAbs

/-- A flit on its way: the network with its ledger, the router the flit is
at, and the flit. -/
structure Transit where
  net : GarnetNetwork
  router : Int
  flit : Flit

/-- A flit that is injected at router `src`: no direction taken yet, the
origin as the only router visited. -/
def Transit.start (net : GarnetNetwork) (src : Int) : Transit :=
  { net := net, router := src, flit := { direction := [], path := [src] } }

/-- Modelled from the spec: one hop of a flit, which the router pipeline (not
among the sources) performs.  The routing unit of the router the flit is
at runs `outportComputeDXY`; the flit moves to the neighbour that
`getRoutingUnitNumber` gives for the direction just appended to its history,
and that router is appended to the routers visited. -/
def routeHop (unitAt : Int → RoutingUnit) (route : RouteInfo) (s : Transit) :
    Except Fault Transit :=
  match outportComputeDXY s.net (unitAt s.router) route s.flit with
  | .error f => .error f
  | .ok res =>
    let next := getRoutingUnitNumber s.router (res.flit.direction.getLastD .Unknown)
      s.net.numCols
    .ok { net := res.net
          router := next
          flit := { res.flit with path := res.flit.path ++ [next] } }

/-- Modelled from the spec: `hops` hops of a flit, one after the other. -/
def routeHops (unitAt : Int → RoutingUnit) (route : RouteInfo) :
    Nat → Transit → Except Fault Transit
  | 0, s => .ok s
  | hops + 1, s =>
    match routeHop unitAt route s with
    | .error f => .error f
    | .ok s' => routeHops unitAt route hops s'

/-- The routing units of a mesh as their constructors leave them, one per
router id. -/
def freshUnits : Int → RoutingUnit := fun id => RoutingUnit.init id

/-- The flit injected at router `src` of the network `net` has made `hops`
hops towards `dest` and is in the state `s`: the mesh is as it was, the flit
is at a router of the mesh that is `hops` hops nearer to `dest` than `src`
is, its history holds `hops` directions and `hops + 1` routers of the mesh,
from `src` to the router it is at, and every counter is below its initial
value by the number of times the history names it. -/
def EnRoute (net : GarnetNetwork) (src dest : Int) (hops : Nat) (s : Transit) : Prop :=
  s.net.numRows = net.numRows ∧ s.net.numCols = net.numCols ∧
  s.net.numRouters = net.numRouters ∧ s.net.isVNetOrdered = net.isVNetOrdered ∧
  0 ≤ s.router ∧ s.router < net.numRows * net.numCols ∧
  manhattan s.router dest net.numCols + hops = manhattan src dest net.numCols ∧
  s.flit.direction.length = hops ∧ s.flit.path.length = hops + 1 ∧
  s.flit.path.getLast? = some s.router ∧ s.flit.path.head? = some src ∧
  (∀ r ∈ s.flit.path, 0 ≤ r ∧ r < net.numRows * net.numCols) ∧
  ∀ (r : Int) (d : PortDirection), d.isCardinal = true →
    (s.net.trust r).counter d + creditCount s.flit.path s.flit.direction r d =
      (net.trust r).counter d

/-! ## The two scans -/

theorem minWeightScan_spec (msg : NetDest) (wt : List Int) :
    ∀ (rest : List NetDest) (off : Nat) (mw m : Int),
      minWeightScan msg wt rest off mw = .ok m →
      m ≤ mw ∧
      (∀ i e, rest[i]? = some e → msg.intersectionIsNotEmpty e = true →
        ∃ w, wt[off + i]? = some w ∧ m ≤ w) ∧
      (m = mw ∨ ∃ i e, rest[i]? = some e ∧ msg.intersectionIsNotEmpty e = true ∧
        wt[off + i]? = some m) := by
  intro rest
  induction rest with
  | nil =>
    intro off mw m h
    simp only [minWeightScan, Except.ok.injEq] at h
    subst h
    exact ⟨le_refl _, by simp, Or.inl rfl⟩
  | cons entry rest ih =>
    intro off mw m h
    unfold minWeightScan at h
    by_cases hi : msg.intersectionIsNotEmpty entry = true
    · rw [if_pos hi] at h
      cases hw : wt[off]? with
      | none => rw [hw] at h; cases h
      | some w =>
        rw [hw] at h
        obtain ⟨h1, h2, h3⟩ := ih (off + 1) _ m h
        have hmw : m ≤ mw ∧ m ≤ w := by
          by_cases hle : w ≤ mw
          · rw [if_pos hle] at h1; exact ⟨le_trans h1 hle, h1⟩
          · rw [if_neg hle] at h1; exact ⟨h1, by omega⟩
        refine ⟨hmw.1, ?_, ?_⟩
        · intro i e hie hint
          cases i with
          | zero => exact ⟨w, by simpa using hw, hmw.2⟩
          | succ j =>
            have hj : rest[j]? = some e := by simpa using hie
            have := h2 j e hj hint
            rwa [show off + 1 + j = off + (j + 1) by omega] at this
        · rcases h3 with h3 | ⟨i, e, hie, hint, hwi⟩
          · by_cases hle : w ≤ mw
            · rw [if_pos hle] at h3
              exact Or.inr ⟨0, entry, by simp, hi, by simpa [h3] using hw⟩
            · rw [if_neg hle] at h3; exact Or.inl h3
          · refine Or.inr ⟨i + 1, e, by simpa using hie, hint, ?_⟩
            rwa [show off + 1 + i = off + (i + 1) by omega] at hwi
    · rw [if_neg hi] at h
      obtain ⟨h1, h2, h3⟩ := ih (off + 1) mw m h
      refine ⟨h1, ?_, ?_⟩
      · intro i e hie hint
        cases i with
        | zero =>
          have : entry = e := by simpa using hie
          subst this; exact absurd hint hi
        | succ j =>
          have hj : rest[j]? = some e := by simpa using hie
          have := h2 j e hj hint
          rwa [show off + 1 + j = off + (j + 1) by omega] at this
      · rcases h3 with h3 | ⟨i, e, hie, hint, hwi⟩
        · exact Or.inl h3
        · refine Or.inr ⟨i + 1, e, by simpa using hie, hint, ?_⟩
          rwa [show off + 1 + i = off + (i + 1) by omega] at hwi

theorem minWeightScan_total (msg : NetDest) (wt : List Int) :
    ∀ (rest : List NetDest) (off : Nat) (mw : Int),
      (∀ i e, rest[i]? = some e → msg.intersectionIsNotEmpty e = true →
        off + i < wt.length) →
      ∃ m, minWeightScan msg wt rest off mw = .ok m := by
  intro rest
  induction rest with
  | nil => intro off mw _; exact ⟨mw, rfl⟩
  | cons entry rest ih =>
    intro off mw hcov
    have hrest : ∀ i e, rest[i]? = some e → msg.intersectionIsNotEmpty e = true →
        off + 1 + i < wt.length := by
      intro i e hie hint
      have := hcov (i + 1) e (by simpa using hie) hint
      omega
    unfold minWeightScan
    by_cases hi : msg.intersectionIsNotEmpty entry = true
    · rw [if_pos hi]
      have h0 : off < wt.length := by simpa using hcov 0 entry (by simp) hi
      rw [List.getElem?_eq_getElem h0]
      exact ih (off + 1) _ hrest
    · rw [if_neg hi]
      exact ih (off + 1) mw hrest


/-- What the second scan adds to its accumulators: the indices, in
increasing order, of the intersecting links of weight `m`. -/
theorem collectScan_spec (msg : NetDest) (wt : List Int) (m : Int) :
    ∀ (rest : List NetDest) (off n : Nat) (acc : List Nat) (n' : Nat) (acc' : List Nat),
      collectScan msg wt m rest off (n, acc) = .ok (n', acc') →
      ∃ cs : List Nat, n' = n + cs.length ∧ acc' = acc ++ cs ∧
        (∀ k, k ∈ cs ↔ ∃ i e, k = off + i ∧ rest[i]? = some e ∧
          msg.intersectionIsNotEmpty e = true ∧ wt[k]? = some m) ∧
        cs.Pairwise (fun a b => a < b) ∧ ∀ k ∈ cs, off ≤ k := by
  intro rest
  induction rest with
  | nil =>
    intro off n acc n' acc' h
    simp only [collectScan, Except.ok.injEq, Prod.mk.injEq] at h
    exact ⟨[], by simp [h.1], by simp [h.2], by simp, List.Pairwise.nil, by simp⟩
  | cons entry rest ih =>
    intro off n acc n' acc' h
    unfold collectScan at h
    have shift : ∀ cs : List Nat,
        (∀ k, k ∈ cs ↔ ∃ i e, k = off + 1 + i ∧ rest[i]? = some e ∧
          msg.intersectionIsNotEmpty e = true ∧ wt[k]? = some m) →
        ∀ k, k ∈ cs ↔ ∃ i e, k = off + (i + 1) ∧ (entry :: rest)[i + 1]? = some e ∧
          msg.intersectionIsNotEmpty e = true ∧ wt[k]? = some m := by
      intro cs hcs k
      rw [hcs k]
      constructor
      · rintro ⟨i, e, hk, hie, hint, hw⟩
        exact ⟨i, e, by omega, by simpa using hie, hint, hw⟩
      · rintro ⟨i, e, hk, hie, hint, hw⟩
        exact ⟨i, e, by omega, by simpa using hie, hint, hw⟩
    have skip : ∀ cs : List Nat,
        (msg.intersectionIsNotEmpty entry = true → wt[off]? ≠ some m) →
        (∀ k, k ∈ cs ↔ ∃ i e, k = off + 1 + i ∧ rest[i]? = some e ∧
          msg.intersectionIsNotEmpty e = true ∧ wt[k]? = some m) →
        ∀ k, k ∈ cs ↔ ∃ i e, k = off + i ∧ (entry :: rest)[i]? = some e ∧
          msg.intersectionIsNotEmpty e = true ∧ wt[k]? = some m := by
      intro cs hno hcs k
      rw [shift cs hcs k]
      constructor
      · rintro ⟨i, e, hk, hie, hint, hw⟩
        exact ⟨i + 1, e, hk, hie, hint, hw⟩
      · rintro ⟨i, e, hk, hie, hint, hw⟩
        cases i with
        | zero =>
          have he : entry = e := by simpa using hie
          subst he
          have hk0 : k = off := by omega
          subst hk0
          exact absurd hw (hno hint)
        | succ j => exact ⟨j, e, hk, hie, hint, hw⟩
    by_cases hi : msg.intersectionIsNotEmpty entry = true
    · rw [if_pos hi] at h
      cases hw : wt[off]? with
      | none => rw [hw] at h; cases h
      | some w =>
        rw [hw] at h
        by_cases hwm : w = m
        · simp only [hwm, if_true] at h
          obtain ⟨cs, hn, hacc, hmem, hsorted, hlow⟩ := ih (off + 1) (n + 1) (acc ++ [off]) n' acc' h
          refine ⟨off :: cs, by simp [hn]; omega, by simp [hacc], ?_, ?_, ?_⟩
          · intro k
            rw [List.mem_cons, shift cs hmem k]
            constructor
            · rintro (hk | ⟨i, e, hk, hie, hint, hwk⟩)
              · exact ⟨0, entry, by omega, by simp, hi, by rw [hk, hw, hwm]⟩
              · exact ⟨i + 1, e, hk, hie, hint, hwk⟩
            · rintro ⟨i, e, hk, hie, hint, hwk⟩
              cases i with
              | zero => exact Or.inl (by omega)
              | succ j => exact Or.inr ⟨j, e, hk, hie, hint, hwk⟩
          · refine List.Pairwise.cons ?_ hsorted
            intro k hk
            have := hlow k hk
            omega
          · intro k hk
            rcases List.mem_cons.mp hk with hk | hk
            · omega
            · have := hlow k hk; omega
        · simp only [hwm, if_false] at h
          obtain ⟨cs, hn, hacc, hmem, hsorted, hlow⟩ := ih (off + 1) n acc n' acc' h
          refine ⟨cs, hn, hacc, skip cs ?_ hmem, hsorted, ?_⟩
          · intro _ hcontra
            rw [hw] at hcontra
            exact hwm (by simpa using hcontra)
          · intro k hk
            have := hlow k hk; omega
    · rw [if_neg hi] at h
      obtain ⟨cs, hn, hacc, hmem, hsorted, hlow⟩ := ih (off + 1) n acc n' acc' h
      refine ⟨cs, hn, hacc, skip cs (fun hint => absurd hint hi) hmem, hsorted, ?_⟩
      intro k hk
      have := hlow k hk; omega

theorem collectScan_total (msg : NetDest) (wt : List Int) (m : Int) :
    ∀ (rest : List NetDest) (off : Nat) (acc : Nat × List Nat),
      (∀ i e, rest[i]? = some e → msg.intersectionIsNotEmpty e = true →
        off + i < wt.length) →
      ∃ r, collectScan msg wt m rest off acc = .ok r := by
  intro rest
  induction rest with
  | nil => intro off acc _; exact ⟨acc, by simp [collectScan]⟩
  | cons entry rest ih =>
    intro off acc hcov
    obtain ⟨n, cands⟩ := acc
    have hrest : ∀ i e, rest[i]? = some e → msg.intersectionIsNotEmpty e = true →
        off + 1 + i < wt.length := by
      intro i e hie hint
      have := hcov (i + 1) e (by simpa using hie) hint
      omega
    unfold collectScan
    by_cases hi : msg.intersectionIsNotEmpty entry = true
    · rw [if_pos hi]
      have h0 : off < wt.length := by simpa using hcov 0 entry (by simp) hi
      rw [List.getElem?_eq_getElem h0]
      by_cases hwm : wt[off] = m
      · simp only [hwm, if_true]; exact ih (off + 1) _ hrest
      · simp only [hwm, if_false]; exact ih (off + 1) _ hrest
    · rw [if_neg hi]
      exact ih (off + 1) _ hrest


/-! ## The candidate list -/

/-- What the two scans leave behind when they complete: the count equals the
length of the list, the list is strictly increasing, it holds exactly the
candidates of weight `m` (the minimum the first scan found), and `m` is
below every candidate weight and not above `INFINITE_`. -/
theorem outputLinkCandidates_spec (INFINITE_ : Int) (ru : RoutingUnit) (vnet : Nat)
    (msg : NetDest) (links : List NetDest) (n : Nat) (cs : List Nat)
    (hv : ru.m_routing_table[vnet]? = some links)
    (h : outputLinkCandidates INFINITE_ ru vnet msg = .ok (n, cs)) :
    ∃ m : Int, m ≤ INFINITE_ ∧ n = cs.length ∧ cs.Pairwise (fun a b => a < b) ∧
      (∀ k, k ∈ cs ↔ IsCandidate msg ru.m_weight_table links k m) ∧
      (∀ j wj, IsCandidate msg ru.m_weight_table links j wj → m ≤ wj) ∧
      (m = INFINITE_ ∨ ∃ i, IsCandidate msg ru.m_weight_table links i m) := by
  unfold outputLinkCandidates at h
  rw [hv] at h
  simp only at h
  cases hm : minWeightScan msg ru.m_weight_table links 0 INFINITE_ with
  | error f => rw [hm] at h; cases h
  | ok m =>
    rw [hm] at h
    simp only at h
    obtain ⟨h1, h2, h3⟩ := minWeightScan_spec msg ru.m_weight_table links 0 INFINITE_ m hm
    obtain ⟨cs', hn, hacc, hmem, hsorted, -⟩ :=
      collectScan_spec msg ru.m_weight_table m links 0 0 [] n cs h
    have hcs : cs = cs' := by simpa using hacc
    subst hcs
    refine ⟨m, h1, by omega, hsorted, ?_, ?_, ?_⟩
    · intro k
      rw [hmem k]
      constructor
      · rintro ⟨i, e, hk, hie, hint, hw⟩
        have hki : k = i := by omega
        subst hki
        exact ⟨e, hie, hint, hw⟩
      · rintro ⟨e, hie, hint, hw⟩
        exact ⟨k, e, by omega, hie, hint, hw⟩
    · rintro j wj ⟨e, hje, hint, hw⟩
      obtain ⟨w, hw', hle⟩ := h2 j e hje hint
      rw [Nat.zero_add, hw] at hw'
      cases hw'
      exact hle
    · rcases h3 with h3 | ⟨i, e, hie, hint, hw⟩
      · exact Or.inl h3
      · rw [Nat.zero_add] at hw
        exact Or.inr ⟨i, e, hie, hint, hw⟩

/-- The two scans complete when the vnet is a valid index and the weight
table has an entry for every link of the vnet. -/
theorem outputLinkCandidates_total (INFINITE_ : Int) (ru : RoutingUnit) (vnet : Nat)
    (msg : NetDest) (links : List NetDest)
    (hv : ru.m_routing_table[vnet]? = some links)
    (hw : links.length ≤ ru.m_weight_table.length) :
    ∃ n cs, outputLinkCandidates INFINITE_ ru vnet msg = .ok (n, cs) := by
  have hcov : ∀ i e, links[i]? = some e → msg.intersectionIsNotEmpty e = true →
      0 + i < ru.m_weight_table.length := by
    intro i e hie _
    obtain ⟨hi, -⟩ := List.getElem?_eq_some_iff.mp hie
    omega
  obtain ⟨m, hm⟩ := minWeightScan_total msg ru.m_weight_table links 0 INFINITE_ hcov
  obtain ⟨⟨n, cs⟩, hc⟩ := collectScan_total msg ru.m_weight_table m links 0 (0, []) hcov
  refine ⟨n, cs, ?_⟩
  unfold outputLinkCandidates
  rw [hv]
  simp only [hm, hc]

/-- A non-empty candidate list holds exactly the minimum-weight candidates. -/
theorem mem_candidates_iff_isMinCandidate (INFINITE_ : Int) (ru : RoutingUnit) (vnet : Nat)
    (msg : NetDest) (links : List NetDest) (n : Nat) (cs : List Nat)
    (hv : ru.m_routing_table[vnet]? = some links)
    (h : outputLinkCandidates INFINITE_ ru vnet msg = .ok (n, cs)) (hne : cs ≠ []) :
    ∀ k, k ∈ cs ↔ IsMinCandidate msg ru.m_weight_table links k := by
  obtain ⟨m, -, -, -, hmem, hmin, -⟩ := outputLinkCandidates_spec INFINITE_ ru vnet msg links n cs hv h
  obtain ⟨k0, hk0⟩ := List.exists_mem_of_ne_nil cs hne
  have hk0c := (hmem k0).mp hk0
  intro k
  constructor
  · intro hk
    exact ⟨m, (hmem k).mp hk, hmin⟩
  · rintro ⟨w, hkw, hall⟩
    have h1 : w ≤ m := hall k0 m hk0c
    have h2 : m ≤ w := hmin k w hkw
    have hwm : w = m := le_antisymm h1 h2
    subst hwm
    exact (hmem k).mpr hkw

/-- The candidate list is non-empty exactly when some candidate has a weight
that does not exceed `INFINITE_`. -/
theorem candidates_ne_nil_iff (INFINITE_ : Int) (ru : RoutingUnit) (vnet : Nat)
    (msg : NetDest) (links : List NetDest) (n : Nat) (cs : List Nat)
    (hv : ru.m_routing_table[vnet]? = some links)
    (h : outputLinkCandidates INFINITE_ ru vnet msg = .ok (n, cs)) :
    cs ≠ [] ↔ ∃ k w, IsCandidate msg ru.m_weight_table links k w ∧ w ≤ INFINITE_ := by
  obtain ⟨m, hle, -, -, hmem, hmin, hsrc⟩ :=
    outputLinkCandidates_spec INFINITE_ ru vnet msg links n cs hv h
  constructor
  · intro hne
    obtain ⟨k0, hk0⟩ := List.exists_mem_of_ne_nil cs hne
    exact ⟨k0, m, (hmem k0).mp hk0, hle⟩
  · rintro ⟨k, w, hkw, hwle⟩
    rcases hsrc with hsrc | ⟨i, hi⟩
    · have h2 : m ≤ w := hmin k w hkw
      have hwm : w = m := by omega
      subst hwm
      exact List.ne_nil_of_mem ((hmem k).mpr hkw)
    · exact List.ne_nil_of_mem ((hmem i).mpr hi)

/-- The selection step of `lookupRoutingTable` on a non-empty candidate
list: position `0` on an ordered vnet, position `rand % num_candidates`
otherwise. -/
theorem lookupRoutingTable_of_candidates (INFINITE_ : Int) (net : GarnetNetwork)
    (rand : Nat) (ru : RoutingUnit) (vnet : Nat) (msg : NetDest) (cs : List Nat)
    (h : outputLinkCandidates INFINITE_ ru vnet msg = .ok (cs.length, cs)) (hne : cs ≠ []) :
    ∃ l, cs[if net.isVNetOrdered vnet = true then 0 else rand % cs.length]? = some l ∧
      lookupRoutingTable INFINITE_ net rand ru vnet msg = .ok l := by
  have hpos : 0 < cs.length := List.length_pos.mpr hne
  have hmod : rand % cs.length < cs.length := Nat.mod_lt _ hpos
  cases ho : net.isVNetOrdered vnet
  · exact ⟨cs[rand % cs.length], by simp,
      by simp [lookupRoutingTable, h, ho, hne, List.getElem?_eq_getElem hmod]⟩
  · exact ⟨cs[0], by simp [List.getElem?_eq_getElem hpos],
      by simp [lookupRoutingTable, h, ho, hne, List.getElem?_eq_getElem hpos]⟩

/-- An empty candidate list ends the call in the no-route error. -/
theorem lookupRoutingTable_of_no_candidates (INFINITE_ : Int) (net : GarnetNetwork)
    (rand : Nat) (ru : RoutingUnit) (vnet : Nat) (msg : NetDest) (n : Nat)
    (h : outputLinkCandidates INFINITE_ ru vnet msg = .ok (n, [])) :
    lookupRoutingTable INFINITE_ net rand ru vnet msg = .error .noRoute := by
  unfold lookupRoutingTable
  rw [h]
  simp


/-! ## Static route selector: contracts -/

/-- C1, as the code has it: if the vnet is a valid index, the weight table
has an entry for every link of the vnet, and at least one link whose
destination set intersects the destination has a weight that does not
exceed `INFINITE_`, then for every ordering flag and every random draw the
call returns a link that intersects the destination and whose weight is the
minimum over all intersecting links. -/
theorem lookupRoutingTable_returns_min_weight_link (INFINITE_ : Int) (net : GarnetNetwork)
    (rand : Nat) (ru : RoutingUnit) (vnet : Nat) (msg : NetDest) (links : List NetDest)
    (hv : ru.m_routing_table[vnet]? = some links)
    (hw : links.length ≤ ru.m_weight_table.length)
    (hex : ∃ k w, IsCandidate msg ru.m_weight_table links k w ∧ w ≤ INFINITE_) :
    ∃ l, lookupRoutingTable INFINITE_ net rand ru vnet msg = .ok l ∧
      IsMinCandidate msg ru.m_weight_table links l := by
  obtain ⟨n, cs, hc⟩ := outputLinkCandidates_total INFINITE_ ru vnet msg links hv hw
  have hne : cs ≠ [] := (candidates_ne_nil_iff INFINITE_ ru vnet msg links n cs hv hc).mpr hex
  obtain ⟨-, -, hn, -, -, -, -⟩ := outputLinkCandidates_spec INFINITE_ ru vnet msg links n cs hv hc
  subst hn
  obtain ⟨l, hl, hres⟩ :=
    lookupRoutingTable_of_candidates INFINITE_ net rand ru vnet msg cs hc hne
  refine ⟨l, hres, ?_⟩
  exact (mem_candidates_iff_isMinCandidate INFINITE_ ru vnet msg links _ cs hv hc hne l).mp
    (List.mem_iff_getElem?.mpr ⟨_, hl⟩)

/-- C1 at a concrete input: on the three-link unit, destination node 1 and
the unordered vnet 1 with draw 5, a minimum-weight link is returned. -/
theorem lookupRoutingTable_returns_min_weight_link_witness :
    ∃ l, lookupRoutingTable 10000 mesh4x4 5 threeLinkUnit 1 ⟨[1]⟩ = .ok l ∧
      IsMinCandidate ⟨[1]⟩ threeLinkUnit.m_weight_table [⟨[0, 1]⟩, ⟨[1]⟩, ⟨[1, 2]⟩] l :=
  lookupRoutingTable_returns_min_weight_link 10000 mesh4x4 5 threeLinkUnit 1 ⟨[1]⟩
    [⟨[0, 1]⟩, ⟨[1]⟩, ⟨[1, 2]⟩] rfl (by decide)
    ⟨1, 1, ⟨⟨[1]⟩, rfl, rfl, rfl⟩, by decide⟩

/-- C1 as stated fails: with `INFINITE_ = 10000`, the only link of vnet 0
intersects the destination and has weight 10001, yet the call ends in the
no-route error instead of returning that link. -/
theorem lookupRoutingTable_heavy_link_not_returned :
    heavyLinkUnit.m_routing_table[0]? = some [⟨[0]⟩] ∧
    heavyLinkUnit.m_weight_table = [10001] ∧
    IsCandidate ⟨[0]⟩ heavyLinkUnit.m_weight_table [⟨[0]⟩] 0 10001 ∧
    lookupRoutingTable 10000 mesh4x4 0 heavyLinkUnit 0 ⟨[0]⟩ = .error .noRoute :=
  ⟨rfl, rfl, ⟨⟨[0]⟩, rfl, rfl, rfl⟩, rfl⟩

/-- C2, as the code has it: if the vnet is a valid index and the weight
table has an entry for every link of the vnet, the call ends in the
no-route error exactly when every link that intersects the destination has
a weight above `INFINITE_` (in particular when no link intersects it, or
the vnet has no link), and it returns a link exactly when that is not so. -/
theorem lookupRoutingTable_no_route_iff (INFINITE_ : Int) (net : GarnetNetwork)
    (rand : Nat) (ru : RoutingUnit) (vnet : Nat) (msg : NetDest) (links : List NetDest)
    (hv : ru.m_routing_table[vnet]? = some links)
    (hw : links.length ≤ ru.m_weight_table.length) :
    (lookupRoutingTable INFINITE_ net rand ru vnet msg = .error .noRoute ↔
      ∀ k w, IsCandidate msg ru.m_weight_table links k w → INFINITE_ < w) ∧
    ((∃ l, lookupRoutingTable INFINITE_ net rand ru vnet msg = .ok l) ↔
      ¬ ∀ k w, IsCandidate msg ru.m_weight_table links k w → INFINITE_ < w) := by
  obtain ⟨n, cs, hc⟩ := outputLinkCandidates_total INFINITE_ ru vnet msg links hv hw
  have hiff := candidates_ne_nil_iff INFINITE_ ru vnet msg links n cs hv hc
  by_cases hne : cs = []
  · subst hne
    have hres := lookupRoutingTable_of_no_candidates INFINITE_ net rand ru vnet msg n hc
    have hall : ∀ k w, IsCandidate msg ru.m_weight_table links k w → INFINITE_ < w := by
      intro k w hkw
      by_contra hlt
      exact (hiff.mpr ⟨k, w, hkw, by omega⟩) rfl
    refine ⟨⟨fun _ => hall, fun _ => hres⟩, ⟨?_, fun hnot => absurd hall hnot⟩⟩
    rintro ⟨l, hl⟩
    rw [hres] at hl
    cases hl
  · obtain ⟨-, -, hn, -, -, -, -⟩ :=
      outputLinkCandidates_spec INFINITE_ ru vnet msg links n cs hv hc
    subst hn
    obtain ⟨l, -, hres⟩ :=
      lookupRoutingTable_of_candidates INFINITE_ net rand ru vnet msg cs hc hne
    obtain ⟨k, w, hkw, hle⟩ := hiff.mp hne
    have hnot : ¬ ∀ k w, IsCandidate msg ru.m_weight_table links k w → INFINITE_ < w := by
      intro hall
      have := hall k w hkw
      omega
    refine ⟨⟨?_, fun hall => absurd hall hnot⟩, ⟨fun _ => hnot, fun _ => ⟨l, hres⟩⟩⟩
    intro herr
    rw [hres] at herr
    cases herr

/-- C2 at a concrete input: on the three-link unit no link reaches node 9,
and the call for node 9 ends in the no-route error. -/
theorem lookupRoutingTable_no_route_iff_witness :
    (lookupRoutingTable 10000 mesh4x4 0 threeLinkUnit 0 ⟨[9]⟩ = .error .noRoute ↔
      ∀ k w, IsCandidate ⟨[9]⟩ threeLinkUnit.m_weight_table
        [⟨[0, 1]⟩, ⟨[1]⟩, ⟨[1, 2]⟩] k w → (10000 : Int) < w) ∧
    ((∃ l, lookupRoutingTable 10000 mesh4x4 0 threeLinkUnit 0 ⟨[9]⟩ = .ok l) ↔
      ¬ ∀ k w, IsCandidate ⟨[9]⟩ threeLinkUnit.m_weight_table
        [⟨[0, 1]⟩, ⟨[1]⟩, ⟨[1, 2]⟩] k w → (10000 : Int) < w) :=
  lookupRoutingTable_no_route_iff 10000 mesh4x4 0 threeLinkUnit 0 ⟨[9]⟩
    [⟨[0, 1]⟩, ⟨[1]⟩, ⟨[1, 2]⟩] rfl (by decide)

/-- C2 as stated fails: with `INFINITE_ = 10000`, both links of vnet 1
intersect the destination (weights 20000 and 30000), yet the call ends in
the no-route error. -/
theorem lookupRoutingTable_no_route_despite_links :
    twoHeavyLinksUnit.m_routing_table[1]? = some [⟨[7]⟩, ⟨[7]⟩] ∧
    twoHeavyLinksUnit.m_weight_table = [20000, 30000] ∧
    IsCandidate ⟨[7]⟩ twoHeavyLinksUnit.m_weight_table [⟨[7]⟩, ⟨[7]⟩] 0 20000 ∧
    IsCandidate ⟨[7]⟩ twoHeavyLinksUnit.m_weight_table [⟨[7]⟩, ⟨[7]⟩] 1 30000 ∧
    lookupRoutingTable 10000 mesh4x4 3 twoHeavyLinksUnit 1 ⟨[7]⟩ = .error .noRoute :=
  ⟨rfl, rfl, ⟨⟨[7]⟩, rfl, rfl, rfl⟩, ⟨⟨[7]⟩, rfl, rfl, rfl⟩, rfl⟩

/-- Whatever value `INFINITE_` has, a single intersecting link of weight
`INFINITE_ + 1` ends the call in the no-route error. -/
theorem lookupRoutingTable_above_sentinel (INFINITE_ : Int) (net : GarnetNetwork)
    (rand : Nat) :
    lookupRoutingTable INFINITE_ net rand
      (addWeight (addRoute (RoutingUnit.init 0) [⟨[0]⟩]) (INFINITE_ + 1)) 0 ⟨[0]⟩
      = .error .noRoute := by
  simp [lookupRoutingTable, outputLinkCandidates, addWeight, addRoute, RoutingUnit.init,
    minWeightScan, collectScan, NetDest.intersectionIsNotEmpty]


/-- On an ordered vnet, whenever the scans collect a candidate, the call
returns the first collected one, `c`; `c` is an intersecting link of
minimum weight and no intersecting link of minimum weight has a smaller
index; and every call with the same tables, vnet and destination returns
the same `c`, whatever the random draw and the ledger are. -/
theorem lookupRoutingTable_ordered_first (INFINITE_ : Int) (net : GarnetNetwork)
    (rand : Nat) (ru : RoutingUnit) (vnet : Nat) (msg : NetDest) (links : List NetDest)
    (n c : Nat) (cs : List Nat)
    (hv : ru.m_routing_table[vnet]? = some links)
    (ho : net.isVNetOrdered vnet = true)
    (hc : outputLinkCandidates INFINITE_ ru vnet msg = .ok (n, c :: cs)) :
    lookupRoutingTable INFINITE_ net rand ru vnet msg = .ok c ∧
    IsMinCandidate msg ru.m_weight_table links c ∧
    (∀ k, IsMinCandidate msg ru.m_weight_table links k → c ≤ k) ∧
    ∀ (net' : GarnetNetwork) (rand' : Nat), net'.isVNetOrdered vnet = true →
      lookupRoutingTable INFINITE_ net' rand' ru vnet msg = .ok c := by
  have hne : c :: cs ≠ [] := List.cons_ne_nil c cs
  obtain ⟨-, -, hn, hsorted, -, -, -⟩ :=
    outputLinkCandidates_spec INFINITE_ ru vnet msg links n (c :: cs) hv hc
  subst hn
  have hmem := mem_candidates_iff_isMinCandidate INFINITE_ ru vnet msg links _ (c :: cs) hv hc hne
  have hfirst : ∀ (net' : GarnetNetwork) (rand' : Nat), net'.isVNetOrdered vnet = true →
      lookupRoutingTable INFINITE_ net' rand' ru vnet msg = .ok c := by
    intro net' rand' ho'
    obtain ⟨l, hl, hres⟩ :=
      lookupRoutingTable_of_candidates INFINITE_ net' rand' ru vnet msg (c :: cs) hc hne
    rw [if_pos ho'] at hl
    have hlc : c = l := by simpa using hl
    rw [hlc]
    exact hres
  refine ⟨hfirst net rand ho, (hmem c).mp (List.mem_cons_self c cs), ?_, hfirst⟩
  intro k hk
  rcases List.mem_cons.mp ((hmem k).mpr hk) with hkc | hkcs
  · omega
  · exact le_of_lt (List.rel_of_pairwise_cons hsorted hkcs)

/-- The first collected candidate at a concrete input: on the three-link unit, destination node 1 and
the ordered vnet 0, the candidates are links 1 and 2 and link 1 is
returned. -/
theorem lookupRoutingTable_ordered_first_witness :
    lookupRoutingTable 10000 mesh4x4 7 threeLinkUnit 0 ⟨[1]⟩ = .ok 1 ∧
    IsMinCandidate ⟨[1]⟩ threeLinkUnit.m_weight_table [⟨[0, 1]⟩, ⟨[1]⟩, ⟨[1, 2]⟩] 1 ∧
    (∀ k, IsMinCandidate ⟨[1]⟩ threeLinkUnit.m_weight_table
      [⟨[0, 1]⟩, ⟨[1]⟩, ⟨[1, 2]⟩] k → 1 ≤ k) ∧
    ∀ (net' : GarnetNetwork) (rand' : Nat), net'.isVNetOrdered 0 = true →
      lookupRoutingTable 10000 net' rand' threeLinkUnit 0 ⟨[1]⟩ = .ok 1 :=
  lookupRoutingTable_ordered_first 10000 mesh4x4 7 threeLinkUnit 0 ⟨[1]⟩
    [⟨[0, 1]⟩, ⟨[1]⟩, ⟨[1, 2]⟩] 2 1 [2] rfl rfl rfl

/-- On an unordered vnet, whenever the scans collect the non-empty list
`cs` of `n` candidates: `cs` is strictly increasing and holds exactly the
intersecting links of minimum weight; every draw `r` returns the element of
`cs` at position `r % n`, a minimum-weight candidate; every minimum-weight
candidate is returned for some draw below `n`; and two draws below `n` that
return the same link are equal. -/
theorem lookupRoutingTable_unordered_draw (INFINITE_ : Int) (net : GarnetNetwork)
    (ru : RoutingUnit) (vnet : Nat) (msg : NetDest) (links : List NetDest)
    (n : Nat) (cs : List Nat)
    (hv : ru.m_routing_table[vnet]? = some links)
    (hu : net.isVNetOrdered vnet = false)
    (hc : outputLinkCandidates INFINITE_ ru vnet msg = .ok (n, cs))
    (hne : cs ≠ []) :
    n = cs.length ∧ cs.Pairwise (fun a b => a < b) ∧
    (∀ k, k ∈ cs ↔ IsMinCandidate msg ru.m_weight_table links k) ∧
    (∀ r, ∃ l, cs[r % n]? = some l ∧
      lookupRoutingTable INFINITE_ net r ru vnet msg = .ok l ∧
      IsMinCandidate msg ru.m_weight_table links l) ∧
    (∀ k, IsMinCandidate msg ru.m_weight_table links k →
      ∃ r, r < n ∧ lookupRoutingTable INFINITE_ net r ru vnet msg = .ok k) ∧
    (∀ r₁ r₂, r₁ < n → r₂ < n →
      lookupRoutingTable INFINITE_ net r₁ ru vnet msg =
        lookupRoutingTable INFINITE_ net r₂ ru vnet msg → r₁ = r₂) := by
  obtain ⟨-, -, hn, hsorted, -, -, -⟩ :=
    outputLinkCandidates_spec INFINITE_ ru vnet msg links n cs hv hc
  subst hn
  have hmem := mem_candidates_iff_isMinCandidate INFINITE_ ru vnet msg links _ cs hv hc hne
  have hdraw : ∀ r, ∃ l, cs[r % cs.length]? = some l ∧
      lookupRoutingTable INFINITE_ net r ru vnet msg = .ok l := by
    intro r
    obtain ⟨l, hl, hres⟩ :=
      lookupRoutingTable_of_candidates INFINITE_ net r ru vnet msg cs hc hne
    rw [hu] at hl
    exact ⟨l, by simpa using hl, hres⟩
  have hbelow : ∀ r (hr : r < cs.length),
      lookupRoutingTable INFINITE_ net r ru vnet msg = .ok cs[r] := by
    intro r hr
    obtain ⟨l, hl, hres⟩ := hdraw r
    rw [Nat.mod_eq_of_lt hr, List.getElem?_eq_getElem hr] at hl
    cases hl
    exact hres
  refine ⟨rfl, hsorted, hmem, ?_, ?_, ?_⟩
  · intro r
    obtain ⟨l, hl, hres⟩ := hdraw r
    exact ⟨l, hl, hres, (hmem l).mp (List.mem_iff_getElem?.mpr ⟨_, hl⟩)⟩
  · intro k hk
    obtain ⟨i, hi, hik⟩ := List.mem_iff_getElem.mp ((hmem k).mpr hk)
    exact ⟨i, hi, by rw [hbelow i hi, hik]⟩
  · intro r₁ r₂ h₁ h₂ heq
    rw [hbelow r₁ h₁, hbelow r₂ h₂] at heq
    have hget : cs[r₁] = cs[r₂] := by simpa using heq
    have hp := List.pairwise_iff_getElem.mp hsorted
    rcases Nat.lt_trichotomy r₁ r₂ with hlt | heq' | hgt
    · have := hp r₁ r₂ h₁ h₂ hlt; omega
    · exact heq'
    · have := hp r₂ r₁ h₂ h₁ hgt; omega

/-- The draws at a concrete input: on the three-link unit, destination node 1 and
the unordered vnet 1, the candidate list is `[1, 2]`. -/
theorem lookupRoutingTable_unordered_draw_witness :
    (∀ r, ∃ l, [1, 2][r % 2]? = some l ∧
      lookupRoutingTable 10000 mesh4x4 r threeLinkUnit 1 ⟨[1]⟩ = .ok l ∧
      IsMinCandidate ⟨[1]⟩ threeLinkUnit.m_weight_table [⟨[0, 1]⟩, ⟨[1]⟩, ⟨[1, 2]⟩] l) ∧
    (∀ k, IsMinCandidate ⟨[1]⟩ threeLinkUnit.m_weight_table [⟨[0, 1]⟩, ⟨[1]⟩, ⟨[1, 2]⟩] k →
      ∃ r, r < 2 ∧ lookupRoutingTable 10000 mesh4x4 r threeLinkUnit 1 ⟨[1]⟩ = .ok k) :=
  have h := lookupRoutingTable_unordered_draw 10000 mesh4x4 threeLinkUnit 1 ⟨[1]⟩
    [⟨[0, 1]⟩, ⟨[1]⟩, ⟨[1, 2]⟩] 2 [1, 2] rfl rfl rfl (by decide)
  ⟨h.2.2.2.1, h.2.2.2.2.1⟩


/-! ## Adaptive dimension-order router: the choice -/

/-- Two router ids with the same column and the same row are equal. -/
theorem eq_of_meshX_eq_of_meshY_eq (a b num_cols : Int)
    (hx : meshX a num_cols = meshX b num_cols) (hy : meshY a num_cols = meshY b num_cols) :
    a = b := by
  have ha := Int.tmod_add_tdiv a num_cols
  have hb := Int.tmod_add_tdiv b num_cols
  unfold meshX at hx
  unfold meshY at hy
  rw [hx, hy] at ha
  omega

/-- When the hop counts are not both zero, the branches of `outportComputeDXY`
choose a cardinal direction, lower its counter by one and leave the three
other counters alone. -/
theorem dxyChoose_effect (x_hops y_hops : Int) (t : Trust)
    (h : ¬ (x_hops = 0 ∧ y_hops = 0)) :
    (dxyChoose x_hops y_hops t).1.isCardinal = true ∧
    (dxyChoose x_hops y_hops t).2.counter (dxyChoose x_hops y_hops t).1 =
      t.counter (dxyChoose x_hops y_hops t).1 - 1 ∧
    ∀ d, d ≠ (dxyChoose x_hops y_hops t).1 →
      (dxyChoose x_hops y_hops t).2.counter d = t.counter d := by
  unfold dxyChoose
  split_ifs <;>
    first
    | (exfalso; omega)
    | (refine ⟨rfl, ?_, ?_⟩
       · simp [Trust.counter, Trust.decrement_north_trust, Trust.decrement_south_trust,
           Trust.decrement_east_trust, Trust.decrement_west_trust]
       · intro d hd
         cases d <;>
           simp_all [Trust.counter, Trust.decrement_north_trust, Trust.decrement_south_trust,
             Trust.decrement_east_trust, Trust.decrement_west_trust])

/-- With a mesh of positive shape and a destination that is another router,
`outportComputeDXY` returns, and its result is assembled from `dxyChoose`
at the hop counts and this router's counters. -/
theorem outportComputeDXY_eq (net : GarnetNetwork) (ru : RoutingUnit) (route : RouteInfo)
    (t_flit : Flit) (hrows : 0 < net.numRows) (hcols : 0 < net.numCols)
    (hne : route.dest_router ≠ ru.m_router_id) :
    ¬ (meshX route.dest_router net.numCols - meshX ru.m_router_id net.numCols = 0 ∧
       meshY route.dest_router net.numCols - meshY ru.m_router_id net.numCols = 0) ∧
    outportComputeDXY net ru route t_flit =
      .ok { outport := (readOutportIdx ru.m_outports_dirn2idx
              (dxyChoose
                (meshX route.dest_router net.numCols - meshX ru.m_router_id net.numCols)
                (meshY route.dest_router net.numCols - meshY ru.m_router_id net.numCols)
                (net.trust ru.m_router_id)).1).1
            net := net.setTrust ru.m_router_id
              (dxyChoose
                (meshX route.dest_router net.numCols - meshX ru.m_router_id net.numCols)
                (meshY route.dest_router net.numCols - meshY ru.m_router_id net.numCols)
                (net.trust ru.m_router_id)).2
            ru := { ru with m_outports_dirn2idx := (readOutportIdx ru.m_outports_dirn2idx
              (dxyChoose
                (meshX route.dest_router net.numCols - meshX ru.m_router_id net.numCols)
                (meshY route.dest_router net.numCols - meshY ru.m_router_id net.numCols)
                (net.trust ru.m_router_id)).1).2 }
            flit := t_flit.add_to_direction
              (dxyChoose
                (meshX route.dest_router net.numCols - meshX ru.m_router_id net.numCols)
                (meshY route.dest_router net.numCols - meshY ru.m_router_id net.numCols)
                (net.trust ru.m_router_id)).1 } := by
  have hhops : ¬ (meshX route.dest_router net.numCols - meshX ru.m_router_id net.numCols = 0 ∧
       meshY route.dest_router net.numCols - meshY ru.m_router_id net.numCols = 0) := by
    rintro ⟨hx, hy⟩
    exact hne (eq_of_meshX_eq_of_meshY_eq _ _ net.numCols (by omega) (by omega))
  refine ⟨hhops, ?_⟩
  have hhops' := hhops
  unfold meshX meshY at hhops'
  unfold outportComputeDXY
  simp only [meshX, meshY]
  rw [if_neg (by simp [hrows, hcols]), if_neg hhops']


/-- The forced choice of the branches when exactly one hop count is zero. -/
theorem dxyChoose_single_axis (x_hops y_hops : Int) (t : Trust) :
    (x_hops = 0 → 0 < y_hops → (dxyChoose x_hops y_hops t).1 = .North) ∧
    (x_hops = 0 → y_hops < 0 → (dxyChoose x_hops y_hops t).1 = .South) ∧
    (y_hops = 0 → 0 < x_hops → (dxyChoose x_hops y_hops t).1 = .East) ∧
    (y_hops = 0 → x_hops < 0 → (dxyChoose x_hops y_hops t).1 = .West) := by
  unfold dxyChoose
  refine ⟨?_, ?_, ?_, ?_⟩ <;> intro h0 hs <;> split_ifs <;> first | rfl | (exfalso; omega)

/-- The choice of the branches when both hop counts are non-zero: one of the
two axis-reducing directions, and the one with the higher counter when the
two counters differ. -/
theorem dxyChoose_two_axis (x_hops y_hops : Int) (t : Trust)
    (hx : x_hops ≠ 0) (hy : y_hops ≠ 0) :
    ((dxyChoose x_hops y_hops t).1 = (if 0 < y_hops then .North else .South) ∨
     (dxyChoose x_hops y_hops t).1 = (if 0 < x_hops then .East else .West)) ∧
    (t.counter (if 0 < x_hops then .East else .West) <
        t.counter (if 0 < y_hops then .North else .South) →
      (dxyChoose x_hops y_hops t).1 = (if 0 < y_hops then .North else .South)) ∧
    (t.counter (if 0 < y_hops then .North else .South) <
        t.counter (if 0 < x_hops then .East else .West) →
      (dxyChoose x_hops y_hops t).1 = (if 0 < x_hops then .East else .West)) := by
  unfold dxyChoose
  split_ifs <;> simp_all [Trust.counter] <;> omega

/-- C5: on a mesh of positive shape, when the coordinates of this router and
of the destination differ in exactly one axis, `outportComputeDXY` returns
and appends a direction `d` to the flit's history that is North if only y
differs and the destination row is higher, South if it is lower, East if
only x differs and the destination column is higher, West if it is lower;
the same `d` is appended whatever the ledger holds. -/
theorem outportComputeDXY_single_axis (net : GarnetNetwork) (ru : RoutingUnit)
    (route : RouteInfo) (t_flit : Flit)
    (hrows : 0 < net.numRows) (hcols : 0 < net.numCols)
    (haxis :
      (meshX route.dest_router net.numCols = meshX ru.m_router_id net.numCols ∧
        meshY route.dest_router net.numCols ≠ meshY ru.m_router_id net.numCols) ∨
      (meshX route.dest_router net.numCols ≠ meshX ru.m_router_id net.numCols ∧
        meshY route.dest_router net.numCols = meshY ru.m_router_id net.numCols)) :
    ∃ res d, outportComputeDXY net ru route t_flit = .ok res ∧
      res.flit.direction = t_flit.direction ++ [d] ∧
      (meshX route.dest_router net.numCols = meshX ru.m_router_id net.numCols →
        meshY ru.m_router_id net.numCols < meshY route.dest_router net.numCols →
        d = .North) ∧
      (meshX route.dest_router net.numCols = meshX ru.m_router_id net.numCols →
        meshY route.dest_router net.numCols < meshY ru.m_router_id net.numCols →
        d = .South) ∧
      (meshY route.dest_router net.numCols = meshY ru.m_router_id net.numCols →
        meshX ru.m_router_id net.numCols < meshX route.dest_router net.numCols →
        d = .East) ∧
      (meshY route.dest_router net.numCols = meshY ru.m_router_id net.numCols →
        meshX route.dest_router net.numCols < meshX ru.m_router_id net.numCols →
        d = .West) ∧
      ∀ ledger : Int → Trust, ∃ res',
        outportComputeDXY { net with trust := ledger } ru route t_flit = .ok res' ∧
        res'.flit.direction = t_flit.direction ++ [d] := by
  have hne : route.dest_router ≠ ru.m_router_id := by
    intro heq
    rw [heq] at haxis
    rcases haxis with ⟨-, h⟩ | ⟨h, -⟩ <;> exact h rfl
  obtain ⟨-, hres⟩ := outportComputeDXY_eq net ru route t_flit hrows hcols hne
  obtain ⟨hN, hS, hE, hW⟩ := dxyChoose_single_axis
    (meshX route.dest_router net.numCols - meshX ru.m_router_id net.numCols)
    (meshY route.dest_router net.numCols - meshY ru.m_router_id net.numCols)
    (net.trust ru.m_router_id)
  refine ⟨_, _, hres, rfl, ?_, ?_, ?_, ?_, ?_⟩
  · intro hx hy; exact hN (by omega) (by omega)
  · intro hx hy; exact hS (by omega) (by omega)
  · intro hy hx; exact hE (by omega) (by omega)
  · intro hy hx; exact hW (by omega) (by omega)
  · intro ledger
    obtain ⟨-, hres'⟩ := outportComputeDXY_eq { net with trust := ledger } ru route t_flit
      hrows hcols hne
    refine ⟨_, hres', ?_⟩
    obtain ⟨hN', hS', hE', hW'⟩ := dxyChoose_single_axis
      (meshX route.dest_router net.numCols - meshX ru.m_router_id net.numCols)
      (meshY route.dest_router net.numCols - meshY ru.m_router_id net.numCols)
      (ledger ru.m_router_id)
    show t_flit.direction ++ [_] = t_flit.direction ++ [_]
    congr 2
    rcases haxis with ⟨hx, hy⟩ | ⟨hx, hy⟩
    · rcases lt_or_gt_of_ne hy with hlt | hgt
      · rw [hS (by omega) (by omega), hS' (by omega) (by omega)]
      · rw [hN (by omega) (by omega), hN' (by omega) (by omega)]
    · rcases lt_or_gt_of_ne hx with hlt | hgt
      · rw [hW (by omega) (by omega), hW' (by omega) (by omega)]
      · rw [hE (by omega) (by omega), hE' (by omega) (by omega)]

/-- C5 at a concrete input: on the 4x4 mesh, router 0 routes a flit for
router 12 to the North. -/
theorem outportComputeDXY_single_axis_witness :
    ∃ res, outportComputeDXY mesh4x4 cornerUnit (routeTo 12) freshFlit = .ok res ∧
      res.flit.direction = [.North] := by
  obtain ⟨res, d, hres, hdir, hN, -⟩ :=
    outportComputeDXY_single_axis mesh4x4 cornerUnit (routeTo 12) freshFlit
      (by decide) (by decide) (Or.inl ⟨by decide, by decide⟩)
  have hd : d = .North := hN (by decide) (by decide)
  subst hd
  exact ⟨res, hres, hdir⟩

/-- C6: on a mesh of positive shape, when the coordinates of this router and
of the destination differ in both axes, `outportComputeDXY` returns and
appends a direction `d` that is the vertical axis-reducing direction
(North if the destination row is higher, else South) or the horizontal one
(East if the destination column is higher, else West); when this router's
counters for the two differ, as read before the call, `d` is the one with
the higher counter. -/
theorem outportComputeDXY_two_axis (net : GarnetNetwork) (ru : RoutingUnit)
    (route : RouteInfo) (t_flit : Flit)
    (hrows : 0 < net.numRows) (hcols : 0 < net.numCols)
    (hx : meshX route.dest_router net.numCols ≠ meshX ru.m_router_id net.numCols)
    (hy : meshY route.dest_router net.numCols ≠ meshY ru.m_router_id net.numCols) :
    ∃ res d v h, outportComputeDXY net ru route t_flit = .ok res ∧
      res.flit.direction = t_flit.direction ++ [d] ∧
      v = (if meshY ru.m_router_id net.numCols < meshY route.dest_router net.numCols
            then PortDirection.North else PortDirection.South) ∧
      h = (if meshX ru.m_router_id net.numCols < meshX route.dest_router net.numCols
            then PortDirection.East else PortDirection.West) ∧
      (d = v ∨ d = h) ∧
      ((net.trust ru.m_router_id).counter h < (net.trust ru.m_router_id).counter v → d = v) ∧
      ((net.trust ru.m_router_id).counter v < (net.trust ru.m_router_id).counter h → d = h) := by
  have hne : route.dest_router ≠ ru.m_router_id := by
    intro heq
    rw [heq] at hx
    exact hx rfl
  obtain ⟨-, hres⟩ := outportComputeDXY_eq net ru route t_flit hrows hcols hne
  obtain ⟨h1, h2, h3⟩ := dxyChoose_two_axis
    (meshX route.dest_router net.numCols - meshX ru.m_router_id net.numCols)
    (meshY route.dest_router net.numCols - meshY ru.m_router_id net.numCols)
    (net.trust ru.m_router_id) (by omega) (by omega)
  have ev : (0 < meshY route.dest_router net.numCols - meshY ru.m_router_id net.numCols) ↔
      meshY ru.m_router_id net.numCols < meshY route.dest_router net.numCols := by
    constructor <;> intro <;> omega
  have eh : (0 < meshX route.dest_router net.numCols - meshX ru.m_router_id net.numCols) ↔
      meshX ru.m_router_id net.numCols < meshX route.dest_router net.numCols := by
    constructor <;> intro <;> omega
  simp only [ev, eh] at h1 h2 h3
  exact ⟨_, _, _, _, hres, rfl, rfl, rfl, h1, h2, h3⟩


/-- C6 at a concrete input: on the 4x4 mesh, router 0 holds North 5 and
East 3 and routes a flit for router 5 to the North. -/
theorem outportComputeDXY_two_axis_witness :
    ∃ res, outportComputeDXY northBiasedMesh cornerUnit (routeTo 5) freshFlit = .ok res ∧
      res.flit.direction = [.North] := by
  obtain ⟨res, d, v, h, hres, hdir, hv, hh, -, hhigh, -⟩ :=
    outportComputeDXY_two_axis northBiasedMesh cornerUnit (routeTo 5) freshFlit
      (by decide) (by decide) (by decide) (by decide)
  have hv' : v = .North := by rw [hv]; decide
  have hh' : h = .East := by rw [hh]; decide
  subst hv' hh'
  have hd : d = .North := hhigh (by decide)
  subst hd
  exact ⟨res, hres, hdir⟩

/-! ## Adaptive dimension-order router: ledger, history and port -/

/-- C7: on a mesh of positive shape and for a destination that is another
router, `outportComputeDXY` returns; with `d` the direction it appends to
the history, this router's counter for `d` is one less than before, its
counters for the other directions are unchanged, and the ledger of every
other router is unchanged. -/
theorem outportComputeDXY_ledger_effect (net : GarnetNetwork) (ru : RoutingUnit)
    (route : RouteInfo) (t_flit : Flit)
    (hrows : 0 < net.numRows) (hcols : 0 < net.numCols)
    (hne : route.dest_router ≠ ru.m_router_id) :
    ∃ res d, outportComputeDXY net ru route t_flit = .ok res ∧
      res.flit.direction = t_flit.direction ++ [d] ∧
      d.isCardinal = true ∧
      (res.net.trust ru.m_router_id).counter d = (net.trust ru.m_router_id).counter d - 1 ∧
      (∀ d', d' ≠ d →
        (res.net.trust ru.m_router_id).counter d' = (net.trust ru.m_router_id).counter d') ∧
      (∀ r, r ≠ ru.m_router_id → res.net.trust r = net.trust r) := by
  obtain ⟨hhops, hres⟩ := outportComputeDXY_eq net ru route t_flit hrows hcols hne
  obtain ⟨hcard, hdec, hframe⟩ := dxyChoose_effect _ _ (net.trust ru.m_router_id) hhops
  refine ⟨_, _, hres, rfl, hcard, ?_, ?_, ?_⟩
  · simpa [GarnetNetwork.setTrust] using hdec
  · intro d' hd'
    simpa [GarnetNetwork.setTrust] using hframe d' hd'
  · intro r hr
    simp [GarnetNetwork.setTrust, hr]

/-- C7 at a concrete input: on the 4x4 mesh with every counter at 3, router
0 routes a flit for router 12; its North counter becomes 2, its other
counters stay at 3, and router 1 keeps its counters. -/
theorem outportComputeDXY_ledger_effect_witness :
    ∃ res, outportComputeDXY mesh4x4 cornerUnit (routeTo 12) freshFlit = .ok res ∧
      res.flit.direction = [.North] ∧
      res.net.trust 0 = { north := 2, south := 3, east := 3, west := 3 } ∧
      res.net.trust 1 = { north := 3, south := 3, east := 3, west := 3 } := by
  obtain ⟨res, d, hres, -, -, -, -, -⟩ :=
    outportComputeDXY_ledger_effect mesh4x4 cornerUnit (routeTo 12) freshFlit
      (by decide) (by decide) (by decide)
  refine ⟨res, hres, ?_⟩
  have hval : outportComputeDXY mesh4x4 cornerUnit (routeTo 12) freshFlit = .ok res := hres
  simp only [outportComputeDXY] at hval
  rw [if_neg (by decide), if_neg (by decide)] at hval
  cases hval
  exact ⟨rfl, rfl, rfl⟩

/-- C8: on a mesh of positive shape and for a destination that is another
router, `outportComputeDXY` returns; the direction history afterwards is
the history before with the one chosen direction `d` appended, `d` is
cardinal and so never `Unknown`, the recorded path is untouched, and the
returned value is the index that `m_outports_dirn2idx` holds for `d` (the
value `operator[]` yields for it, which the map holds for `d` after the
call). -/
theorem outportComputeDXY_history_and_port (net : GarnetNetwork) (ru : RoutingUnit)
    (route : RouteInfo) (t_flit : Flit)
    (hrows : 0 < net.numRows) (hcols : 0 < net.numCols)
    (hne : route.dest_router ≠ ru.m_router_id) :
    ∃ res d, outportComputeDXY net ru route t_flit = .ok res ∧
      res.flit.direction = t_flit.direction ++ [d] ∧
      res.flit.direction.length = t_flit.direction.length + 1 ∧
      res.flit.path = t_flit.path ∧
      d.isCardinal = true ∧ d ≠ .Unknown ∧
      res.outport = (readOutportIdx ru.m_outports_dirn2idx d).1 ∧
      (∀ idx, ru.m_outports_dirn2idx d = some idx → res.outport = idx) ∧
      res.ru.m_outports_dirn2idx d = some res.outport := by
  obtain ⟨hhops, hres⟩ := outportComputeDXY_eq net ru route t_flit hrows hcols hne
  obtain ⟨hcard, -, -⟩ := dxyChoose_effect _ _ (net.trust ru.m_router_id) hhops
  refine ⟨_, _, hres, rfl, by simp [Flit.add_to_direction], rfl, hcard, ?_, rfl, ?_, ?_⟩
  · intro hU
    rw [hU] at hcard
    cases hcard
  · intro idx hidx
    simp [readOutportIdx, hidx]
  · simp only [readOutportIdx]
    split <;> simp_all

/-- C8 at a concrete input: on the 4x4 mesh, router 0, whose North port is
registered at index 2, routes a flit for router 12 and returns 2. -/
theorem outportComputeDXY_history_and_port_witness :
    ∃ res, outportComputeDXY mesh4x4 cornerUnit (routeTo 12) freshFlit = .ok res ∧
      res.flit.direction = [.North] ∧ res.outport = 2 := by
  obtain ⟨res, d, hres, -, -, -, -, -, -, -, -⟩ :=
    outportComputeDXY_history_and_port mesh4x4 cornerUnit (routeTo 12) freshFlit
      (by decide) (by decide) (by decide)
  refine ⟨res, hres, ?_⟩
  have hval : outportComputeDXY mesh4x4 cornerUnit (routeTo 12) freshFlit = .ok res := hres
  simp only [outportComputeDXY] at hval
  rw [if_neg (by decide), if_neg (by decide)] at hval
  cases hval
  exact ⟨rfl, rfl⟩


/-! ## Feedback pass: the loops -/

/-- A tracing loop completes exactly when it has nothing to do or every
router index it visits is below the number of routers. -/
theorem traceTrusts_ok_iff (net : GarnetNetwork) :
    ∀ (remaining i : Nat),
      traceTrusts net i remaining = .ok () ↔ (remaining = 0 ∨ i + remaining ≤ net.numRouters) := by
  intro remaining
  induction remaining with
  | zero => intro i; simp [traceTrusts]
  | succ n ih =>
    intro i
    unfold traceTrusts getRouter
    by_cases hi : (0 : Int) ≤ (i : Int) ∧ (i : Int) < (net.numRouters : Int)
    · rw [if_pos hi]
      simp only
      rw [ih (i + 1)]
      constructor
      · rintro (h | h) <;> right <;> omega
      · rintro (h | h)
        · omega
        · by_cases hn : n = 0
          · exact Or.inl hn
          · right; omega
    · rw [if_neg hi]
      simp only
      constructor
      · intro h; cases h
      · rintro (h | h)
        · omega
        · exfalso; apply hi; constructor <;> omega

/-- One crediting step changes nothing but the ledger. -/
theorem creditStep_shape (net : GarnetNetwork) (r₀ : Int) (d₀ : PortDirection) :
    (creditStep net r₀ d₀).numRouters = net.numRouters ∧
    (creditStep net r₀ d₀).numRows = net.numRows ∧
    (creditStep net r₀ d₀).numCols = net.numCols ∧
    (creditStep net r₀ d₀).isVNetOrdered = net.isVNetOrdered := by
  cases d₀ <;> simp [creditStep, GarnetNetwork.setTrust]

/-- One crediting step raises the counter of router `r₀` for the cardinal
direction `d₀` by one and leaves every other counter alone. -/
theorem creditStep_counter (net : GarnetNetwork) (r₀ : Int) (d₀ : PortDirection) (r : Int)
    (d : PortDirection) (hd : d.isCardinal = true) :
    ((creditStep net r₀ d₀).trust r).counter d =
      (net.trust r).counter d + (if r₀ = r ∧ d₀ = d then 1 else 0) := by
  by_cases hr : r = r₀
  · subst hr
    cases d₀ <;> cases d <;>
      simp_all [creditStep, GarnetNetwork.setTrust, Trust.counter, PortDirection.isCardinal,
        Trust.increment_north_trust, Trust.increment_south_trust,
        Trust.increment_east_trust, Trust.increment_west_trust]
  · have hr' : ¬ r₀ = r := fun h => hr h.symm
    cases d₀ <;>
      simp [creditStep, GarnetNetwork.setTrust, hr, hr']

/-- A crediting loop that completes has added, to every counter, the number
of positions it visited that name the counter's router and direction. -/
theorem creditLoop_spec (directions : List PortDirection) (routers : List Int) :
    ∀ (remaining i : Nat) (net net' : GarnetNetwork),
      creditLoop directions routers i remaining net = .ok net' →
      net'.numRouters = net.numRouters ∧ net'.numRows = net.numRows ∧
      net'.numCols = net.numCols ∧ net'.isVNetOrdered = net.isVNetOrdered ∧
      ∀ r d, d.isCardinal = true →
        (net'.trust r).counter d =
          (net.trust r).counter d + creditCountFrom routers directions r d i remaining := by
  intro remaining
  induction remaining with
  | zero =>
    intro i net net' h
    simp only [creditLoop, Except.ok.injEq] at h
    subst h
    simp [creditCountFrom]
  | succ n ih =>
    intro i net net' h
    unfold creditLoop at h
    cases hr : routers[i]? with
    | none => rw [hr] at h; cases h
    | some r₀ =>
      rw [hr] at h
      simp only at h
      cases hg : getRouter net r₀ with
      | error f => rw [hg] at h; cases h
      | ok tempRouter =>
        rw [hg] at h
        simp only at h
        have htemp : tempRouter = r₀ := by
          unfold getRouter at hg
          split at hg
          · cases hg; rfl
          · cases hg
        subst htemp
        cases hd : directions[i]? with
        | none => rw [hd] at h; cases h
        | some d₀ =>
          rw [hd] at h
          simp only at h
          obtain ⟨h1, h2, h3, h4, h5⟩ := ih (i + 1) _ net' h
          obtain ⟨s1, s2, s3, s4⟩ := creditStep_shape net tempRouter d₀
          refine ⟨by rw [h1, s1], by rw [h2, s2], by rw [h3, s3], by rw [h4, s4], ?_⟩
          intro r d hcard
          rw [h5 r d hcard, creditStep_counter net tempRouter d₀ r d hcard]
          have hcount : creditCountFrom routers directions r d i (n + 1) =
              (if tempRouter = r ∧ d₀ = d then 1 else 0) +
                creditCountFrom routers directions r d (i + 1) n := by
            unfold creditCountFrom
            rw [List.range'_succ, List.filter_cons]
            by_cases hp : tempRouter = r ∧ d₀ = d
            · obtain ⟨hp1, hp2⟩ := hp
              subst hp1 hp2
              simp [hr, hd]; omega
            · have : ¬ (routers[i]? = some r ∧ directions[i]? = some d) := by
                rw [hr, hd]
                intro hc
                exact hp ⟨by simpa using hc.1, by simpa using hc.2⟩
              simp [this, hp]
          rw [hcount]
          push_cast
          ring

/-- A crediting loop completes exactly when every position it visits holds
a router id that `getRouter` can look up and a direction. -/
theorem creditLoop_ok_iff (directions : List PortDirection) (routers : List Int) :
    ∀ (remaining i : Nat) (net : GarnetNetwork),
      (∃ net', creditLoop directions routers i remaining net = .ok net') ↔
      ∀ j, i ≤ j → j < i + remaining →
        j < directions.length ∧
        ∃ r, routers[j]? = some r ∧ 0 ≤ r ∧ r < (net.numRouters : Int) := by
  intro remaining
  induction remaining with
  | zero =>
    intro i net
    simp only [creditLoop]
    constructor
    · intro _ j h1 h2; omega
    · intro _; exact ⟨net, rfl⟩
  | succ n ih =>
    intro i net
    unfold creditLoop
    cases hr : routers[i]? with
    | none =>
      simp only
      constructor
      · rintro ⟨_, h⟩; cases h
      · intro h
        obtain ⟨-, r, hr', -⟩ := h i (le_refl _) (by omega)
        rw [hr] at hr'; cases hr'
    | some r₀ =>
      simp only
      unfold getRouter
      by_cases hv : 0 ≤ r₀ ∧ r₀ < (net.numRouters : Int)
      · rw [if_pos hv]
        simp only
        cases hd : directions[i]? with
        | none =>
          simp only
          constructor
          · rintro ⟨_, h⟩; cases h
          · intro h
            obtain ⟨hlt, -⟩ := h i (le_refl _) (by omega)
            rw [List.getElem?_eq_getElem hlt] at hd; cases hd
        | some d₀ =>
          simp only
          rw [ih (i + 1) (creditStep net r₀ d₀), (creditStep_shape net r₀ d₀).1]
          have hlt : i < directions.length := by
            by_contra hge
            rw [List.getElem?_eq_none (by omega)] at hd; cases hd
          constructor
          · intro h j h1 h2
            by_cases hji : j = i
            · subst hji
              exact ⟨hlt, r₀, hr, hv⟩
            · exact h j (by omega) (by omega)
          · intro h j h1 h2
            exact h j (by omega) (by omega)
      · rw [if_neg hv]
        simp only
        constructor
        · rintro ⟨_, h⟩; cases h
        · intro h
          obtain ⟨-, r, hr', hr0⟩ := h i (le_refl _) (by omega)
          rw [hr] at hr'; cases hr'
          exact absurd hr0 hv


/-! ## Feedback pass: contracts -/

/-- The feedback pass completes exactly when the history lengths agree, the
network has at least the sixteen routers the tracing loops look up, and
every recorded router id that has a recorded direction can be looked up. -/
theorem feedbackPass_ok_iff (net : GarnetNetwork) (t_flit : Flit) :
    (∃ net', feedbackPass net t_flit = .ok net') ↔
      (t_flit.direction.length + 1 = t_flit.path.length ∧ 16 ≤ net.numRouters ∧
        ∀ i, i < t_flit.direction.length →
          ∃ r, t_flit.path[i]? = some r ∧ 0 ≤ r ∧ r < (net.numRouters : Int)) := by
  have htrace : ∀ n : GarnetNetwork, traceTrusts n 0 16 = .ok () ↔ 16 ≤ n.numRouters := by
    intro n
    rw [traceTrusts_ok_iff]
    constructor
    · rintro (h | h) <;> omega
    · intro h; right; omega
  unfold feedbackPass
  simp only
  cases ht : traceTrusts net 0 16 with
  | error f =>
    simp only
    constructor
    · rintro ⟨_, h⟩; cases h
    · rintro ⟨-, h16, -⟩
      rw [(htrace net).mpr h16] at ht; cases ht
  | ok u =>
    have h16 : 16 ≤ net.numRouters := (htrace net).mp ht
    simp only
    by_cases hlen : t_flit.direction.length + 1 = t_flit.path.length
    · rw [if_neg (by simpa using hlen)]
      have hloop := creditLoop_ok_iff t_flit.direction t_flit.path (t_flit.path.length - 1) 0 net
      constructor
      · rintro ⟨net', h⟩
        cases hc : creditLoop t_flit.direction t_flit.path 0 (t_flit.path.length - 1) net with
        | error f => rw [hc] at h; cases h
        | ok net₁ =>
          refine ⟨hlen, h16, ?_⟩
          intro i hi
          exact (hloop.mp ⟨net₁, hc⟩ i (Nat.zero_le _) (by omega)).2
      · rintro ⟨-, -, hvalid⟩
        obtain ⟨net₁, hc⟩ := hloop.mpr (fun j _ hj => ⟨by omega, hvalid j (by omega)⟩)
        rw [hc]
        simp only
        obtain ⟨hN, -⟩ := creditLoop_spec _ _ _ _ _ _ hc
        rw [(htrace net₁).mpr (by omega)]
        exact ⟨net₁, rfl⟩
    · rw [if_pos (by simpa using hlen)]
      constructor
      · rintro ⟨_, h⟩; cases h
      · rintro ⟨h, -, -⟩; exact absurd h hlen

/-- A feedback pass that completes is the crediting loop over the whole
direction history. -/
theorem feedbackPass_eq_creditLoop (net net' : GarnetNetwork) (t_flit : Flit)
    (h : feedbackPass net t_flit = .ok net') :
    creditLoop t_flit.direction t_flit.path 0 t_flit.direction.length net = .ok net' := by
  obtain ⟨hlen, -, -⟩ := (feedbackPass_ok_iff net t_flit).mp ⟨net', h⟩
  unfold feedbackPass at h
  simp only at h
  cases ht : traceTrusts net 0 16 with
  | error f => rw [ht] at h; cases h
  | ok u =>
    rw [ht] at h
    simp only at h
    rw [if_neg (by simpa using hlen)] at h
    have hn : t_flit.path.length - 1 = t_flit.direction.length := by omega
    rw [hn] at h
    cases hc : creditLoop t_flit.direction t_flit.path 0 t_flit.direction.length net with
    | error f => rw [hc] at h; cases h
    | ok net₁ =>
      rw [hc] at h
      simp only at h
      cases ht' : traceTrusts net₁ 0 16 with
      | error f => rw [ht'] at h; cases h
      | ok u' =>
        rw [ht'] at h
        simp only [Except.ok.injEq] at h
        rw [h]

/-- The counters of a completed feedback pass. -/
theorem feedbackPass_counter (net net' : GarnetNetwork) (t_flit : Flit)
    (h : feedbackPass net t_flit = .ok net') (r : Int) (d : PortDirection)
    (hd : d.isCardinal = true) :
    (net'.trust r).counter d =
      (net.trust r).counter d + creditCount t_flit.path t_flit.direction r d := by
  have hloop := feedbackPass_eq_creditLoop net net' t_flit h
  obtain ⟨-, -, -, -, hcount⟩ := creditLoop_spec _ _ _ _ _ _ hloop
  rw [hcount r d hd]
  unfold creditCount creditCountFrom
  rw [List.range_eq_range']

/-- No position names the pair: the count is zero. -/
theorem creditCount_eq_zero (routers : List Int) (directions : List PortDirection) (r : Int)
    (d : PortDirection)
    (h : ∀ i, i < directions.length → ¬ (routers[i]? = some r ∧ directions[i]? = some d)) :
    creditCount routers directions r d = 0 := by
  unfold creditCount
  rw [List.length_eq_zero, List.filter_eq_nil_iff]
  intro i hi
  have := h i (List.mem_range.mp hi)
  simpa using this

/-- On a path without repeated routers, the pair recorded at a position is
counted once. -/
theorem creditCount_eq_one (routers : List Int) (directions : List PortDirection)
    (hlen : directions.length + 1 = routers.length) (hnodup : routers.Nodup)
    (i : Nat) (r : Int) (d : PortDirection)
    (hr : routers[i]? = some r) (hd : directions[i]? = some d) :
    creditCount routers directions r d = 1 := by
  obtain ⟨hi, -⟩ := List.getElem?_eq_some_iff.mp hd
  obtain ⟨hi', hri⟩ := List.getElem?_eq_some_iff.mp hr
  unfold creditCount
  have hcongr : (List.range directions.length).filter
        (fun j => decide (routers[j]? = some r ∧ directions[j]? = some d)) =
      (List.range directions.length).filter (fun j => j == i) := by
    apply List.filter_congr
    intro j hj
    have hjlt : j < directions.length := List.mem_range.mp hj
    have hjlt' : j < routers.length := by omega
    by_cases hji : j = i
    · subst hji
      simp [hr, hd]
    · have : ¬ routers[j]? = some r := by
        rw [List.getElem?_eq_getElem hjlt']
        intro hc
        have hc' : routers[j] = routers[i] := by rw [hri]; simpa using hc
        exact hji ((List.Nodup.getElem_inj_iff hnodup).mp hc')
      simp [this, hji]
  rw [hcongr, ← List.countP_eq_length_filter]
  exact List.count_eq_one_of_mem (List.nodup_range _) (List.mem_range.mpr hi)

/-- Two ledger entries with the same four counters are equal. -/
theorem Trust.eq_of_counter_eq (a b : Trust)
    (h : ∀ d : PortDirection, d.isCardinal = true → a.counter d = b.counter d) : a = b := by
  have hN := h .North rfl
  have hS := h .South rfl
  have hE := h .East rfl
  have hW := h .West rfl
  cases a
  cases b
  simp only [Trust.counter] at hN hS hE hW
  simp [hN, hS, hE, hW]


/-- The static route selector reads the network only through the ordering
flag of the vnet. -/
theorem lookupRoutingTable_congr_net (INFINITE_ : Int) (net net' : GarnetNetwork) (rand : Nat)
    (ru : RoutingUnit) (vnet : Nat) (msg : NetDest)
    (h : net'.isVNetOrdered = net.isVNetOrdered) :
    lookupRoutingTable INFINITE_ net' rand ru vnet msg =
      lookupRoutingTable INFINITE_ net rand ru vnet msg := by
  unfold lookupRoutingTable
  rw [h]

/-- At the destination router `outportCompute` is the feedback pass followed
by the static route selector, and leaves the flit and the routing unit as
they were. -/
theorem outportCompute_at_destination (INFINITE_ : Int) (net : GarnetNetwork) (rand : Nat)
    (ru : RoutingUnit) (route : RouteInfo) (t_flit : Flit) (res : Routed)
    (hd : route.dest_router = ru.m_router_id)
    (h : outportCompute INFINITE_ net rand ru route t_flit = .ok res) :
    feedbackPass net t_flit = .ok res.net ∧ res.flit = t_flit ∧ res.ru = ru ∧
    ∃ l : Nat, lookupRoutingTable INFINITE_ net rand ru route.vnet route.net_dest = .ok l ∧
      res.outport = l := by
  unfold outportCompute at h
  rw [if_pos hd] at h
  cases hf : feedbackPass net t_flit with
  | error f => rw [hf] at h; cases h
  | ok net' =>
    rw [hf] at h
    simp only at h
    have hord : net'.isVNetOrdered = net.isVNetOrdered :=
      (creditLoop_spec _ _ _ _ _ _ (feedbackPass_eq_creditLoop net net' t_flit hf)).2.2.2.1
    cases hl : lookupRoutingTable INFINITE_ net' rand ru route.vnet route.net_dest with
    | error f => rw [hl] at h; cases h
    | ok l =>
      rw [hl] at h
      simp only [Except.ok.injEq] at h
      subst h
      rw [lookupRoutingTable_congr_net INFINITE_ net net' rand ru _ _ hord] at hl
      exact ⟨rfl, rfl, rfl, l, hl, rfl⟩

/-- For a flit whose history satisfies `len(directions) + 1 ==
len(routers)`, the feedback pass of `outportCompute` completes exactly when
the network has the sixteen routers its tracing loops look up and every
credited router id can be looked up; when it completes, every counter
(router `r`, cardinal direction `d`) equals its value before plus the number
of positions `i < len(directions)` with `routers[i] == r` and
`directions[i] == d`.  On a path without repeated routers the counter of a
traversed router for its recorded direction rises by exactly one, and the
last router of the list is left as it was.  The same holds for the network
that `outportCompute` returns at the destination router. -/
theorem feedbackPass_credits (net : GarnetNetwork) (t_flit : Flit)
    (hlen : t_flit.direction.length + 1 = t_flit.path.length) :
    ((∃ net', feedbackPass net t_flit = .ok net') ↔
      (16 ≤ net.numRouters ∧
        ∀ i, i < t_flit.direction.length →
          ∃ r, t_flit.path[i]? = some r ∧ 0 ≤ r ∧ r < (net.numRouters : Int))) ∧
    (∀ net', feedbackPass net t_flit = .ok net' →
      (∀ r d, d.isCardinal = true →
        (net'.trust r).counter d =
          (net.trust r).counter d + creditCount t_flit.path t_flit.direction r d) ∧
      (t_flit.path.Nodup → ∀ (i : Nat) (r : Int) (d : PortDirection), t_flit.path[i]? = some r →
        t_flit.direction[i]? = some d → d.isCardinal = true →
        (net'.trust r).counter d = (net.trust r).counter d + 1) ∧
      (t_flit.path.Nodup → ∀ r, t_flit.path.getLast? = some r →
        net'.trust r = net.trust r)) ∧
    (∀ (INFINITE_ : Int) (rand : Nat) (ru : RoutingUnit) (route : RouteInfo) (res : Routed),
      route.dest_router = ru.m_router_id →
      outportCompute INFINITE_ net rand ru route t_flit = .ok res →
      ∀ r d, d.isCardinal = true →
        (res.net.trust r).counter d =
          (net.trust r).counter d + creditCount t_flit.path t_flit.direction r d) := by
  refine ⟨?_, ?_, ?_⟩
  · rw [feedbackPass_ok_iff]
    constructor
    · rintro ⟨-, h16, hv⟩; exact ⟨h16, hv⟩
    · rintro ⟨h16, hv⟩; exact ⟨hlen, h16, hv⟩
  · intro net' h
    refine ⟨feedbackPass_counter net net' t_flit h, ?_, ?_⟩
    · intro hnodup i r d hr hd hcard
      rw [feedbackPass_counter net net' t_flit h r d hcard,
        creditCount_eq_one _ _ hlen hnodup i r d hr hd]
      rfl
    · intro hnodup r hlast
      apply Trust.eq_of_counter_eq
      intro d hcard
      rw [feedbackPass_counter net net' t_flit h r d hcard, creditCount_eq_zero]
      · simp
      · rintro i hi ⟨hri, -⟩
        rw [List.getLast?_eq_getElem?] at hlast
        have hn : t_flit.path.length - 1 = t_flit.direction.length := by omega
        rw [hn] at hlast
        have hi' : i < t_flit.path.length := by omega
        have hl' : t_flit.direction.length < t_flit.path.length := by omega
        rw [List.getElem?_eq_getElem hi'] at hri
        rw [List.getElem?_eq_getElem hl'] at hlast
        have heq : t_flit.path[i] = t_flit.path[t_flit.direction.length] := by
          have h1 : t_flit.path[i] = r := by simpa using hri
          have h2 : t_flit.path[t_flit.direction.length] = r := by simpa using hlast
          rw [h1, h2]
        have := (List.Nodup.getElem_inj_iff hnodup).mp heq
        omega
  · intro INFINITE_ rand ru route res hd h
    obtain ⟨hf, -⟩ := outportCompute_at_destination INFINITE_ net rand ru route t_flit res hd h
    exact feedbackPass_counter net res.net t_flit hf

/-- The credits at a concrete input: on the 4x4 mesh with every counter at 3, the
flit that went 0 -East-> 1 -North-> 5 credits East at router 0 and North at
router 1, and nothing at router 5. -/
theorem feedbackPass_credits_witness :
    ∃ net', feedbackPass mesh4x4 arrivedFlit = .ok net' ∧
      (net'.trust 0).counter .East = 4 ∧ (net'.trust 1).counter .North = 4 ∧
      (net'.trust 0).counter .North = 3 ∧ net'.trust 5 = mesh4x4.trust 5 := by
  have h := feedbackPass_credits mesh4x4 arrivedFlit rfl
  obtain ⟨net', hnet'⟩ := h.1.mpr ⟨by decide, by
    intro i hi
    have hi2 : i < 2 := hi
    interval_cases i
    · exact ⟨0, rfl, by decide, by decide⟩
    · exact ⟨1, rfl, by decide, by decide⟩⟩
  obtain ⟨hcount, -, hlast⟩ := h.2.1 net' hnet'
  refine ⟨net', hnet', ?_, ?_, ?_, hlast (by decide) 5 rfl⟩
  · rw [hcount 0 .East rfl]; rfl
  · rw [hcount 1 .North rfl]; rfl
  · rw [hcount 0 .North rfl]; rfl

/-- C10: at the destination router, a feedback pass that completes leaves
every counter (router `r`, direction `d`) unchanged for which no position
`i < len(directions)` has `routers[i] == r` and `directions[i] == d`, lowers
no counter, and keeps the mesh shape; `outportCompute` returns exactly when
the pass completes and the static route selector finds a link, and it then
returns the flit (direction history and path) and the routing unit (routing
table and weight table) as they were. -/
theorem outportCompute_feedback_frame (INFINITE_ : Int) (net : GarnetNetwork) (rand : Nat)
    (ru : RoutingUnit) (route : RouteInfo) (t_flit : Flit)
    (hd : route.dest_router = ru.m_router_id) :
    (∀ net', feedbackPass net t_flit = .ok net' →
      (∀ r d, (∀ i, i < t_flit.direction.length →
          ¬ (t_flit.path[i]? = some r ∧ t_flit.direction[i]? = some d)) →
        (net'.trust r).counter d = (net.trust r).counter d) ∧
      (∀ r d, (net.trust r).counter d ≤ (net'.trust r).counter d) ∧
      net'.numRows = net.numRows ∧ net'.numCols = net.numCols ∧
      net'.numRouters = net.numRouters) ∧
    (∀ res, outportCompute INFINITE_ net rand ru route t_flit = .ok res →
      feedbackPass net t_flit = .ok res.net ∧
      res.flit.direction = t_flit.direction ∧ res.flit.path = t_flit.path ∧
      res.ru.m_routing_table = ru.m_routing_table ∧
      res.ru.m_weight_table = ru.m_weight_table ∧ res.ru = ru) ∧
    ((∃ res, outportCompute INFINITE_ net rand ru route t_flit = .ok res) ↔
      ((∃ net', feedbackPass net t_flit = .ok net') ∧
        ∃ l, lookupRoutingTable INFINITE_ net rand ru route.vnet route.net_dest = .ok l)) := by
  refine ⟨?_, ?_, ?_⟩
  · intro net' h
    have hshape := creditLoop_spec _ _ _ _ _ _ (feedbackPass_eq_creditLoop net net' t_flit h)
    have hcounter : ∀ r d, (net'.trust r).counter d =
        (net.trust r).counter d +
          (if d.isCardinal = true then
            (creditCount t_flit.path t_flit.direction r d : Int) else 0) := by
      intro r d
      by_cases hcard : d.isCardinal = true
      · rw [if_pos hcard]; exact feedbackPass_counter net net' t_flit h r d hcard
      · rw [if_neg hcard]
        cases d <;> simp_all [Trust.counter, PortDirection.isCardinal]
    refine ⟨?_, ?_, hshape.2.1, hshape.2.2.1, hshape.1⟩
    · intro r d hno
      rw [hcounter r d, creditCount_eq_zero _ _ r d hno]
      simp
    · intro r d
      rw [hcounter r d]
      split <;> omega
  · intro res h
    obtain ⟨hf, hflit, hru, -⟩ :=
      outportCompute_at_destination INFINITE_ net rand ru route t_flit res hd h
    exact ⟨hf, by rw [hflit], by rw [hflit], by rw [hru], by rw [hru], hru⟩
  · constructor
    · rintro ⟨res, h⟩
      obtain ⟨hf, -, -, l, hl, -⟩ :=
        outportCompute_at_destination INFINITE_ net rand ru route t_flit res hd h
      exact ⟨⟨res.net, hf⟩, l, hl⟩
    · rintro ⟨⟨net', hf⟩, l, hl⟩
      have hord : net'.isVNetOrdered = net.isVNetOrdered :=
        (creditLoop_spec _ _ _ _ _ _ (feedbackPass_eq_creditLoop net net' t_flit hf)).2.2.2.1
      rw [← lookupRoutingTable_congr_net INFINITE_ net net' rand ru _ _ hord] at hl
      refine ⟨{ outport := l, net := net', ru := ru, flit := t_flit }, ?_⟩
      unfold outportCompute
      rw [if_pos hd, hf]
      simp only
      rw [hl]

/-- C10 at a concrete input: router 5 of the 4x4 mesh receives the flit that
went 0 -East-> 1 -North-> 5; the call returns link 0, the flit and the
tables are as before, and the South counter of router 0 and every counter
of router 5 are untouched. -/
theorem outportCompute_feedback_frame_witness :
    ∃ res, outportCompute 10000 mesh4x4 0 destinationUnit (routeTo 5) arrivedFlit = .ok res ∧
      res.outport = 0 ∧ res.flit.direction = [.East, .North] ∧
      res.ru.m_weight_table = [1] ∧
      (res.net.trust 0).counter .South = 3 ∧ (res.net.trust 5).counter .North = 3 := by
  have h := outportCompute_feedback_frame 10000 mesh4x4 0 destinationUnit (routeTo 5)
    arrivedFlit rfl
  obtain ⟨net', hnet'⟩ := (feedbackPass_ok_iff mesh4x4 arrivedFlit).mpr ⟨rfl, by decide, by
    intro i hi
    have hi2 : i < 2 := hi
    interval_cases i
    · exact ⟨0, rfl, by decide, by decide⟩
    · exact ⟨1, rfl, by decide, by decide⟩⟩
  obtain ⟨res, hres⟩ := h.2.2.mpr ⟨⟨net', hnet'⟩, 0, rfl⟩
  obtain ⟨hf, hdir, -, -, hwt, -⟩ := h.2.1 res hres
  obtain ⟨hframe, -, -⟩ := h.1 res.net hf
  obtain ⟨-, -, -, l, hl, hout⟩ :=
    outportCompute_at_destination 10000 mesh4x4 0 destinationUnit (routeTo 5) arrivedFlit res
      rfl hres
  have hl0 : l = 0 := by
    have h0 : lookupRoutingTable 10000 mesh4x4 0 destinationUnit (routeTo 5).vnet
        (routeTo 5).net_dest = .ok 0 := rfl
    rw [h0] at hl
    simpa using hl.symm
  refine ⟨res, hres, by rw [hout, hl0]; rfl, by rw [hdir]; rfl, by rw [hwt]; rfl, ?_, ?_⟩
  · rw [hframe 0 .South (by
      intro i hi
      have hi2 : i < 2 := hi
      interval_cases i <;> decide)]
    rfl
  · rw [hframe 5 .North (by
      intro i hi
      have hi2 : i < 2 := hi
      interval_cases i <;> decide)]
    rfl

/-! ## Dispatch and fail-fast -/

/-- A feedback pass that completes lowers no counter. -/
theorem feedbackPass_counter_le (net net' : GarnetNetwork) (t_flit : Flit)
    (h : feedbackPass net t_flit = .ok net') (r : Int) (d : PortDirection) :
    (net.trust r).counter d ≤ (net'.trust r).counter d := by
  by_cases hcard : d.isCardinal = true
  · rw [feedbackPass_counter net net' t_flit h r d hcard]
    omega
  · cases d <;> simp_all [Trust.counter, PortDirection.isCardinal]

/-- A call of `outportComputeDXY` that returns passed both assertions. -/
theorem outportComputeDXY_ok_shape (net : GarnetNetwork) (ru : RoutingUnit)
    (route : RouteInfo) (t_flit : Flit) (res : Routed)
    (h : outportComputeDXY net ru route t_flit = .ok res) :
    0 < net.numRows ∧ 0 < net.numCols ∧ route.dest_router ≠ ru.m_router_id := by
  unfold outportComputeDXY at h
  simp only at h
  by_cases hshape : net.numRows > 0 ∧ net.numCols > 0
  · rw [if_neg (not_not.mpr hshape)] at h
    refine ⟨hshape.1, hshape.2, ?_⟩
    intro heq
    rw [heq] at h
    simp at h
  · rw [if_pos hshape] at h
    cases h

/-- A call of `outportComputeDXY` that returns raises no counter. -/
theorem outportComputeDXY_counter_le (net : GarnetNetwork) (ru : RoutingUnit)
    (route : RouteInfo) (t_flit : Flit) (res : Routed)
    (h : outportComputeDXY net ru route t_flit = .ok res) (r : Int) (d : PortDirection) :
    (res.net.trust r).counter d ≤ (net.trust r).counter d := by
  obtain ⟨hrows, hcols, hne⟩ := outportComputeDXY_ok_shape net ru route t_flit res h
  obtain ⟨hhops, hres⟩ := outportComputeDXY_eq net ru route t_flit hrows hcols hne
  obtain ⟨-, hdec, hframe⟩ := dxyChoose_effect _ _ (net.trust ru.m_router_id) hhops
  rw [hres] at h
  simp only [Except.ok.injEq] at h
  subst h
  by_cases hr : r = ru.m_router_id
  · subst hr
    by_cases hd : d = (dxyChoose
        (meshX route.dest_router net.numCols - meshX ru.m_router_id net.numCols)
        (meshY route.dest_router net.numCols - meshY ru.m_router_id net.numCols)
        (net.trust ru.m_router_id)).1
    · subst hd
      simp only [GarnetNetwork.setTrust, if_true]
      omega
    · have := hframe d hd
      simp only [GarnetNetwork.setTrust, if_true]
      omega
  · simp [GarnetNetwork.setTrust, hr]

/-- At the destination router, once the feedback pass has completed,
`outportCompute` yields what `lookupRoutingTable(route.vnet,
route.net_dest)` yields (the same link, or the same fault), with the flit
as it was and no counter lowered; it returns exactly when the pass
completes and the selector finds a link.  At any other router
`outportCompute` is `outportComputeDXY` on the same route and flit (same
port, same resulting state, same fault), raises no counter, and returns on
every mesh of positive shape. -/
theorem outportCompute_dispatch (INFINITE_ : Int) (net : GarnetNetwork) (rand : Nat)
    (ru : RoutingUnit) (route : RouteInfo) (t_flit : Flit) :
    (route.dest_router = ru.m_router_id →
      (∀ net', feedbackPass net t_flit = .ok net' →
        outportCompute INFINITE_ net rand ru route t_flit =
          match lookupRoutingTable INFINITE_ net rand ru route.vnet route.net_dest with
          | .ok l => .ok { outport := l, net := net', ru := ru, flit := t_flit }
          | .error f => .error f) ∧
      (∀ res, outportCompute INFINITE_ net rand ru route t_flit = .ok res →
        (∃ l : Nat,
          lookupRoutingTable INFINITE_ net rand ru route.vnet route.net_dest = .ok l ∧
          res.outport = l) ∧
        res.flit = t_flit ∧ res.ru = ru ∧
        ∀ r d, (net.trust r).counter d ≤ (res.net.trust r).counter d) ∧
      ((∃ res, outportCompute INFINITE_ net rand ru route t_flit = .ok res) ↔
        ((∃ net', feedbackPass net t_flit = .ok net') ∧
          ∃ l, lookupRoutingTable INFINITE_ net rand ru route.vnet route.net_dest = .ok l))) ∧
    (route.dest_router ≠ ru.m_router_id →
      outportCompute INFINITE_ net rand ru route t_flit =
        outportComputeDXY net ru route t_flit ∧
      (∀ res, outportCompute INFINITE_ net rand ru route t_flit = .ok res →
        ∀ r d, (res.net.trust r).counter d ≤ (net.trust r).counter d) ∧
      (0 < net.numRows → 0 < net.numCols →
        ∃ res, outportCompute INFINITE_ net rand ru route t_flit = .ok res)) := by
  constructor
  · intro hd
    have hstep : ∀ net', feedbackPass net t_flit = .ok net' →
        outportCompute INFINITE_ net rand ru route t_flit =
          match lookupRoutingTable INFINITE_ net rand ru route.vnet route.net_dest with
          | .ok l => .ok { outport := l, net := net', ru := ru, flit := t_flit }
          | .error f => .error f := by
      intro net' hf
      have hord : net'.isVNetOrdered = net.isVNetOrdered :=
        (creditLoop_spec _ _ _ _ _ _ (feedbackPass_eq_creditLoop net net' t_flit hf)).2.2.2.1
      unfold outportCompute
      rw [if_pos hd, hf]
      simp only
      rw [lookupRoutingTable_congr_net INFINITE_ net net' rand ru _ _ hord]
      cases lookupRoutingTable INFINITE_ net rand ru route.vnet route.net_dest <;> rfl
    refine ⟨hstep, ?_, ?_⟩
    · intro res h
      obtain ⟨hf, hflit, hru, l, hl, hout⟩ :=
        outportCompute_at_destination INFINITE_ net rand ru route t_flit res hd h
      exact ⟨⟨l, hl, hout⟩, hflit, hru, feedbackPass_counter_le net res.net t_flit hf⟩
    · constructor
      · rintro ⟨res, h⟩
        obtain ⟨hf, -, -, l, hl, -⟩ :=
          outportCompute_at_destination INFINITE_ net rand ru route t_flit res hd h
        exact ⟨⟨res.net, hf⟩, l, hl⟩
      · rintro ⟨⟨net', hf⟩, l, hl⟩
        refine ⟨{ outport := l, net := net', ru := ru, flit := t_flit }, ?_⟩
        rw [hstep net' hf, hl]
  · intro hne
    have heq : outportCompute INFINITE_ net rand ru route t_flit =
        outportComputeDXY net ru route t_flit := by
      unfold outportCompute
      rw [if_neg hne]
    refine ⟨heq, ?_, ?_⟩
    · intro res h
      rw [heq] at h
      exact outportComputeDXY_counter_le net ru route t_flit res h
    · intro hrows hcols
      rw [heq]
      exact ⟨_, (outportComputeDXY_eq net ru route t_flit hrows hcols hne).2⟩

/-- The dispatch at two concrete inputs: router 5 of the 4x4 mesh delivers the flit
that arrived from 0 over 1 on link 0, the link the static selector gives;
router 0 routes a flit for router 12 as `outportComputeDXY` does. -/
theorem outportCompute_dispatch_witness :
    (∃ res, outportCompute 10000 mesh4x4 0 destinationUnit (routeTo 5) arrivedFlit = .ok res ∧
      lookupRoutingTable 10000 mesh4x4 0 destinationUnit 0 ⟨[0]⟩ = .ok 0 ∧
      res.outport = 0) ∧
    outportCompute 10000 mesh4x4 0 cornerUnit (routeTo 12) freshFlit =
      outportComputeDXY mesh4x4 cornerUnit (routeTo 12) freshFlit := by
  have hdest := (outportCompute_dispatch 10000 mesh4x4 0 destinationUnit (routeTo 5)
    arrivedFlit).1 rfl
  have hother := (outportCompute_dispatch 10000 mesh4x4 0 cornerUnit (routeTo 12)
    freshFlit).2 (by decide)
  refine ⟨?_, hother.1⟩
  obtain ⟨net', hnet'⟩ := (feedbackPass_ok_iff mesh4x4 arrivedFlit).mpr ⟨rfl, by decide, by
    intro i hi
    have hi2 : i < 2 := hi
    interval_cases i
    · exact ⟨0, rfl, by decide, by decide⟩
    · exact ⟨1, rfl, by decide, by decide⟩⟩
  obtain ⟨res, hres⟩ := hdest.2.2.mpr ⟨⟨net', hnet'⟩, 0, rfl⟩
  obtain ⟨⟨l, hl, hout⟩, -⟩ := hdest.2.1 res hres
  have h0 : lookupRoutingTable 10000 mesh4x4 0 destinationUnit 0 ⟨[0]⟩ = .ok 0 := rfl
  have hl0 : l = 0 := by
    have hl' : lookupRoutingTable 10000 mesh4x4 0 destinationUnit 0 ⟨[0]⟩ = .ok l := hl
    rw [h0] at hl'
    simpa using hl'.symm
  exact ⟨res, hres, h0, by rw [hout, hl0]; rfl⟩

/-- C12: on a mesh of positive shape, `outportComputeDXY` stops at an
assertion, returning no port and no state, exactly when the destination is
this router, which is exactly when both hop counts are zero; it returns in
every other case, so a call reached through `outportCompute`, which makes
it only for another destination, never stops at the assertion. -/
theorem outportComputeDXY_zero_hop_assert (net : GarnetNetwork) (ru : RoutingUnit)
    (route : RouteInfo) (t_flit : Flit)
    (hrows : 0 < net.numRows) (hcols : 0 < net.numCols) :
    (outportComputeDXY net ru route t_flit = .error .assertion ↔
      route.dest_router = ru.m_router_id) ∧
    (route.dest_router = ru.m_router_id ↔
      (meshX route.dest_router net.numCols - meshX ru.m_router_id net.numCols = 0 ∧
       meshY route.dest_router net.numCols - meshY ru.m_router_id net.numCols = 0)) ∧
    ((∃ res, outportComputeDXY net ru route t_flit = .ok res) ↔
      route.dest_router ≠ ru.m_router_id) ∧
    (∀ (INFINITE_ : Int) (rand : Nat), route.dest_router ≠ ru.m_router_id →
      outportCompute INFINITE_ net rand ru route t_flit =
        outportComputeDXY net ru route t_flit ∧
      outportCompute INFINITE_ net rand ru route t_flit ≠ .error .assertion) := by
  have hself : route.dest_router = ru.m_router_id →
      outportComputeDXY net ru route t_flit = .error .assertion := by
    intro heq
    unfold outportComputeDXY
    simp only
    rw [if_neg (by simp [hrows, hcols]), heq]
    simp
  have hother : route.dest_router ≠ ru.m_router_id →
      ∃ res, outportComputeDXY net ru route t_flit = .ok res := fun hne =>
    ⟨_, (outportComputeDXY_eq net ru route t_flit hrows hcols hne).2⟩
  refine ⟨⟨?_, hself⟩, ⟨?_, ?_⟩, ⟨?_, hother⟩, ?_⟩
  · intro herr
    by_contra hne
    obtain ⟨res, hres⟩ := hother hne
    rw [hres] at herr
    cases herr
  · intro heq
    rw [heq]
    simp
  · rintro ⟨hx, hy⟩
    exact eq_of_meshX_eq_of_meshY_eq _ _ net.numCols (by omega) (by omega)
  · rintro ⟨res, hres⟩ heq
    rw [hself heq] at hres
    cases hres
  · intro INFINITE_ rand hne
    have heq : outportCompute INFINITE_ net rand ru route t_flit =
        outportComputeDXY net ru route t_flit := by
      unfold outportCompute
      rw [if_neg hne]
    refine ⟨heq, ?_⟩
    obtain ⟨res, hres⟩ := hother hne
    rw [heq, hres]
    intro hcontra
    cases hcontra

/-- C12 at a concrete input: on the 4x4 mesh, router 0 asked to route a flit
for router 0 stops at the assertion. -/
theorem outportComputeDXY_zero_hop_assert_witness :
    outportComputeDXY mesh4x4 cornerUnit (routeTo 0) freshFlit = .error .assertion :=
  (outportComputeDXY_zero_hop_assert mesh4x4 cornerUnit (routeTo 0) freshFlit
    (by decide) (by decide)).1.mpr rfl

/-! ## Table construction: contracts -/

/-- The routing table after `addRoute`, vnet by vnet: as many vnets as the
larger of the table and the entry have, and at vnet `v` the old link list
(empty when the vnet is new) followed by `entry[v]` when the entry has
one. -/
theorem addRoute_table (ru : RoutingUnit) (entry : List NetDest) :
    (addRoute ru entry).m_routing_table.length =
      max ru.m_routing_table.length entry.length ∧
    ∀ v, (addRoute ru entry).m_routing_table[v]? =
      if v < max ru.m_routing_table.length entry.length then
        some (match entry[v]? with
          | some e => (ru.m_routing_table[v]?).getD [] ++ [e]
          | none => (ru.m_routing_table[v]?).getD [])
      else none := by
  have hlen : (if entry.length > ru.m_routing_table.length then
        ru.m_routing_table ++
          List.replicate (entry.length - ru.m_routing_table.length) []
      else ru.m_routing_table).length = max ru.m_routing_table.length entry.length := by
    split
    · simp; omega
    · simp; omega
  have hget : ∀ v, (if entry.length > ru.m_routing_table.length then
        ru.m_routing_table ++
          List.replicate (entry.length - ru.m_routing_table.length) []
      else ru.m_routing_table).getD v [] = (ru.m_routing_table[v]?).getD [] := by
    intro v
    rw [List.getD_eq_getElem?_getD]
    split
    · by_cases hv : v < ru.m_routing_table.length
      · rw [List.getElem?_append_left hv]
      · rw [List.getElem?_append_right (by omega), List.getElem?_eq_none (l := ru.m_routing_table) (by omega)]
        by_cases hv' : v - ru.m_routing_table.length <
            entry.length - ru.m_routing_table.length
        · simp [List.getElem?_replicate, hv']
        · simp [List.getElem?_replicate, hv']
    · rfl
  unfold addRoute
  simp only
  refine ⟨by simp [hlen], ?_⟩
  intro v
  rw [List.getElem?_map, hlen]
  by_cases hv : v < max ru.m_routing_table.length entry.length
  · rw [if_pos hv, List.getElem?_range hv]
    simp only [Option.map_some', hget]
  · rw [if_neg hv, List.getElem?_eq_none (by simp; omega)]
    rfl

/-- C14: after `addRoute(entry)` the number of vnets is the larger of the
old number and `len(entry)`; for every `v < len(entry)` the link list of
vnet `v` is its old list (empty if the vnet is new) with `entry[v]` appended
at the end; for every `v >= len(entry)` the link list of vnet `v` is as it
was; the weight table, the four direction maps and the router are
unchanged. -/
theorem addRoute_postcondition (ru : RoutingUnit) (entry : List NetDest) :
    (addRoute ru entry).m_routing_table.length =
      max ru.m_routing_table.length entry.length ∧
    (∀ (v : Nat) (e : NetDest), entry[v]? = some e →
      (addRoute ru entry).m_routing_table[v]? =
        some ((ru.m_routing_table[v]?).getD [] ++ [e])) ∧
    (∀ v : Nat, entry.length ≤ v →
      (addRoute ru entry).m_routing_table[v]? = ru.m_routing_table[v]?) ∧
    (addRoute ru entry).m_weight_table = ru.m_weight_table ∧
    (addRoute ru entry).m_inports_dirn2idx = ru.m_inports_dirn2idx ∧
    (addRoute ru entry).m_inports_idx2dirn = ru.m_inports_idx2dirn ∧
    (addRoute ru entry).m_outports_dirn2idx = ru.m_outports_dirn2idx ∧
    (addRoute ru entry).m_outports_idx2dirn = ru.m_outports_idx2dirn ∧
    (addRoute ru entry).m_router_id = ru.m_router_id := by
  obtain ⟨hlen, hget⟩ := addRoute_table ru entry
  refine ⟨hlen, ?_, ?_, rfl, rfl, rfl, rfl, rfl, rfl⟩
  · intro v e hve
    obtain ⟨hv, -⟩ := List.getElem?_eq_some_iff.mp hve
    rw [hget v, if_pos (by omega), hve]
  · intro v hv
    rw [hget v, List.getElem?_eq_none (l := entry) hv]
    by_cases hv' : v < ru.m_routing_table.length
    · rw [if_pos (by omega), List.getElem?_eq_getElem hv']
      rfl
    · rw [if_neg (by omega), List.getElem?_eq_none (by omega)]

/-- C14 at a concrete input: a two-vnet entry added to the three-link unit
becomes link 3 of both vnets. -/
theorem addRoute_postcondition_witness :
    (addRoute threeLinkUnit [⟨[4]⟩, ⟨[5]⟩]).m_routing_table =
      [[⟨[0, 1]⟩, ⟨[1]⟩, ⟨[1, 2]⟩, ⟨[4]⟩], [⟨[0, 1]⟩, ⟨[1]⟩, ⟨[1, 2]⟩, ⟨[5]⟩]] ∧
    (addRoute threeLinkUnit [⟨[4]⟩, ⟨[5]⟩]).m_routing_table[1]? =
      some ((threeLinkUnit.m_routing_table[1]?).getD [] ++ [⟨[5]⟩]) :=
  ⟨by decide, (addRoute_postcondition threeLinkUnit [⟨[4]⟩, ⟨[5]⟩]).2.1 1 ⟨[5]⟩ rfl⟩

/-- One more `addRoute` call with an entry of `n` vnets keeps the table the
rectangle of the entries added so far. -/
theorem SpansEntries.after_addRoute (n : Nat) (prior : List (List NetDest)) (ru : RoutingUnit)
    (entry : List NetDest) (h : SpansEntries n prior ru) (hn : entry.length = n) :
    SpansEntries n (prior ++ [entry]) (Garnet.addRoute ru entry) := by
  obtain ⟨hlen, hrows⟩ := h
  obtain ⟨hlen', hget⟩ := addRoute_table ru entry
  have hmax : max ru.m_routing_table.length entry.length = n := by
    rw [hlen, hn]
    split <;> simp
  have hold : ∀ v, v < n →
      ((ru.m_routing_table[v]?).getD []).length = prior.length ∧
      ∀ (l : Nat) (e : List NetDest), prior[l]? = some e →
        ((ru.m_routing_table[v]?).getD [])[l]? = e[v]? := by
    intro v hv
    by_cases hp : prior = []
    · subst hp
      rw [if_pos rfl] at hlen
      rw [List.getElem?_eq_none (by omega)]
      simp
    · rw [if_neg hp] at hlen
      have hv' : v < ru.m_routing_table.length := by omega
      rw [List.getElem?_eq_getElem hv']
      exact hrows v _ (List.getElem?_eq_getElem hv')
  refine ⟨by rw [hlen', hmax]; simp, ?_⟩
  intro v links hv
  rw [hget v, hmax] at hv
  by_cases hvn : v < n
  · rw [if_pos hvn] at hv
    have hve : entry[v]? = some entry[v] := List.getElem?_eq_getElem (by omega)
    rw [hve] at hv
    simp only [Option.some.injEq] at hv
    subst hv
    obtain ⟨ho1, ho2⟩ := hold v hvn
    refine ⟨by simp [ho1], ?_⟩
    intro l e hle
    by_cases hl : l < prior.length
    · rw [List.getElem?_append_left hl] at hle
      rw [List.getElem?_append_left (by omega)]
      exact ho2 l e hle
    · have hl' : l = prior.length := by
        by_contra hne
        rw [List.getElem?_eq_none (by simp; omega)] at hle
        cases hle
      subst hl'
      have he : entry = e := by simpa using hle
      subst he
      rw [List.getElem?_append_right (by omega), ho1, hve]
      simp
  · rw [if_neg hvn] at hv
    cases hv

/-- A sequence of `addRoute` calls with entries of `n` vnets each keeps the
table the rectangle of the entries added so far. -/
theorem SpansEntries.after_addRoutes (n : Nat) :
    ∀ (later prior : List (List NetDest)) (ru : RoutingUnit),
      SpansEntries n prior ru → (∀ e ∈ later, e.length = n) →
      SpansEntries n (prior ++ later) (Garnet.addRoutes ru later) := by
  intro later
  induction later with
  | nil =>
    intro prior ru h _
    simpa [Garnet.addRoutes] using h
  | cons entry rest ih =>
    intro prior ru h hn
    have hstep := SpansEntries.after_addRoute n prior ru entry h (hn entry (List.mem_cons_self _ _))
    have := ih (prior ++ [entry]) (Garnet.addRoute ru entry) hstep
      (fun e he => hn e (List.mem_cons_of_mem _ he))
    simpa [Garnet.addRoutes] using this

/-- C13, as the code has it: starting from the empty table, after every
finite sequence of `addRoute` calls whose entries all have the same number
`n` of vnets, the table has `n` vnets once a call was made, every vnet has
as many link entries as calls were made, and link `l` of vnet `v` is the
destination set that the `l`-th call supplied for vnet `v`. -/
theorem addRoutes_rectangular (router_id : Int) (entries : List (List NetDest)) (n : Nat)
    (hn : ∀ e ∈ entries, e.length = n) :
    (entries ≠ [] →
      (addRoutes (RoutingUnit.init router_id) entries).m_routing_table.length = n) ∧
    ∀ (v : Nat) (links : List NetDest),
      (addRoutes (RoutingUnit.init router_id) entries).m_routing_table[v]? = some links →
      links.length = entries.length ∧
      ∀ (l : Nat) (e : List NetDest), entries[l]? = some e → links[l]? = e[v]? := by
  have h0 : SpansEntries n [] (RoutingUnit.init router_id) := by
    refine ⟨by simp [RoutingUnit.init], ?_⟩
    intro v links hv
    simp [RoutingUnit.init] at hv
  have h := SpansEntries.after_addRoutes n entries [] (RoutingUnit.init router_id) h0 hn
  rw [List.nil_append] at h
  obtain ⟨hlen, hrows⟩ := h
  refine ⟨?_, hrows⟩
  intro hne
  rw [hlen, if_neg hne]

/-- C13 at a concrete input: three calls with two vnets each give two vnets
of three links each. -/
theorem addRoutes_rectangular_witness :
    (addRoutes (RoutingUnit.init 0)
      [[⟨[0, 1]⟩, ⟨[0, 1]⟩], [⟨[1]⟩, ⟨[1]⟩], [⟨[1, 2]⟩, ⟨[1, 2]⟩]]).m_routing_table.length
      = 2 ∧
    ∀ (v : Nat) (links : List NetDest),
      (addRoutes (RoutingUnit.init 0)
        [[⟨[0, 1]⟩, ⟨[0, 1]⟩], [⟨[1]⟩, ⟨[1]⟩], [⟨[1, 2]⟩, ⟨[1, 2]⟩]]).m_routing_table[v]?
        = some links →
      links.length = 3 :=
  have h := addRoutes_rectangular 0
    [[⟨[0, 1]⟩, ⟨[0, 1]⟩], [⟨[1]⟩, ⟨[1]⟩], [⟨[1, 2]⟩, ⟨[1, 2]⟩]] 2 (by decide)
  ⟨h.1 (by decide), fun v links hv => (h.2 v links hv).1⟩

/-- C13 as stated fails: after a call with one vnet and a call with two
vnets, vnet 0 has two link entries and vnet 1 has one, so link 0 of vnet 1
is the second link added. -/
theorem addRoutes_uneven_not_rectangular :
    (addRoutes (RoutingUnit.init 0) [[⟨[0]⟩], [⟨[1]⟩, ⟨[2]⟩]]).m_routing_table =
      [[⟨[0]⟩, ⟨[1]⟩], [⟨[2]⟩]] ∧
    ((addRoutes (RoutingUnit.init 0) [[⟨[0]⟩], [⟨[1]⟩, ⟨[2]⟩]]).m_routing_table.map
      List.length) = [2, 1] := by
  decide

/-- C15: after `addWeight(w)` the weight table is the old table with `w`
appended: `w` sits at the index that was the old length, every earlier
index holds the weight it held, and the routing table and the rest of the
unit are unchanged.  The function has no failing outcome and reads no size
of the routing table, whatever the two tables are. -/
theorem addWeight_postcondition (ru : RoutingUnit) (w : Int) :
    (addWeight ru w).m_weight_table = ru.m_weight_table ++ [w] ∧
    (addWeight ru w).m_weight_table.length = ru.m_weight_table.length + 1 ∧
    (addWeight ru w).m_weight_table[ru.m_weight_table.length]? = some w ∧
    (∀ i : Nat, i < ru.m_weight_table.length →
      (addWeight ru w).m_weight_table[i]? = ru.m_weight_table[i]?) ∧
    (addWeight ru w).m_routing_table = ru.m_routing_table ∧
    (addWeight ru w).m_inports_dirn2idx = ru.m_inports_dirn2idx ∧
    (addWeight ru w).m_inports_idx2dirn = ru.m_inports_idx2dirn ∧
    (addWeight ru w).m_outports_dirn2idx = ru.m_outports_dirn2idx ∧
    (addWeight ru w).m_outports_idx2dirn = ru.m_outports_idx2dirn ∧
    (addWeight ru w).m_router_id = ru.m_router_id := by
  refine ⟨rfl, by simp [addWeight], by simp [addWeight], ?_, rfl, rfl, rfl, rfl, rfl, rfl⟩
  intro i hi
  simp [addWeight, List.getElem?_append_left hi]

/-- C16: `supportsVnet(vnet, sVnets)` is true exactly when `sVnets` is empty
or `vnet` is one of its elements, for every integer and every list; being a
function of its two arguments only, it reads and writes no state. -/
theorem supportsVnet_iff (vnet : Int) (sVnets : List Int) :
    supportsVnet vnet sVnets = true ↔ (sVnets = [] ∨ vnet ∈ sVnets) := by
  unfold supportsVnet
  by_cases hnil : sVnets = []
  · subst hnil
    simp
  · have hlen : ¬ sVnets.length = 0 := by
      intro h
      exact hnil (List.length_eq_zero.mp h)
    rw [if_neg hlen]
    by_cases hmem : vnet ∈ sVnets
    · simp [hmem]
    · simp [hmem, hnil]

/-! ## Direction registry -/

/-- One more `addOutDirection` call, with a direction and an index that are
not registered yet, keeps the two output maps mutually inverse. -/
theorem addOutDirection_inverse (ru : RoutingUnit) (d₀ : PortDirection) (i₀ : Int)
    (hinv : ∀ d i, ru.m_outports_dirn2idx d = some i ↔ ru.m_outports_idx2dirn i = some d)
    (hd : ru.m_outports_dirn2idx d₀ = none) (hi : ru.m_outports_idx2dirn i₀ = none) :
    ∀ d i, (addOutDirection ru d₀ i₀).m_outports_dirn2idx d = some i ↔
      (addOutDirection ru d₀ i₀).m_outports_idx2dirn i = some d := by
  intro d i
  simp only [addOutDirection]
  by_cases hdd : d = d₀
  · subst hdd
    by_cases hii : i = i₀
    · subst hii
      simp
    · have hno : ¬ ru.m_outports_idx2dirn i = some d := by
        intro hc
        rw [(hinv d i).mpr hc] at hd
        cases hd
      have hii' : ¬ i₀ = i := fun h => hii h.symm
      simp [hii, hii', hno]
  · by_cases hii : i = i₀
    · subst hii
      have hno : ¬ ru.m_outports_dirn2idx d = some i := by
        intro hc
        rw [(hinv d i).mp hc] at hi
        cases hi
      have hdd' : ¬ d₀ = d := fun h => hdd h.symm
      simp [hdd, hdd', hno]
    · simp [hdd, hii, hinv d i]

/-- One more `addInDirection` call, with a direction and an index that are
not registered yet, keeps the two input maps mutually inverse. -/
theorem addInDirection_inverse (ru : RoutingUnit) (d₀ : PortDirection) (i₀ : Int)
    (hinv : ∀ d i, ru.m_inports_dirn2idx d = some i ↔ ru.m_inports_idx2dirn i = some d)
    (hd : ru.m_inports_dirn2idx d₀ = none) (hi : ru.m_inports_idx2dirn i₀ = none) :
    ∀ d i, (addInDirection ru d₀ i₀).m_inports_dirn2idx d = some i ↔
      (addInDirection ru d₀ i₀).m_inports_idx2dirn i = some d := by
  intro d i
  simp only [addInDirection]
  by_cases hdd : d = d₀
  · subst hdd
    by_cases hii : i = i₀
    · subst hii
      simp
    · have hno : ¬ ru.m_inports_idx2dirn i = some d := by
        intro hc
        rw [(hinv d i).mpr hc] at hd
        cases hd
      have hii' : ¬ i₀ = i := fun h => hii h.symm
      simp [hii, hii', hno]
  · by_cases hii : i = i₀
    · subst hii
      have hno : ¬ ru.m_inports_dirn2idx d = some i := by
        intro hc
        rw [(hinv d i).mp hc] at hi
        cases hi
      have hdd' : ¬ d₀ = d := fun h => hdd h.symm
      simp [hdd, hdd', hno]
    · simp [hdd, hii, hinv d i]

/-- A sequence of `addOutDirection` calls that names no direction and no
index twice, none of them registered before, keeps the two output maps
mutually inverse. -/
theorem addOutDirections_inverse :
    ∀ (calls : List (PortDirection × Int)) (ru : RoutingUnit),
      (∀ d i, ru.m_outports_dirn2idx d = some i ↔ ru.m_outports_idx2dirn i = some d) →
      (calls.map Prod.fst).Nodup → (calls.map Prod.snd).Nodup →
      (∀ c ∈ calls, ru.m_outports_dirn2idx c.1 = none ∧ ru.m_outports_idx2dirn c.2 = none) →
      ∀ d i, (addOutDirections ru calls).m_outports_dirn2idx d = some i ↔
        (addOutDirections ru calls).m_outports_idx2dirn i = some d := by
  intro calls
  induction calls with
  | nil => intro ru hinv _ _ _; simpa [addOutDirections] using hinv
  | cons c rest ih =>
    intro ru hinv hnd hni hfresh
    obtain ⟨hcd, hci⟩ := hfresh c (List.mem_cons_self _ _)
    rw [List.map_cons, List.nodup_cons] at hnd hni
    have hstep := addOutDirection_inverse ru c.1 c.2 hinv hcd hci
    have hrest : ∀ c' ∈ rest,
        (addOutDirection ru c.1 c.2).m_outports_dirn2idx c'.1 = none ∧
        (addOutDirection ru c.1 c.2).m_outports_idx2dirn c'.2 = none := by
      intro c' hc'
      obtain ⟨h1, h2⟩ := hfresh c' (List.mem_cons_of_mem _ hc')
      have hd : c'.1 ≠ c.1 := by
        intro heq
        exact hnd.1 (heq ▸ List.mem_map_of_mem Prod.fst hc')
      have hi : c'.2 ≠ c.2 := by
        intro heq
        exact hni.1 (heq ▸ List.mem_map_of_mem Prod.snd hc')
      simp [addOutDirection, hd, hi, h1, h2]
    have := ih (addOutDirection ru c.1 c.2) hstep hnd.2 hni.2 hrest
    simpa [addOutDirections] using this

/-- A sequence of `addInDirection` calls that names no direction and no
index twice, none of them registered before, keeps the two input maps
mutually inverse. -/
theorem addInDirections_inverse :
    ∀ (calls : List (PortDirection × Int)) (ru : RoutingUnit),
      (∀ d i, ru.m_inports_dirn2idx d = some i ↔ ru.m_inports_idx2dirn i = some d) →
      (calls.map Prod.fst).Nodup → (calls.map Prod.snd).Nodup →
      (∀ c ∈ calls, ru.m_inports_dirn2idx c.1 = none ∧ ru.m_inports_idx2dirn c.2 = none) →
      ∀ d i, (addInDirections ru calls).m_inports_dirn2idx d = some i ↔
        (addInDirections ru calls).m_inports_idx2dirn i = some d := by
  intro calls
  induction calls with
  | nil => intro ru hinv _ _ _; simpa [addInDirections] using hinv
  | cons c rest ih =>
    intro ru hinv hnd hni hfresh
    obtain ⟨hcd, hci⟩ := hfresh c (List.mem_cons_self _ _)
    rw [List.map_cons, List.nodup_cons] at hnd hni
    have hstep := addInDirection_inverse ru c.1 c.2 hinv hcd hci
    have hrest : ∀ c' ∈ rest,
        (addInDirection ru c.1 c.2).m_inports_dirn2idx c'.1 = none ∧
        (addInDirection ru c.1 c.2).m_inports_idx2dirn c'.2 = none := by
      intro c' hc'
      obtain ⟨h1, h2⟩ := hfresh c' (List.mem_cons_of_mem _ hc')
      have hd : c'.1 ≠ c.1 := by
        intro heq
        exact hnd.1 (heq ▸ List.mem_map_of_mem Prod.fst hc')
      have hi : c'.2 ≠ c.2 := by
        intro heq
        exact hni.1 (heq ▸ List.mem_map_of_mem Prod.snd hc')
      simp [addInDirection, hd, hi, h1, h2]
    have := ih (addInDirection ru c.1 c.2) hstep hnd.2 hni.2 hrest
    simpa [addInDirections] using this

/-- C17, as the code has it: starting from empty maps, after every finite
sequence of `addOutDirection(direction, index)` calls in which no direction
and no index occurs twice, the map direction->index and the map
index->direction are mutually inverse (`dirn2idx[d] == i` if and only if
`idx2dirn[i] == d`), and likewise for `addInDirection`. -/
theorem direction_registry_inverse (router_id : Int) (calls : List (PortDirection × Int))
    (hd : (calls.map Prod.fst).Nodup) (hi : (calls.map Prod.snd).Nodup) :
    (∀ d i,
      (addOutDirections (RoutingUnit.init router_id) calls).m_outports_dirn2idx d = some i ↔
      (addOutDirections (RoutingUnit.init router_id) calls).m_outports_idx2dirn i = some d) ∧
    (∀ d i,
      (addInDirections (RoutingUnit.init router_id) calls).m_inports_dirn2idx d = some i ↔
      (addInDirections (RoutingUnit.init router_id) calls).m_inports_idx2dirn i = some d) :=
  ⟨addOutDirections_inverse calls (RoutingUnit.init router_id)
      (by intro d i; simp [RoutingUnit.init]) hd hi
      (by intro c _; simp [RoutingUnit.init]),
   addInDirections_inverse calls (RoutingUnit.init router_id)
      (by intro d i; simp [RoutingUnit.init]) hd hi
      (by intro c _; simp [RoutingUnit.init])⟩

/-- C17 at a concrete input: Local, East and North registered at 0, 1 and
2. -/
theorem direction_registry_inverse_witness :
    (∀ d i,
      (addOutDirections (RoutingUnit.init 0)
        [(.Local, 0), (.East, 1), (.North, 2)]).m_outports_dirn2idx d = some i ↔
      (addOutDirections (RoutingUnit.init 0)
        [(.Local, 0), (.East, 1), (.North, 2)]).m_outports_idx2dirn i = some d) ∧
    (addOutDirections (RoutingUnit.init 0)
        [(.Local, 0), (.East, 1), (.North, 2)]).m_outports_dirn2idx .East = some 1 :=
  ⟨(direction_registry_inverse 0 [(.Local, 0), (.East, 1), (.North, 2)]
      (by decide) (by decide)).1, rfl⟩

/-- C17 as stated fails: after two Local output ports are registered at
indices 0 and 1, index 0 still maps to Local but Local maps to index 1. -/
theorem direction_registry_two_local_ports :
    (addOutDirections (RoutingUnit.init 0)
      [(.Local, 0), (.Local, 1)]).m_outports_idx2dirn 0 = some .Local ∧
    (addOutDirections (RoutingUnit.init 0)
      [(.Local, 0), (.Local, 1)]).m_outports_dirn2idx .Local = some 1 ∧
    (addOutDirections (RoutingUnit.init 0)
      [(.Local, 0), (.Local, 1)]).m_outports_dirn2idx .Local ≠ some 0 := by
  refine ⟨rfl, rfl, ?_⟩
  decide

/-! ## Router lookups of the feedback pass -/

/-- On a network of fewer than sixteen routers the feedback pass stops at a
failed router lookup, whatever the flit recorded. -/
theorem feedbackPass_below_sixteen (net : GarnetNetwork) (t_flit : Flit)
    (h : net.numRouters < 16) : feedbackPass net t_flit = .error .outOfRange := by
  have hnot : ¬ traceTrusts net 0 16 = .ok () := by
    rw [traceTrusts_ok_iff]
    omega
  have hfault : ∀ (remaining i : Nat) (f : Fault),
      traceTrusts net i remaining = .error f → f = .outOfRange := by
    intro remaining
    induction remaining with
    | zero => intro i f hf; simp [traceTrusts] at hf
    | succ n ih =>
      intro i f hf
      unfold traceTrusts getRouter at hf
      by_cases hi : (0 : Int) ≤ (i : Int) ∧ (i : Int) < (net.numRouters : Int)
      · rw [if_pos hi] at hf
        exact ih (i + 1) f hf
      · rw [if_neg hi] at hf
        simp only [Except.error.injEq] at hf
        exact hf.symm
  unfold feedbackPass
  simp only
  cases ht : traceTrusts net 0 16 with
  | error f => rw [hfault 16 0 f ht]
  | ok u => exact absurd ht hnot

/-- The code at the failing input of C18: on a 2x2 mesh of four routers, for
the flit that went from router 0 East to router 1, every recorded router
id is below four and the crediting loop by itself completes, yet the
feedback pass, and with it `outportCompute` at router 1, stops at a failed
router lookup. -/
theorem feedbackPass_on_four_routers :
    (∀ r ∈ oneHopFlit.path, 0 ≤ r ∧ r < (mesh2x2.numRouters : Int)) ∧
    (∃ net', creditLoop oneHopFlit.direction oneHopFlit.path 0 1 mesh2x2 = .ok net') ∧
    getRouter mesh2x2 4 = .error .outOfRange ∧
    feedbackPass mesh2x2 oneHopFlit = .error .outOfRange ∧
    outportCompute 10000 mesh2x2 0 neighbourUnit (routeTo 1) oneHopFlit
      = .error .outOfRange := by
  refine ⟨by decide, ⟨_, rfl⟩, rfl, rfl, rfl⟩

/-! ## Tie rule of the adaptive router -/

/-- The choice of the branches when both hop counts are non-zero and the
counters of the two axis-reducing directions are equal. -/
theorem dxyChoose_tie (x_hops y_hops : Int) (t : Trust)
    (hx : x_hops ≠ 0) (hy : y_hops ≠ 0)
    (htie : t.counter (if 0 < y_hops then .North else .South) =
      t.counter (if 0 < x_hops then .East else .West)) :
    (dxyChoose x_hops y_hops t).1 =
      (if 0 < x_hops then .East else if 0 < y_hops then .West else .South) := by
  unfold dxyChoose
  split_ifs at htie ⊢ <;> simp_all [Trust.counter] <;> omega

/-- C19: on a mesh of positive shape, when the coordinates of this router
and of the destination differ in both axes and this router's counters for
the two axis-reducing directions are equal, `outportComputeDXY` returns and
appends East when the destination is north-east, East when it is
south-east, West when it is north-west and South when it is south-west. -/
theorem outportComputeDXY_tie_rule (net : GarnetNetwork) (ru : RoutingUnit)
    (route : RouteInfo) (t_flit : Flit)
    (hrows : 0 < net.numRows) (hcols : 0 < net.numCols)
    (hx : meshX route.dest_router net.numCols ≠ meshX ru.m_router_id net.numCols)
    (hy : meshY route.dest_router net.numCols ≠ meshY ru.m_router_id net.numCols)
    (htie :
      (net.trust ru.m_router_id).counter
        (if meshY ru.m_router_id net.numCols < meshY route.dest_router net.numCols
          then PortDirection.North else PortDirection.South) =
      (net.trust ru.m_router_id).counter
        (if meshX ru.m_router_id net.numCols < meshX route.dest_router net.numCols
          then PortDirection.East else PortDirection.West)) :
    ∃ res d, outportComputeDXY net ru route t_flit = .ok res ∧
      res.flit.direction = t_flit.direction ++ [d] ∧
      (meshX ru.m_router_id net.numCols < meshX route.dest_router net.numCols →
        meshY ru.m_router_id net.numCols < meshY route.dest_router net.numCols →
        d = .East) ∧
      (meshX ru.m_router_id net.numCols < meshX route.dest_router net.numCols →
        meshY route.dest_router net.numCols < meshY ru.m_router_id net.numCols →
        d = .East) ∧
      (meshX route.dest_router net.numCols < meshX ru.m_router_id net.numCols →
        meshY ru.m_router_id net.numCols < meshY route.dest_router net.numCols →
        d = .West) ∧
      (meshX route.dest_router net.numCols < meshX ru.m_router_id net.numCols →
        meshY route.dest_router net.numCols < meshY ru.m_router_id net.numCols →
        d = .South) := by
  have hne : route.dest_router ≠ ru.m_router_id := by
    intro heq
    rw [heq] at hx
    exact hx rfl
  obtain ⟨-, hres⟩ := outportComputeDXY_eq net ru route t_flit hrows hcols hne
  have ev : (0 < meshY route.dest_router net.numCols - meshY ru.m_router_id net.numCols) ↔
      meshY ru.m_router_id net.numCols < meshY route.dest_router net.numCols := by
    constructor <;> intro <;> omega
  have eh : (0 < meshX route.dest_router net.numCols - meshX ru.m_router_id net.numCols) ↔
      meshX ru.m_router_id net.numCols < meshX route.dest_router net.numCols := by
    constructor <;> intro <;> omega
  have hchoice := dxyChoose_tie
    (meshX route.dest_router net.numCols - meshX ru.m_router_id net.numCols)
    (meshY route.dest_router net.numCols - meshY ru.m_router_id net.numCols)
    (net.trust ru.m_router_id) (by omega) (by omega) (by simpa only [ev, eh] using htie)
  simp only [ev, eh] at hchoice
  refine ⟨_, _, hres, rfl, ?_, ?_, ?_, ?_⟩
  · intro h1 h2
    rw [hchoice, if_pos h1]
  · intro h1 h2
    rw [hchoice, if_pos h1]
  · intro h1 h2
    rw [hchoice, if_neg (by omega), if_pos h2]
  · intro h1 h2
    rw [hchoice, if_neg (by omega), if_neg (by omega)]

/-- C19 at a concrete input: on the 4x4 mesh, router 0 holds 3 for North and
for East and routes a flit for router 5 to the East; its East counter
becomes 2. -/
theorem outportComputeDXY_tie_rule_witness :
    ∃ res, outportComputeDXY mesh4x4 cornerUnit (routeTo 5) freshFlit = .ok res ∧
      res.flit.direction = [.East] ∧
      res.net.trust 0 = { north := 3, south := 3, east := 2, west := 3 } := by
  obtain ⟨res, d, hres, hdir, hNE, -⟩ :=
    outportComputeDXY_tie_rule mesh4x4 cornerUnit (routeTo 5) freshFlit
      (by decide) (by decide) (by decide) (by decide) (by decide)
  have hd : d = .East := hNE (by decide) (by decide)
  subst hd
  refine ⟨res, hres, hdir, ?_⟩
  have hval : outportComputeDXY mesh4x4 cornerUnit (routeTo 5) freshFlit = .ok res := hres
  simp only [outportComputeDXY] at hval
  rw [if_neg (by decide), if_neg (by decide)] at hval
  cases hval
  rfl

/-! ## Index safety of the static route selector -/

/-- C20: when `vnet` is a valid index of the routing table and the weight
table has at least as many entries as `m_routing_table[vnet]` has links,
both scans complete (every `m_weight_table[link]` they read is in range),
the counter `num_candidates` equals the length of the candidate list, the
selected position (0 on an ordered vnet, `rand % num_candidates` otherwise)
is a valid index of a non-empty candidate list, and the call ends either
in the no-route error or with a link, never in an index fault.  The
function yields a link only; it writes neither table. -/
theorem lookupRoutingTable_index_safe (INFINITE_ : Int) (net : GarnetNetwork) (rand : Nat)
    (ru : RoutingUnit) (vnet : Nat) (msg : NetDest) (links : List NetDest)
    (hv : ru.m_routing_table[vnet]? = some links)
    (hw : links.length ≤ ru.m_weight_table.length) :
    (∃ m, minWeightScan msg ru.m_weight_table links 0 INFINITE_ = .ok m ∧
      ∃ acc, collectScan msg ru.m_weight_table m links 0 (0, []) = .ok acc) ∧
    (∃ n cs, outputLinkCandidates INFINITE_ ru vnet msg = .ok (n, cs) ∧ n = cs.length ∧
      (cs ≠ [] →
        (if net.isVNetOrdered vnet = true then 0 else rand % n) < cs.length) ∧
      (cs = [] → lookupRoutingTable INFINITE_ net rand ru vnet msg = .error .noRoute) ∧
      (cs ≠ [] → ∃ l,
        cs[if net.isVNetOrdered vnet = true then 0 else rand % n]? = some l ∧
        lookupRoutingTable INFINITE_ net rand ru vnet msg = .ok l)) ∧
    lookupRoutingTable INFINITE_ net rand ru vnet msg ≠ .error .outOfRange := by
  have hcov : ∀ i e, links[i]? = some e → msg.intersectionIsNotEmpty e = true →
      0 + i < ru.m_weight_table.length := by
    intro i e hie _
    obtain ⟨hi, -⟩ := List.getElem?_eq_some_iff.mp hie
    omega
  obtain ⟨m, hm⟩ := minWeightScan_total msg ru.m_weight_table links 0 INFINITE_ hcov
  obtain ⟨acc, hacc⟩ := collectScan_total msg ru.m_weight_table m links 0 (0, []) hcov
  obtain ⟨n, cs, hc⟩ := outputLinkCandidates_total INFINITE_ ru vnet msg links hv hw
  obtain ⟨-, -, hn, -, -, -, -⟩ := outputLinkCandidates_spec INFINITE_ ru vnet msg links n cs hv hc
  subst hn
  have hsel : cs ≠ [] →
      (if net.isVNetOrdered vnet = true then 0 else rand % cs.length) < cs.length := by
    intro hne
    have hpos : 0 < cs.length := List.length_pos.mpr hne
    split
    · exact hpos
    · exact Nat.mod_lt _ hpos
  have hnone : cs = [] →
      lookupRoutingTable INFINITE_ net rand ru vnet msg = .error .noRoute := by
    intro hnil
    subst hnil
    exact lookupRoutingTable_of_no_candidates INFINITE_ net rand ru vnet msg _ hc
  have hsome : cs ≠ [] → ∃ l,
      cs[if net.isVNetOrdered vnet = true then 0 else rand % cs.length]? = some l ∧
      lookupRoutingTable INFINITE_ net rand ru vnet msg = .ok l := fun hne =>
    lookupRoutingTable_of_candidates INFINITE_ net rand ru vnet msg cs hc hne
  refine ⟨⟨m, hm, acc, hacc⟩, ⟨_, cs, hc, rfl, hsel, hnone, hsome⟩, ?_⟩
  by_cases hne : cs = []
  · rw [hnone hne]
    intro hcontra
    cases hcontra
  · obtain ⟨l, -, hl⟩ := hsome hne
    rw [hl]
    intro hcontra
    cases hcontra

/-- C20 at a concrete input: on the three-link unit, whose weight table has
three entries, the call for node 1 on the unordered vnet 1 with draw 5
ends in no index fault. -/
theorem lookupRoutingTable_index_safe_witness :
    lookupRoutingTable 10000 mesh4x4 5 threeLinkUnit 1 ⟨[1]⟩ ≠ .error .outOfRange :=
  (lookupRoutingTable_index_safe 10000 mesh4x4 5 threeLinkUnit 1 ⟨[1]⟩
    [⟨[0, 1]⟩, ⟨[1]⟩, ⟨[1, 2]⟩] rfl (by decide)).2.2

/-! ## Progress on the mesh -/

/-- The coordinates of the router `x + num_cols * y` with `0 ≤ x < num_cols`
and `0 ≤ y`. -/
theorem mesh_coords_of_decomp (num_cols x y : Int) (hx0 : 0 ≤ x) (hx : x < num_cols)
    (hy : 0 ≤ y) :
    meshX (x + num_cols * y) num_cols = x ∧ meshY (x + num_cols * y) num_cols = y := by
  have hc : 0 ≤ num_cols := by omega
  have hnn : 0 ≤ x + num_cols * y := by
    have := Int.mul_nonneg hc hy
    omega
  unfold meshX meshY
  rw [Int.tmod_eq_emod hnn hc, Int.tdiv_eq_ediv hnn hc]
  constructor
  · rw [Int.add_mul_emod_self_left, Int.emod_eq_of_lt hx0 hx]
  · rw [Int.add_mul_ediv_left _ _ (by omega), Int.ediv_eq_zero_of_lt hx0 hx]
    omega

/-- A router id of a `num_rows` by `num_cols` mesh is its column plus
`num_cols` times its row, the column below `num_cols` and the row below
`num_rows`. -/
theorem mesh_coords_bounds (num_rows num_cols id : Int) (hcols : 0 < num_cols)
    (h0 : 0 ≤ id) (hlt : id < num_rows * num_cols) :
    0 ≤ meshX id num_cols ∧ meshX id num_cols < num_cols ∧
    0 ≤ meshY id num_cols ∧ meshY id num_cols < num_rows ∧
    id = meshX id num_cols + num_cols * meshY id num_cols := by
  have hc : 0 ≤ num_cols := by omega
  have hdecomp := Int.emod_add_ediv id num_cols
  unfold meshX meshY
  rw [Int.tmod_eq_emod h0 hc, Int.tdiv_eq_ediv h0 hc]
  exact ⟨Int.emod_nonneg _ (by omega), Int.emod_lt_of_pos _ hcols,
    Int.ediv_nonneg h0 hc, Int.ediv_lt_of_lt_mul hcols hlt, hdecomp.symm⟩

/-- A router whose column is below `num_cols` and whose row is below
`num_rows` has an id below `num_rows * num_cols`. -/
theorem mesh_id_lt (num_rows num_cols x y : Int) (hx : x < num_cols) (hy : y < num_rows)
    (hcols : 0 < num_cols) : x + num_cols * y < num_rows * num_cols := by
  have h1 : num_cols * y ≤ num_cols * (num_rows - 1) :=
    Int.mul_le_mul_of_nonneg_left (by omega) (by omega)
  have h2 : num_cols * (num_rows - 1) = num_rows * num_cols - num_cols := by ring
  omega

/-- The sign of the hop count that the chosen direction reduces. -/
theorem dxyChoose_sign (x_hops y_hops : Int) (t : Trust) (h : ¬ (x_hops = 0 ∧ y_hops = 0)) :
    ((dxyChoose x_hops y_hops t).1 = .North ∧ 0 < y_hops) ∨
    ((dxyChoose x_hops y_hops t).1 = .South ∧ y_hops < 0) ∨
    ((dxyChoose x_hops y_hops t).1 = .East ∧ 0 < x_hops) ∨
    ((dxyChoose x_hops y_hops t).1 = .West ∧ x_hops < 0) := by
  unfold dxyChoose
  split_ifs <;> simp <;> omega

/-- The neighbour in the chosen direction: inside the mesh, one step away
along one axis, and one hop nearer to the destination. -/
theorem neighbour_progress (num_rows num_cols my_id dest_id : Int) (d : PortDirection)
    (hcols : 0 < num_cols)
    (hmy0 : 0 ≤ my_id) (hmy : my_id < num_rows * num_cols)
    (hdest0 : 0 ≤ dest_id) (hdest : dest_id < num_rows * num_cols)
    (hsign :
      (d = .North ∧ 0 < meshY dest_id num_cols - meshY my_id num_cols) ∨
      (d = .South ∧ meshY dest_id num_cols - meshY my_id num_cols < 0) ∨
      (d = .East ∧ 0 < meshX dest_id num_cols - meshX my_id num_cols) ∨
      (d = .West ∧ meshX dest_id num_cols - meshX my_id num_cols < 0)) :
    0 ≤ getRoutingUnitNumber my_id d num_cols ∧
    getRoutingUnitNumber my_id d num_cols < num_rows * num_cols ∧
    ((meshX (getRoutingUnitNumber my_id d num_cols) num_cols = meshX my_id num_cols ∧
        (meshY (getRoutingUnitNumber my_id d num_cols) num_cols
          - meshY my_id num_cols).natAbs = 1) ∨
      (meshY (getRoutingUnitNumber my_id d num_cols) num_cols = meshY my_id num_cols ∧
        (meshX (getRoutingUnitNumber my_id d num_cols) num_cols
          - meshX my_id num_cols).natAbs = 1)) ∧
    manhattan (getRoutingUnitNumber my_id d num_cols) dest_id num_cols + 1 =
      manhattan my_id dest_id num_cols := by
  obtain ⟨mx0, mx1, my0, my1, hid⟩ := mesh_coords_bounds num_rows num_cols my_id hcols hmy0 hmy
  obtain ⟨dx0, dx1, dy0, dy1, -⟩ :=
    mesh_coords_bounds num_rows num_cols dest_id hcols hdest0 hdest
  have key : ∀ x y : Int, 0 ≤ x → x < num_cols → 0 ≤ y → y < num_rows →
      getRoutingUnitNumber my_id d num_cols = x + num_cols * y →
      ((x = meshX my_id num_cols ∧ (y - meshY my_id num_cols).natAbs = 1) ∨
        (y = meshY my_id num_cols ∧ (x - meshX my_id num_cols).natAbs = 1)) →
      (meshX dest_id num_cols - x).natAbs + (meshY dest_id num_cols - y).natAbs + 1 =
        (meshX dest_id num_cols - meshX my_id num_cols).natAbs +
          (meshY dest_id num_cols - meshY my_id num_cols).natAbs →
      0 ≤ getRoutingUnitNumber my_id d num_cols ∧
      getRoutingUnitNumber my_id d num_cols < num_rows * num_cols ∧
      ((meshX (getRoutingUnitNumber my_id d num_cols) num_cols = meshX my_id num_cols ∧
          (meshY (getRoutingUnitNumber my_id d num_cols) num_cols
            - meshY my_id num_cols).natAbs = 1) ∨
        (meshY (getRoutingUnitNumber my_id d num_cols) num_cols = meshY my_id num_cols ∧
          (meshX (getRoutingUnitNumber my_id d num_cols) num_cols
            - meshX my_id num_cols).natAbs = 1)) ∧
      manhattan (getRoutingUnitNumber my_id d num_cols) dest_id num_cols + 1 =
        manhattan my_id dest_id num_cols := by
    intro x y hx0 hx1 hy0 hy1 hnext hstep hdist
    obtain ⟨hcx, hcy⟩ := mesh_coords_of_decomp num_cols x y hx0 hx1 hy0
    have hnn : 0 ≤ x + num_cols * y := by
      have := Int.mul_nonneg (show (0 : Int) ≤ num_cols by omega) hy0
      omega
    have hlt := mesh_id_lt num_rows num_cols x y hx1 hy1 hcols
    rw [hnext]
    refine ⟨hnn, hlt, ?_, ?_⟩
    · rw [hcx, hcy]; exact hstep
    · unfold manhattan
      rw [hcx, hcy]
      exact hdist
  rcases hsign with ⟨hd, hs⟩ | ⟨hd, hs⟩ | ⟨hd, hs⟩ | ⟨hd, hs⟩
  · subst hd
    refine key (meshX my_id num_cols) (meshY my_id num_cols + 1) mx0 mx1 (by omega) (by omega)
      ?_ (Or.inl ⟨rfl, by omega⟩) (by omega)
    have hn : getRoutingUnitNumber my_id .North num_cols = my_id + num_cols := by
      simp [getRoutingUnitNumber]
    rw [hn, Int.mul_add]
    omega
  · subst hd
    refine key (meshX my_id num_cols) (meshY my_id num_cols - 1) mx0 mx1 (by omega) (by omega)
      ?_ (Or.inl ⟨rfl, by omega⟩) (by omega)
    have hn : getRoutingUnitNumber my_id .South num_cols = my_id - num_cols := by
      simp [getRoutingUnitNumber]
    rw [hn, Int.mul_sub]
    omega
  · subst hd
    refine key (meshX my_id num_cols + 1) (meshY my_id num_cols) (by omega) (by omega) my0 my1
      ?_ (Or.inr ⟨rfl, by omega⟩) (by omega)
    have hn : getRoutingUnitNumber my_id .East num_cols = my_id + 1 := by
      simp [getRoutingUnitNumber]
    rw [hn]
    omega
  · subst hd
    refine key (meshX my_id num_cols - 1) (meshY my_id num_cols) (by omega) (by omega) my0 my1
      ?_ (Or.inr ⟨rfl, by omega⟩) (by omega)
    have hn : getRoutingUnitNumber my_id .West num_cols = my_id - 1 := by
      simp [getRoutingUnitNumber]
    rw [hn]
    omega

/-- One more hop adds to the count of the pair it records, and to no other
count. -/
theorem creditCount_snoc (routers : List Int) (directions : List PortDirection)
    (cur next : Int) (d : PortDirection) (r : Int) (d' : PortDirection)
    (hlen : routers.length = directions.length + 1)
    (hlast : routers.getLast? = some cur) :
    creditCount (routers ++ [next]) (directions ++ [d]) r d' =
      creditCount routers directions r d' + (if cur = r ∧ d = d' then 1 else 0) := by
  have hcur : routers[directions.length]? = some cur := by
    rw [List.getLast?_eq_getElem?, hlen] at hlast
    simpa using hlast
  unfold creditCount
  rw [List.length_append, List.length_singleton, List.range_succ, List.filter_append,
    List.length_append]
  congr 1
  · congr 1
    apply List.filter_congr
    intro i hi
    have hi' : i < directions.length := List.mem_range.mp hi
    rw [List.getElem?_append_left (by omega), List.getElem?_append_left hi']
  · have h1 : (routers ++ [next])[directions.length]? = some cur := by
      rw [List.getElem?_append_left (by omega)]
      exact hcur
    have h2 : (directions ++ [d])[directions.length]? = some d := by
      rw [List.getElem?_append_right (le_refl _)]
      simp
    by_cases hp : cur = r ∧ d = d'
    · obtain ⟨hp1, hp2⟩ := hp
      subst hp1 hp2
      simp [h1, h2]
    · have hq : ¬ (some cur = some r ∧ some d = some d') := by
        intro hc
        exact hp ⟨by simpa using hc.1, by simpa using hc.2⟩
      simp [h1, h2, hp, hq]

/-- One hop of a flit that is on its way and not yet at the destination: the
hop is made, and the flit is on its way with one hop more. -/
theorem EnRoute.hop (net : GarnetNetwork) (unitAt : Int → RoutingUnit) (route : RouteInfo)
    (src : Int) (hops : Nat) (s : Transit)
    (hunits : ∀ id, (unitAt id).m_router_id = id)
    (hrows : 0 < net.numRows) (hcols : 0 < net.numCols)
    (hdest0 : 0 ≤ route.dest_router)
    (hdest : route.dest_router < net.numRows * net.numCols)
    (h : EnRoute net src route.dest_router hops s)
    (hne : s.router ≠ route.dest_router) :
    ∃ s', routeHop unitAt route s = .ok s' ∧
      EnRoute net src route.dest_router (hops + 1) s' := by
  obtain ⟨e1, e2, e3, e4, hr0, hr1, hdist, hdl, hpl, hlast, hhead, hpath, hledger⟩ := h
  have hne' : route.dest_router ≠ (unitAt s.router).m_router_id := by
    rw [hunits]
    exact fun heq => hne heq.symm
  obtain ⟨hhops, hres⟩ := outportComputeDXY_eq s.net (unitAt s.router) route s.flit
    (by rw [e1]; exact hrows) (by rw [e2]; exact hcols) hne'
  rw [hunits, e2] at hhops hres
  obtain ⟨hcard, hdec, hframe⟩ := dxyChoose_effect _ _ (s.net.trust s.router) hhops
  have hsign := dxyChoose_sign _ _ (s.net.trust s.router) hhops
  obtain ⟨hn0, hn1, -, hprog⟩ := neighbour_progress net.numRows net.numCols s.router
    route.dest_router _ hcols hr0 hr1 hdest0 hdest hsign
  generalize dxyChoose
    (meshX route.dest_router net.numCols - meshX s.router net.numCols)
    (meshY route.dest_router net.numCols - meshY s.router net.numCols)
    (s.net.trust s.router) = chosen at hres hcard hdec hframe hn0 hn1 hprog
  refine ⟨{ net := s.net.setTrust s.router chosen.2
            router := getRoutingUnitNumber s.router chosen.1 net.numCols
            flit := { direction := s.flit.direction ++ [chosen.1]
                      path := s.flit.path ++
                        [getRoutingUnitNumber s.router chosen.1 net.numCols] } }, ?_, ?_⟩
  · unfold routeHop
    rw [hres]
    simp only [Flit.add_to_direction, List.getLastD_concat, e2]
  · have hdist' : manhattan (getRoutingUnitNumber s.router chosen.1 net.numCols)
        route.dest_router net.numCols + (hops + 1) =
        manhattan src route.dest_router net.numCols := by omega
    refine ⟨e1, e2, e3, e4, hn0, hn1, hdist', by simp [hdl], by simp [hpl], by simp, ?_, ?_,
      ?_⟩
    · cases hp : s.flit.path with
      | nil => rw [hp] at hpl; simp at hpl
      | cons a rest =>
        rw [hp] at hhead
        simpa using hhead
    · intro r hr
      rcases List.mem_append.mp hr with hr | hr
      · exact hpath r hr
      · have : r = getRoutingUnitNumber s.router chosen.1 net.numCols := by simpa using hr
        rw [this]
        exact ⟨hn0, hn1⟩
    · intro r d hd
      show ((s.net.setTrust s.router chosen.2).trust r).counter d +
          (creditCount (s.flit.path ++ [getRoutingUnitNumber s.router chosen.1 net.numCols])
            (s.flit.direction ++ [chosen.1]) r d : Int) = (net.trust r).counter d
      rw [creditCount_snoc s.flit.path s.flit.direction s.router _ _ r d (by omega) hlast]
      have hold := hledger r d hd
      by_cases hrr : r = s.router
      · subst hrr
        by_cases hdd : d = chosen.1
        · subst hdd
          simp only [GarnetNetwork.setTrust, if_true, and_self]
          push_cast
          omega
        · have hdd' : ¬ chosen.1 = d := fun hc => hdd hc.symm
          have := hframe d hdd
          simp only [GarnetNetwork.setTrust, if_true, hdd', and_false, if_false]
          push_cast
          omega
      · have hrr' : ¬ s.router = r := fun hc => hrr hc.symm
        simp only [GarnetNetwork.setTrust, hrr, hrr', if_false, false_and]
        push_cast
        omega

/-- A router is no hop away from itself, and only from itself. -/
theorem manhattan_eq_zero_iff (a b num_cols : Int) : manhattan a b num_cols = 0 ↔ a = b := by
  constructor
  · intro h
    unfold manhattan at h
    exact eq_of_meshX_eq_of_meshY_eq a b num_cols (by omega) (by omega)
  · intro h
    subst h
    simp [manhattan]

/-- A flit that has just been injected is on its way with no hop made. -/
theorem EnRoute.start (net : GarnetNetwork) (src dest : Int)
    (hsrc0 : 0 ≤ src) (hsrc : src < net.numRows * net.numCols) :
    EnRoute net src dest 0 (Transit.start net src) := by
  refine ⟨rfl, rfl, rfl, rfl, hsrc0, hsrc, rfl, rfl, rfl, rfl, rfl, ?_, ?_⟩
  · intro r hr
    have : r = src := by simpa [Transit.start] using hr
    rw [this]
    exact ⟨hsrc0, hsrc⟩
  · intro r d _
    simp [Transit.start, creditCount]

/-- As many hops as the flit is away from the destination at most: the hops
are made, and the flit is on its way with that many hops more. -/
theorem EnRoute.hops (net : GarnetNetwork) (unitAt : Int → RoutingUnit) (route : RouteInfo)
    (src : Int)
    (hunits : ∀ id, (unitAt id).m_router_id = id)
    (hrows : 0 < net.numRows) (hcols : 0 < net.numCols)
    (hdest0 : 0 ≤ route.dest_router)
    (hdest : route.dest_router < net.numRows * net.numCols) :
    ∀ (k done : Nat) (s : Transit), EnRoute net src route.dest_router done s →
      k ≤ manhattan s.router route.dest_router net.numCols →
      ∃ s', routeHops unitAt route k s = .ok s' ∧
        EnRoute net src route.dest_router (done + k) s' := by
  intro k
  induction k with
  | zero => intro done s h _; exact ⟨s, rfl, h⟩
  | succ k ih =>
    intro done s h hk
    have hne : s.router ≠ route.dest_router := by
      intro heq
      rw [(manhattan_eq_zero_iff _ _ _).mpr heq] at hk
      omega
    obtain ⟨s₁, hs₁, h₁⟩ :=
      EnRoute.hop net unitAt route src done s hunits hrows hcols hdest0 hdest h hne
    have hd := h.2.2.2.2.2.2.1
    have hd₁ := h₁.2.2.2.2.2.2.1
    obtain ⟨s', hs', h'⟩ := ih (done + 1) s₁ h₁ (by omega)
    refine ⟨s', ?_, ?_⟩
    · unfold routeHops
      rw [hs₁]
      exact hs'
    · rw [show done + (k + 1) = done + 1 + k by omega]
      exact h'

/-- C21: on a `rows` by `cols` mesh, for this router and a destination that
are distinct ids in `[0, rows * cols)` and for every ledger,
`outportComputeDXY` returns, and with `d` the direction it chose and `next
= getRoutingUnitNumber(my_id, d, cols)`: `next` is in `[0, rows * cols)`,
differs from this router in exactly one coordinate and by exactly one
there, and is one hop nearer to the destination.  Hence a flit that follows
the chosen directions from this router is at the destination after exactly
`|x_hops| + |y_hops|` hops, and at another router after any smaller number
of hops. -/
theorem outportComputeDXY_progress (net : GarnetNetwork) (ru : RoutingUnit)
    (route : RouteInfo) (t_flit : Flit)
    (hrows : 0 < net.numRows) (hcols : 0 < net.numCols)
    (hmy0 : 0 ≤ ru.m_router_id) (hmy : ru.m_router_id < net.numRows * net.numCols)
    (hdest0 : 0 ≤ route.dest_router)
    (hdest : route.dest_router < net.numRows * net.numCols)
    (hne : route.dest_router ≠ ru.m_router_id) :
    (∃ res d, outportComputeDXY net ru route t_flit = .ok res ∧
      res.flit.direction = t_flit.direction ++ [d] ∧
      0 ≤ getRoutingUnitNumber ru.m_router_id d net.numCols ∧
      getRoutingUnitNumber ru.m_router_id d net.numCols < net.numRows * net.numCols ∧
      ((meshX (getRoutingUnitNumber ru.m_router_id d net.numCols) net.numCols =
            meshX ru.m_router_id net.numCols ∧
          (meshY (getRoutingUnitNumber ru.m_router_id d net.numCols) net.numCols
            - meshY ru.m_router_id net.numCols).natAbs = 1) ∨
        (meshY (getRoutingUnitNumber ru.m_router_id d net.numCols) net.numCols =
            meshY ru.m_router_id net.numCols ∧
          (meshX (getRoutingUnitNumber ru.m_router_id d net.numCols) net.numCols
            - meshX ru.m_router_id net.numCols).natAbs = 1)) ∧
      manhattan (getRoutingUnitNumber ru.m_router_id d net.numCols) route.dest_router
          net.numCols + 1 =
        manhattan ru.m_router_id route.dest_router net.numCols) ∧
    (∀ unitAt : Int → RoutingUnit, (∀ id, (unitAt id).m_router_id = id) →
      (∃ s, routeHops unitAt route
          (manhattan ru.m_router_id route.dest_router net.numCols)
          (Transit.start net ru.m_router_id) = .ok s ∧
        s.router = route.dest_router ∧
        s.flit.direction.length = manhattan ru.m_router_id route.dest_router net.numCols ∧
        s.flit.path.getLast? = some route.dest_router) ∧
      (∀ k, k < manhattan ru.m_router_id route.dest_router net.numCols →
        ∃ s, routeHops unitAt route k (Transit.start net ru.m_router_id) = .ok s ∧
          s.router ≠ route.dest_router)) := by
  constructor
  · obtain ⟨hhops, hres⟩ := outportComputeDXY_eq net ru route t_flit hrows hcols hne
    have hsign := dxyChoose_sign _ _ (net.trust ru.m_router_id) hhops
    obtain ⟨h0, h1, h2, h3⟩ := neighbour_progress net.numRows net.numCols ru.m_router_id
      route.dest_router _ hcols hmy0 hmy hdest0 hdest hsign
    exact ⟨_, _, hres, rfl, h0, h1, h2, h3⟩
  · intro unitAt hunits
    have hstart := EnRoute.start net ru.m_router_id route.dest_router hmy0 hmy
    have hwalk := EnRoute.hops net unitAt route ru.m_router_id hunits hrows hcols hdest0 hdest
    constructor
    · obtain ⟨s, hs, h⟩ := hwalk (manhattan ru.m_router_id route.dest_router net.numCols) 0
        (Transit.start net ru.m_router_id) hstart (le_refl _)
      rw [Nat.zero_add] at h
      obtain ⟨-, -, -, -, -, -, hdist, hdl, -, hlast, -, -, -⟩ := h
      have hat : s.router = route.dest_router :=
        (manhattan_eq_zero_iff _ _ net.numCols).mp (by omega)
      refine ⟨s, hs, hat, hdl, ?_⟩
      rw [hlast, hat]
    · intro k hk
      obtain ⟨s, hs, h⟩ := hwalk k 0 (Transit.start net ru.m_router_id) hstart
        (by simpa [Transit.start] using le_of_lt hk)
      rw [Nat.zero_add] at h
      obtain ⟨-, -, -, -, -, -, hdist, -⟩ := h
      refine ⟨s, hs, ?_⟩
      intro hat
      rw [(manhattan_eq_zero_iff _ _ net.numCols).mpr hat] at hdist
      omega

/-- C21 at a concrete input: on the 4x4 mesh, a flit for router 5 that
follows the chosen directions from router 0 is at router 5 after two
hops. -/
theorem outportComputeDXY_progress_witness :
    ∃ s, routeHops freshUnits (routeTo 5) 2 (Transit.start mesh4x4 0) = .ok s ∧
      s.router = 5 ∧ s.flit.direction.length = 2 := by
  have h := (outportComputeDXY_progress mesh4x4 cornerUnit (routeTo 5) freshFlit
    (by decide) (by decide) (by decide) (by decide) (by decide) (by decide) (by decide)).2
    freshUnits (fun _ => rfl)
  obtain ⟨s, hs, hat, hlen, -⟩ := h.1
  exact ⟨s, hs, hat, hlen⟩

/-! ## Decrement and credit round trip -/

/-- On a mesh whose routers `getRouter` can all look up, a flit routed hop by
hop from `src` arrives at the destination with a history of one router more
than directions; the feedback pass on that history completes exactly when
the network has at least sixteen routers, and when it completes the ledger
of every router is what it was before the flit was injected, also as
`outportCompute` at the destination returns it. -/
theorem round_trip_restores_ledger (net : GarnetNetwork) (unitAt : Int → RoutingUnit)
    (route : RouteInfo) (src : Int)
    (hunits : ∀ id, (unitAt id).m_router_id = id)
    (hrows : 0 < net.numRows) (hcols : 0 < net.numCols)
    (hall : net.numRows * net.numCols ≤ (net.numRouters : Int))
    (hsrc0 : 0 ≤ src) (hsrc : src < net.numRows * net.numCols)
    (hdest0 : 0 ≤ route.dest_router)
    (hdest : route.dest_router < net.numRows * net.numCols) :
    ∃ s, routeHops unitAt route (manhattan src route.dest_router net.numCols)
        (Transit.start net src) = .ok s ∧
      s.router = route.dest_router ∧
      s.flit.direction.length + 1 = s.flit.path.length ∧
      s.flit.path.head? = some src ∧ s.flit.path.getLast? = some route.dest_router ∧
      ((∃ net', feedbackPass s.net s.flit = .ok net') ↔ 16 ≤ net.numRouters) ∧
      (∀ net', feedbackPass s.net s.flit = .ok net' → ∀ r, net'.trust r = net.trust r) ∧
      (∀ (INFINITE_ : Int) (rand : Nat) (res : Routed),
        outportCompute INFINITE_ s.net rand (unitAt route.dest_router) route s.flit = .ok res →
        ∀ r, res.net.trust r = net.trust r) := by
  have hstart := EnRoute.start net src route.dest_router hsrc0 hsrc
  obtain ⟨s, hs, h⟩ := EnRoute.hops net unitAt route src hunits hrows hcols hdest0 hdest
    (manhattan src route.dest_router net.numCols) 0 (Transit.start net src) hstart (le_refl _)
  rw [Nat.zero_add] at h
  obtain ⟨-, -, e3, -, -, -, hdist, hdl, hpl, hlast, hhead, hpath, hledger⟩ := h
  have hat : s.router = route.dest_router :=
    (manhattan_eq_zero_iff _ _ net.numCols).mp (by omega)
  have hback : ∀ net', feedbackPass s.net s.flit = .ok net' →
      ∀ r, net'.trust r = net.trust r := by
    intro net' hf r
    apply Trust.eq_of_counter_eq
    intro d hd
    rw [feedbackPass_counter s.net net' s.flit hf r d hd]
    exact hledger r d hd
  refine ⟨s, hs, hat, by omega, hhead, by rw [hlast, hat], ?_, hback, ?_⟩
  · rw [feedbackPass_ok_iff, e3]
    constructor
    · rintro ⟨-, h16, -⟩
      exact h16
    · intro h16
      refine ⟨by omega, h16, ?_⟩
      intro i hi
      have hi' : i < s.flit.path.length := by omega
      refine ⟨s.flit.path[i], List.getElem?_eq_getElem hi', ?_⟩
      obtain ⟨h0, h1⟩ := hpath _ (List.getElem_mem hi')
      exact ⟨h0, by omega⟩
  · intro INFINITE_ rand res hres
    obtain ⟨hf, -⟩ := outportCompute_at_destination INFINITE_ s.net rand
      (unitAt route.dest_router) route s.flit res (hunits _).symm hres
    exact hback res.net hf

/-- A single hop and its replay: after `outportComputeDXY` at a router that
`getRouter` can look up, the crediting loop on the history `([r, r'], [d])`,
with `d` the direction the call appended, completes and leaves the ledger of
every router as it was before the call. -/
theorem single_hop_replay (net : GarnetNetwork) (ru : RoutingUnit) (route : RouteInfo)
    (t_flit : Flit) (next : Int)
    (hrows : 0 < net.numRows) (hcols : 0 < net.numCols)
    (hne : route.dest_router ≠ ru.m_router_id)
    (hmy0 : 0 ≤ ru.m_router_id) (hmy : ru.m_router_id < (net.numRouters : Int)) :
    ∃ res d, outportComputeDXY net ru route t_flit = .ok res ∧
      res.flit.direction = t_flit.direction ++ [d] ∧
      creditLoop [d] [ru.m_router_id, next] 0 1 res.net =
        .ok (creditStep res.net ru.m_router_id d) ∧
      ∀ r, (creditStep res.net ru.m_router_id d).trust r = net.trust r := by
  obtain ⟨hhops, hres⟩ := outportComputeDXY_eq net ru route t_flit hrows hcols hne
  obtain ⟨hcard, hdec, hframe⟩ := dxyChoose_effect _ _ (net.trust ru.m_router_id) hhops
  generalize dxyChoose
    (meshX route.dest_router net.numCols - meshX ru.m_router_id net.numCols)
    (meshY route.dest_router net.numCols - meshY ru.m_router_id net.numCols)
    (net.trust ru.m_router_id) = chosen at hres hcard hdec hframe
  refine ⟨_, chosen.1, hres, rfl, ?_, ?_⟩
  · have hget : getRouter (net.setTrust ru.m_router_id chosen.2) ru.m_router_id =
        .ok ru.m_router_id := by
      unfold getRouter
      rw [if_pos ⟨hmy0, hmy⟩]
    simp only [creditLoop, List.getElem?_cons_zero, hget]
  · intro r
    apply Trust.eq_of_counter_eq
    intro d hd
    rw [creditStep_counter _ _ _ r d hd]
    by_cases hrr : r = ru.m_router_id
    · subst hrr
      by_cases hdd : d = chosen.1
      · subst hdd
        simp only [GarnetNetwork.setTrust, if_true, and_self]
        omega
      · have hdd' : ¬ chosen.1 = d := fun hc => hdd hc.symm
        have := hframe d hdd
        simp only [GarnetNetwork.setTrust, if_true, hdd', and_false, if_false]
        omega
    · have hrr' : ¬ ru.m_router_id = r := fun hc => hrr hc.symm
      simp [GarnetNetwork.setTrust, hrr, hrr']

/-- The code at the failing input of C22: on a 2x2 mesh of four routers with
every counter at 3, a flit routed from router 0 to router 1 makes one hop
East, which lowers East at router 0 to 2; the feedback pass at router 1 on
the recorded history `([0, 1], [East])` then stops at a failed router
lookup, and so does `outportCompute`, so East at router 0 is not restored
to 3. -/
theorem round_trip_on_four_routers :
    ∃ s, routeHops freshUnits (routeTo 1) (manhattan 0 1 mesh2x2.numCols)
        (Transit.start mesh2x2 0) = .ok s ∧
      s.router = 1 ∧ s.flit.path = [0, 1] ∧ s.flit.direction = [.East] ∧
      mesh2x2.trust 0 = { north := 3, south := 3, east := 3, west := 3 } ∧
      s.net.trust 0 = { north := 3, south := 3, east := 2, west := 3 } ∧
      feedbackPass s.net s.flit = .error .outOfRange ∧
      outportCompute 10000 s.net 0 neighbourUnit (routeTo 1) s.flit = .error .outOfRange :=
  ⟨_, rfl, rfl, rfl, rfl, rfl, rfl, rfl, rfl⟩

/-- The round trip on the 4x4 mesh: a flit routed from router 0 to router 5
arrives after two hops, the feedback pass on its history completes, and it
leaves every router's ledger as it was before the flit was injected. -/
theorem round_trip_on_sixteen_routers :
    ∃ s net', routeHops freshUnits (routeTo 5) 2 (Transit.start mesh4x4 0) = .ok s ∧
      s.router = 5 ∧ feedbackPass s.net s.flit = .ok net' ∧
      ∀ r, net'.trust r = mesh4x4.trust r := by
  obtain ⟨s, hs, hat, -, -, -, hiff, hback, -⟩ :=
    round_trip_restores_ledger mesh4x4 freshUnits (routeTo 5) 0 (fun _ => rfl)
      (by decide) (by decide) (by decide) (by decide) (by decide) (by decide) (by decide)
  obtain ⟨net', hnet'⟩ := hiff.mpr (by decide)
  exact ⟨s, net', hs, hat, hnet', hback net' hnet'⟩

/-! ## Static route selector: selection on the inputs -/

/-- On an ordered vnet the outcome of `lookupRoutingTable`, a link or a fault,
depends neither on the random draw nor on anything of the network but the
ordering flag. -/
theorem lookupRoutingTable_ordered_congr (INFINITE_ : Int) (net net' : GarnetNetwork)
    (rand rand' : Nat) (ru : RoutingUnit) (vnet : Nat) (msg : NetDest)
    (ho : net.isVNetOrdered vnet = true) (ho' : net'.isVNetOrdered vnet = true) :
    lookupRoutingTable INFINITE_ net' rand' ru vnet msg =
      lookupRoutingTable INFINITE_ net rand ru vnet msg := by
  unfold lookupRoutingTable
  rw [ho, ho']
  simp

/-- C3, as the code has it: on an ordered vnet that is a valid index, with a
weight for every link of the vnet, any two calls with the same tables, vnet
and destination have the same outcome, whatever the random draw and the
ledger are; and whenever a candidate of weight at most `INFINITE_` exists,
the call returns the first collected candidate `c`, which is an
intersecting link of minimum weight with the smallest index among the
intersecting links of minimum weight. -/
theorem lookupRoutingTable_ordered_smallest_min_link (INFINITE_ : Int) (net : GarnetNetwork)
    (rand : Nat) (ru : RoutingUnit) (vnet : Nat) (msg : NetDest) (links : List NetDest)
    (hv : ru.m_routing_table[vnet]? = some links)
    (hw : links.length ≤ ru.m_weight_table.length)
    (ho : net.isVNetOrdered vnet = true) :
    (∀ (net' : GarnetNetwork) (rand' : Nat), net'.isVNetOrdered vnet = true →
      lookupRoutingTable INFINITE_ net' rand' ru vnet msg =
        lookupRoutingTable INFINITE_ net rand ru vnet msg) ∧
    ((∃ k w, IsCandidate msg ru.m_weight_table links k w ∧ w ≤ INFINITE_) →
      ∃ c, (∃ n cs, outputLinkCandidates INFINITE_ ru vnet msg = .ok (n, c :: cs)) ∧
        lookupRoutingTable INFINITE_ net rand ru vnet msg = .ok c ∧
        IsMinCandidate msg ru.m_weight_table links c ∧
        (∀ k, IsMinCandidate msg ru.m_weight_table links k → c ≤ k) ∧
        ∀ (net' : GarnetNetwork) (rand' : Nat), net'.isVNetOrdered vnet = true →
          lookupRoutingTable INFINITE_ net' rand' ru vnet msg = .ok c) := by
  refine ⟨fun net' rand' ho' =>
    lookupRoutingTable_ordered_congr INFINITE_ net net' rand rand' ru vnet msg ho ho', ?_⟩
  intro hex
  obtain ⟨n, cs, hc⟩ := outputLinkCandidates_total INFINITE_ ru vnet msg links hv hw
  have hne : cs ≠ [] := (candidates_ne_nil_iff INFINITE_ ru vnet msg links n cs hv hc).mpr hex
  cases cs with
  | nil => exact absurd rfl hne
  | cons c rest =>
    obtain ⟨h1, h2, h3, h4⟩ := lookupRoutingTable_ordered_first INFINITE_ net rand ru vnet msg
      links n c rest hv ho hc
    exact ⟨c, ⟨n, rest, hc⟩, h1, h2, h3, h4⟩

/-- C3 at a concrete input: on the three-link unit, destination node 1 and
the ordered vnet 0, link 1 is returned for every draw and every ledger, and
no intersecting link of minimum weight has a smaller index. -/
theorem lookupRoutingTable_ordered_smallest_min_link_witness :
    lookupRoutingTable 10000 mesh4x4 7 threeLinkUnit 0 ⟨[1]⟩ = .ok 1 ∧
    (∀ k, IsMinCandidate ⟨[1]⟩ threeLinkUnit.m_weight_table
      [⟨[0, 1]⟩, ⟨[1]⟩, ⟨[1, 2]⟩] k → 1 ≤ k) ∧
    ∀ (net' : GarnetNetwork) (rand' : Nat), net'.isVNetOrdered 0 = true →
      lookupRoutingTable 10000 net' rand' threeLinkUnit 0 ⟨[1]⟩ = .ok 1 := by
  obtain ⟨c, -, hres, -, hleast, hall⟩ :=
    (lookupRoutingTable_ordered_smallest_min_link 10000 mesh4x4 7 threeLinkUnit 0 ⟨[1]⟩
      [⟨[0, 1]⟩, ⟨[1]⟩, ⟨[1, 2]⟩] rfl (by decide) rfl).2
      ⟨1, 1, ⟨⟨[1]⟩, rfl, rfl, rfl⟩, by decide⟩
  have h1 : lookupRoutingTable 10000 mesh4x4 7 threeLinkUnit 0 ⟨[1]⟩ = .ok 1 := rfl
  have hc : c = 1 := by
    rw [h1] at hres
    simpa using hres.symm
  subst hc
  exact ⟨hres, hleast, hall⟩

/-- C3 as stated fails: with `INFINITE_ = 10000`, on the ordered vnet 0 the
only link intersects the destination and is therefore the candidate of
minimum weight (10001), yet the call returns no link: it ends in the
no-route error. -/
theorem lookupRoutingTable_ordered_heavy_link_fatal :
    mesh4x4.isVNetOrdered 0 = true ∧
    heavyLinkUnit.m_routing_table[0]? = some [⟨[0]⟩] ∧
    heavyLinkUnit.m_weight_table = [10001] ∧
    IsMinCandidate ⟨[0]⟩ heavyLinkUnit.m_weight_table [⟨[0]⟩] 0 ∧
    lookupRoutingTable 10000 mesh4x4 7 heavyLinkUnit 0 ⟨[0]⟩ = .error .noRoute := by
  refine ⟨rfl, rfl, rfl, ⟨10001, ⟨⟨[0]⟩, rfl, rfl, rfl⟩, ?_⟩, rfl⟩
  rintro j wj ⟨e, hje, -, hw⟩
  have hj : j = 0 := by
    obtain ⟨hlt, -⟩ := List.getElem?_eq_some_iff.mp hje
    simpa using hlt
  subst hj
  have hw' : (10001 : Int) = wj := by
    have h0 : heavyLinkUnit.m_weight_table[0]? = some 10001 := rfl
    rw [h0] at hw
    simpa using hw
  omega

/-- C4, as the code has it: on an unordered vnet that is a valid index, with
a weight for every link of the vnet, whenever a candidate of weight at most
`INFINITE_` exists, the scans collect a non-empty list `cs` of `n`
candidates that is strictly increasing and holds exactly the intersecting
links of minimum weight; every draw `r` returns the element of `cs` at
position `r % n`, a minimum-weight candidate; every minimum-weight
candidate is returned for some draw below `n`; and two draws below `n` that
return the same link are equal. -/
theorem lookupRoutingTable_unordered_every_min_link (INFINITE_ : Int) (net : GarnetNetwork)
    (ru : RoutingUnit) (vnet : Nat) (msg : NetDest) (links : List NetDest)
    (hv : ru.m_routing_table[vnet]? = some links)
    (hw : links.length ≤ ru.m_weight_table.length)
    (hu : net.isVNetOrdered vnet = false)
    (hex : ∃ k w, IsCandidate msg ru.m_weight_table links k w ∧ w ≤ INFINITE_) :
    ∃ cs : List Nat, cs ≠ [] ∧
      outputLinkCandidates INFINITE_ ru vnet msg = .ok (cs.length, cs) ∧
      cs.Pairwise (fun a b => a < b) ∧
      (∀ k, k ∈ cs ↔ IsMinCandidate msg ru.m_weight_table links k) ∧
      (∀ r, ∃ l, cs[r % cs.length]? = some l ∧
        lookupRoutingTable INFINITE_ net r ru vnet msg = .ok l ∧
        IsMinCandidate msg ru.m_weight_table links l) ∧
      (∀ k, IsMinCandidate msg ru.m_weight_table links k →
        ∃ r, r < cs.length ∧ lookupRoutingTable INFINITE_ net r ru vnet msg = .ok k) ∧
      (∀ r₁ r₂, r₁ < cs.length → r₂ < cs.length →
        lookupRoutingTable INFINITE_ net r₁ ru vnet msg =
          lookupRoutingTable INFINITE_ net r₂ ru vnet msg → r₁ = r₂) := by
  obtain ⟨n, cs, hc⟩ := outputLinkCandidates_total INFINITE_ ru vnet msg links hv hw
  have hne : cs ≠ [] := (candidates_ne_nil_iff INFINITE_ ru vnet msg links n cs hv hc).mpr hex
  obtain ⟨hn, h1, h2, h3, h4, h5⟩ := lookupRoutingTable_unordered_draw INFINITE_ net ru vnet
    msg links n cs hv hu hc hne
  subst hn
  exact ⟨cs, hne, hc, h1, h2, h3, h4, h5⟩

/-- C4 at a concrete input: on the three-link unit, destination node 1 and
the unordered vnet 1, every draw returns a minimum-weight link and every
minimum-weight link is returned for draw 0 or draw 1. -/
theorem lookupRoutingTable_unordered_every_min_link_witness :
    (∀ r, ∃ l, lookupRoutingTable 10000 mesh4x4 r threeLinkUnit 1 ⟨[1]⟩ = .ok l ∧
      IsMinCandidate ⟨[1]⟩ threeLinkUnit.m_weight_table [⟨[0, 1]⟩, ⟨[1]⟩, ⟨[1, 2]⟩] l) ∧
    (∀ k, IsMinCandidate ⟨[1]⟩ threeLinkUnit.m_weight_table [⟨[0, 1]⟩, ⟨[1]⟩, ⟨[1, 2]⟩] k →
      ∃ r, r < 2 ∧ lookupRoutingTable 10000 mesh4x4 r threeLinkUnit 1 ⟨[1]⟩ = .ok k) := by
  obtain ⟨cs, -, hc, -, -, hdraw, hall, -⟩ :=
    lookupRoutingTable_unordered_every_min_link 10000 mesh4x4 threeLinkUnit 1 ⟨[1]⟩
      [⟨[0, 1]⟩, ⟨[1]⟩, ⟨[1, 2]⟩] rfl (by decide) rfl
      ⟨1, 1, ⟨⟨[1]⟩, rfl, rfl, rfl⟩, by decide⟩
  have hcs : cs = [1, 2] := by
    have h0 : outputLinkCandidates 10000 threeLinkUnit 1 ⟨[1]⟩ = .ok (2, [1, 2]) := rfl
    rw [h0] at hc
    simp only [Except.ok.injEq, Prod.mk.injEq] at hc
    exact hc.2.symm
  subst hcs
  refine ⟨?_, hall⟩
  intro r
  obtain ⟨l, -, hl, hmin⟩ := hdraw r
  exact ⟨l, hl, hmin⟩

/-- C4 as stated fails: with `INFINITE_ = 10000`, on the unordered vnet 1
both links intersect the destination and link 0 is the candidate of minimum
weight (20000), yet no draw returns a link: every draw ends in the no-route
error. -/
theorem lookupRoutingTable_unordered_heavy_links_fatal :
    mesh4x4.isVNetOrdered 1 = false ∧
    twoHeavyLinksUnit.m_routing_table[1]? = some [⟨[7]⟩, ⟨[7]⟩] ∧
    twoHeavyLinksUnit.m_weight_table = [20000, 30000] ∧
    IsMinCandidate ⟨[7]⟩ twoHeavyLinksUnit.m_weight_table [⟨[7]⟩, ⟨[7]⟩] 0 ∧
    ∀ r, lookupRoutingTable 10000 mesh4x4 r twoHeavyLinksUnit 1 ⟨[7]⟩ = .error .noRoute := by
  refine ⟨rfl, rfl, rfl, ⟨20000, ⟨⟨[7]⟩, rfl, rfl, rfl⟩, ?_⟩, ?_⟩
  · rintro j wj ⟨e, hje, -, hw⟩
    have hj : j < 2 := by
      obtain ⟨hlt, -⟩ := List.getElem?_eq_some_iff.mp hje
      simpa using hlt
    have h0 : twoHeavyLinksUnit.m_weight_table[0]? = some 20000 := rfl
    have h1 : twoHeavyLinksUnit.m_weight_table[1]? = some 30000 := rfl
    interval_cases j
    · rw [h0] at hw
      have : (20000 : Int) = wj := by simpa using hw
      omega
    · rw [h1] at hw
      have : (30000 : Int) = wj := by simpa using hw
      omega
  · intro r
    exact lookupRoutingTable_of_no_candidates 10000 mesh4x4 r twoHeavyLinksUnit 1 ⟨[7]⟩ 0 rfl

/-! ## The fixed bound of the tracing loops, at the destination router -/

/-- The code at the failing input of C9: on a 2x2 mesh of four routers, the
flit that went from router 0 East to router 1 has a history of one
direction and two routers, all of them routers of the network, and names
the pair (router 0, East) once; yet the feedback pass stops at a failed
router lookup before the crediting loop, and `outportCompute` at router 1
returns no network in which East at router 0 is raised. -/
theorem feedbackPass_no_credit_on_four_routers :
    oneHopFlit.direction.length + 1 = oneHopFlit.path.length ∧
    (∀ r ∈ oneHopFlit.path, 0 ≤ r ∧ r < (mesh2x2.numRouters : Int)) ∧
    creditCount oneHopFlit.path oneHopFlit.direction 0 .East = 1 ∧
    traceTrusts mesh2x2 0 16 = .error .outOfRange ∧
    feedbackPass mesh2x2 oneHopFlit = .error .outOfRange ∧
    (∀ (INFINITE_ : Int) (rand : Nat),
      outportCompute INFINITE_ mesh2x2 rand neighbourUnit (routeTo 1) oneHopFlit
        = .error .outOfRange) := by
  refine ⟨rfl, by decide, rfl, rfl, rfl, ?_⟩
  intro INFINITE_ rand
  unfold outportCompute
  have hd : (routeTo 1).dest_router = neighbourUnit.m_router_id := rfl
  have hf : feedbackPass mesh2x2 oneHopFlit = .error .outOfRange := rfl
  rw [if_pos hd, hf]

/-- The code at the failing input of C11: on a 2x2 mesh of four routers,
router 1 is the destination of the flit that went from router 0 East to
router 1, and `lookupRoutingTable(route.vnet, route.net_dest)` gives link
0; yet `outportCompute` returns no port: it stops at a failed router lookup
of the feedback pass. -/
theorem outportCompute_no_port_on_four_routers :
    (routeTo 1).dest_router = neighbourUnit.m_router_id ∧
    lookupRoutingTable 10000 mesh2x2 0 neighbourUnit (routeTo 1).vnet (routeTo 1).net_dest
      = .ok 0 ∧
    outportCompute 10000 mesh2x2 0 neighbourUnit (routeTo 1) oneHopFlit
      = .error .outOfRange :=
  ⟨rfl, rfl, rfl⟩

end Garnet
